import Mathlib

/-!
# Bootloader (`Bootloader/src/BootMain.c`): firmware update from the SD card

A shallow embedding of the boot sequence of `BootMain.c`:
`StartFilesystemAndTest`, the update-flag check of `main`, `flash_firmware`
and `jumpToApplication`.

* Machine integers (`uint32_t`, `UINT`) are natural numbers reduced modulo `2^32`
  wherever the C code computes with them.
* The FatFs library, the ASF NVM driver and the SD/MMC stack are not part of the
  repository sources.  Their calls are modelled by an environment (`Env`) that
  fixes, for one boot, what every driver call answers, and by the card contents
  (`Files`).  The environment is arbitrary: every theorem quantifies over it.
* Every driver call the boot sequence makes is recorded, in program order, as an
  `Event`.  Calls that only log to the serial console (`SerialConsoleWriteString`,
  `snprintf`) and the peripheral initialisation at the top of `main` are not
  recorded.
* The `while` loop of `flash_firmware` is modelled with a bound on its iterations
  (`file_size + 1`); `write_loop_total` shows that the bound is never reached.
* Three routines of the application (`Application/src`) that the update relies on or
  that run next to it are embedded after the bootloader: `ECHO_PIN_ISR`,
  `APDS9960_ReadGesture` and the download of `WifiHandler.c` that creates the flag.
-/

namespace Bootloader

/-! ## Types of the absent library headers -/

/-- FatFs result codes (`ff.h`); `FR_OK` is the only success value. -/
inductive FRESULT
  | FR_OK
  | FR_DISK_ERR
  | FR_INT_ERR
  | FR_NOT_READY
  | FR_NO_FILE
  | FR_NO_PATH
  | FR_INVALID_NAME
  | FR_DENIED
  | FR_EXIST
  | FR_INVALID_OBJECT
  | FR_WRITE_PROTECTED
  | FR_INVALID_DRIVE
  | FR_NOT_ENABLED
  | FR_NO_FILESYSTEM
  | FR_TIMEOUT
  deriving DecidableEq

/-- ASF driver status codes (`status_codes.h`); `STATUS_OK` is the only success value. -/
inductive status_code
  | STATUS_OK
  | STATUS_BUSY
  | STATUS_ERR_BAD_ADDRESS
  | STATUS_ERR_INVALID_ARG
  | STATUS_ERR_DENIED
  | STATUS_ERR_TIMEOUT
  deriving DecidableEq

/-- Status of the SD/MMC memory control access (`ctrl_access.h`). -/
inductive Ctrl_status
  | CTRL_GOOD
  | CTRL_FAIL
  | CTRL_NO_PRESENT
  | CTRL_BUSY
  deriving DecidableEq

open FRESULT status_code Ctrl_status

/-- Constants of the device headers that `BootMain.c` uses but does not define. -/
structure Chip where
  /-- Size in bytes of one flash page, the unit of `nvm_write_buffer`. -/
  NVMCTRL_PAGE_SIZE : Nat
  /-- Size in bytes of one flash row, the unit of `nvm_erase_row`. -/
  NVMCTRL_ROW_SIZE : Nat
  /-- Mask of the table-offset field of the `SCB->VTOR` register. -/
  SCB_VTOR_TBLOFF_Msk : Nat

/-- The values of the SAMD21/SAMW25 device headers: 64-byte pages, 4 pages per row. -/
def samd21 : Chip :=
  { NVMCTRL_PAGE_SIZE := 64, NVMCTRL_ROW_SIZE := 256, SCB_VTOR_TBLOFF_Msk := 0xFFFFFF80 }

/-- The page size is positive and divides the row size, which fits a machine word. -/
def Chip.wf (c : Chip) : Prop :=
  0 < c.NVMCTRL_PAGE_SIZE ∧ c.NVMCTRL_PAGE_SIZE ∣ c.NVMCTRL_ROW_SIZE ∧
    0 < c.NVMCTRL_ROW_SIZE ∧ c.NVMCTRL_ROW_SIZE < 4294967296

/-- One file on the card, as FatFs presents it once opened. -/
structure ImageFile where
  /-- The size `f_size` reports. -/
  fsize : Nat
  /-- What `f_read` answers at read pointer `fptr` when asked for `btr` bytes:
  the result code and the bytes it delivers. -/
  read : Nat → Nat → FRESULT × List Nat

/-- The files of the mounted volume, by path; `none` when the path cannot be opened. -/
abbrev Files := String → Option ImageFile

/-- What the hardware and drivers answer during one boot.  The two NVM answers may
depend on how many NVM driver calls were made before (first argument), so that a
row or page may fail in one flashing attempt and succeed in the next. -/
structure Env where
  /-- Result of `SdCard_Initiate()`. -/
  SdCard_Initiate : Ctrl_status
  /-- Result of `f_mount(LUN_ID_SD_MMC_0_MEM, &fs)`. -/
  f_mount : FRESULT
  /-- Result of `nvm_erase_row(addr)`, given the number of earlier NVM calls. -/
  nvm_erase_row : Nat → Nat → status_code
  /-- Result of `nvm_write_buffer(addr, buffer, length)`, given the number of earlier
  NVM calls. -/
  nvm_write_buffer : Nat → Nat → List Nat → status_code
  /-- Result of `f_unlink("0:FlagA.txt")`, which `main` does not look at. -/
  f_unlink : FRESULT

/-- The driver calls of the boot sequence, with their arguments and answers, and the
calls and returns of `flash_firmware`. -/
inductive Event
  | SdCard_Initiate (st : Ctrl_status)
  | f_mount (res : FRESULT)
  | delay_cycles_ms (ms : Nat)
  | delay_ms (ms : Nat)
  | NVIC_SystemReset
  | f_open (path : String) (res : FRESULT)
  | f_close (path : String)
  | f_read (path : String) (btr : Nat) (res : FRESULT) (bytes_read : Nat)
  | f_unlink (path : String)
  | nvm_erase_row (addr : Nat) (st : status_code)
  | nvm_write_buffer (addr : Nat) (buffer : List Nat) (length : Nat) (st : status_code)
  | flash_firmware (filename : String)
  | flash_firmware_returns (filename : String) (result : Bool)
  | DeinitializeSerialConsole
  | sd_mmc_deinit
  | set_MSP (word_at : Nat)
  | set_VTOR (value : Nat)
  | applicationCodeEntry (vector_at : Nat)
  deriving DecidableEq

/-! ## Machine arithmetic -/

/-- Addition of two `uint32_t` values. -/
def add32 (a b : Nat) : Nat := (a + b) % 4294967296

/-- Subtraction of two `uint32_t` values: the difference modulo `2^32`. -/
def sub32 (a b : Nat) : Nat :=
  if b % 4294967296 ≤ a then (a - b % 4294967296) % 4294967296
  else (a + 4294967296 - b % 4294967296) % 4294967296

/-- Multiplication of two `uint32_t` values. -/
def mul32 (a b : Nat) : Nat := (a * b) % 4294967296

/-! ## Constants of `BootMain.c` -/

/-- `#define APP_START_ADDRESS ((uint32_t) 0x12000)`. -/
def APP_START_ADDRESS : Nat := 0x12000

/-- `#define APP_START_RESET_VEC_ADDRESS (APP_START_ADDRESS + (uint32_t) 0x04)`. -/
def APP_START_RESET_VEC_ADDRESS : Nat := add32 APP_START_ADDRESS 0x04

/-- Path of the update flag. -/
def FLAG_PATH : String := "0:FlagA.txt"

/-- Path of the primary image. -/
def PRIMARY_PATH : String := "0:Application.bin"

/-- Path of the golden image. -/
def GOLDEN_PATH : String := "0:g_application.bin"

/-! ## Library calls -/

/-- The value `f_size(&binFile)` stores into `uint32_t file_size`. -/
def f_size (fil : ImageFile) : Nat := fil.fsize % 4294967296

/-- The call `f_read(&binFile, buffer, btr, &bytes_read)` at read pointer `fptr`:
the result code and the bytes stored at the start of `buffer`.  FatFs stores at most
`btr` bytes. -/
def f_read (fil : ImageFile) (fptr btr : Nat) : FRESULT × List Nat :=
  ((fil.read fptr btr).1, (fil.read fptr btr).2.take btr)

/-- The volume after the call `f_unlink(path)` that returned `res`: the path is no longer
on the volume when the call succeeded, and the volume is unchanged when it was refused. -/
def f_unlink (res : FRESULT) (files : Files) (path : String) : Files :=
  if res = FR_OK then fun p => if p = path then none else files p else files

/-! ## `flash_firmware` -/

/-- The erase loop `for (uint32_t i = 0; i < rows_to_erase; i++)` of `flash_firmware`,
with `n` rows left to erase, loop counter `i` and `clk` earlier NVM calls.  The
result is `false` when the function returned `false` from inside the loop (after
closing the file), together with the calls made and the new NVM call count. -/
def erase_loop (c : Chip) (e : Env) (filename : String) :
    Nat → Nat → Nat → Bool × List Event × Nat
  | 0, _, clk => (true, [], clk)
  | n + 1, i, clk =>
    let addr := add32 APP_START_ADDRESS (mul32 i c.NVMCTRL_ROW_SIZE)
    let erase_status := e.nvm_erase_row clk addr
    if erase_status ≠ STATUS_OK then
      (false, [Event.nvm_erase_row addr erase_status, Event.f_close filename], clk + 1)
    else
      let r := erase_loop c e filename n (i + 1) (clk + 1)
      (r.1, Event.nvm_erase_row addr erase_status :: r.2.1, r.2.2)

/-- The value of `bytes_to_read` in one iteration of the write loop:
`(file_size - total_read >= NVMCTRL_PAGE_SIZE) ? NVMCTRL_PAGE_SIZE : (file_size - total_read)`. -/
def bytes_to_read (c : Chip) (file_size total_read : Nat) : Nat :=
  if sub32 file_size total_read ≥ c.NVMCTRL_PAGE_SIZE then c.NVMCTRL_PAGE_SIZE
  else sub32 file_size total_read

/-- The page buffer after `memset(buffer, 0xFF, NVMCTRL_PAGE_SIZE)` and an `f_read` that
stored `data` at its start. -/
def page_buffer (c : Chip) (data : List Nat) : List Nat :=
  data ++ List.replicate (c.NVMCTRL_PAGE_SIZE - data.length) 0xFF

/-- The loop `while (total_read < file_size)` of `flash_firmware`.  The read pointer
of the file starts at 0 when the file is opened and advances by the bytes each read
delivers, as `total_read` does, so `total_read` is also the read pointer.  `fuel`
bounds the number of iterations; `none` means the bound was too small.  The Boolean
is `false` when the function returned `false` from inside the loop (after closing the
file) and `true` when the loop was left by its condition or by `break`. -/
def write_loop (c : Chip) (e : Env) (filename : String) (binFile : ImageFile)
    (file_size : Nat) : Nat → Nat → Nat → Nat → Option (Bool × List Event × Nat)
  | 0, _, _, _ => none
  | fuel + 1, current_addr, total_read, clk =>
    if total_read < file_size then
      let rd := f_read binFile total_read (bytes_to_read c file_size total_read)
      let read_res := rd.1
      let bytes_read := rd.2.length
      let read_ev :=
        Event.f_read filename (bytes_to_read c file_size total_read) read_res bytes_read
      if read_res ≠ FR_OK then
        some (false, [read_ev, Event.f_close filename], clk)
      else if bytes_read = 0 then
        some (true, [read_ev], clk)
      else
        let buffer := page_buffer c rd.2
        let write_status := e.nvm_write_buffer clk current_addr buffer
        let write_ev :=
          Event.nvm_write_buffer current_addr buffer c.NVMCTRL_PAGE_SIZE write_status
        if write_status ≠ STATUS_OK then
          some (false, [read_ev, write_ev, Event.f_close filename], clk + 1)
        else
          match write_loop c e filename binFile file_size fuel
              (add32 current_addr c.NVMCTRL_PAGE_SIZE) (add32 total_read bytes_read)
              (clk + 1) with
          | none => none
          | some r => some (r.1, read_ev :: write_ev :: r.2.1, r.2.2)
    else
      some (true, [], clk)

/-- The value of `rows_to_erase`:
`(file_size + NVMCTRL_ROW_SIZE - 1) / NVMCTRL_ROW_SIZE` in `uint32_t` arithmetic. -/
def rows_to_erase (c : Chip) (file_size : Nat) : Nat :=
  sub32 (add32 file_size c.NVMCTRL_ROW_SIZE) 1 / c.NVMCTRL_ROW_SIZE

/-- The body of `flash_firmware(filename)` on the volume `files`, with `clk` earlier
NVM calls: the value returned, the calls made, and the new NVM call count.  The
write loop runs at most once per byte of the file. -/
def flash_firmware_body (c : Chip) (e : Env) (files : Files) (filename : String)
    (clk : Nat) : Option (Bool × List Event × Nat) :=
  match files filename with
  | none => some (false, [Event.f_open filename FR_NO_FILE], clk)
  | some binFile =>
    let file_size := f_size binFile
    if file_size < 1024 then
      some (false, [Event.f_open filename FR_OK, Event.f_close filename], clk)
    else
      let er := erase_loop c e filename (rows_to_erase c file_size) 0 clk
      if er.1 = false then
        some (false, Event.f_open filename FR_OK :: er.2.1, er.2.2)
      else
        let current_addr := APP_START_ADDRESS
        match write_loop c e filename binFile file_size (file_size + 1)
            current_addr 0 er.2.2 with
        | none => none
        | some wr =>
          if wr.1 = false then
            some (false, Event.f_open filename FR_OK :: (er.2.1 ++ wr.2.1), wr.2.2)
          else
            some (true,
              Event.f_open filename FR_OK :: (er.2.1 ++ wr.2.1 ++ [Event.f_close filename]),
              wr.2.2)

/-- A call of `flash_firmware(filename)`: the body, between the events that mark the
call and its return value. -/
def flash_firmware (c : Chip) (e : Env) (files : Files) (filename : String)
    (clk : Nat) : Option (Bool × List Event × Nat) :=
  match flash_firmware_body c e files filename clk with
  | none => none
  | some r =>
    some (r.1,
      Event.flash_firmware filename :: (r.2.1 ++ [Event.flash_firmware_returns filename r.1]),
      r.2.2)

/-! ## Mounting, hand-off and `main` -/

/-- `StartFilesystemAndTest()`: whether the card is mounted, and the calls made. -/
def StartFilesystemAndTest (e : Env) : Bool × List Event :=
  let sdStatus := e.SdCard_Initiate
  if sdStatus = CTRL_GOOD then
    let res := e.f_mount
    if FR_INVALID_DRIVE = res then
      (false, [Event.SdCard_Initiate sdStatus, Event.f_mount res])
    else
      (true, [Event.SdCard_Initiate sdStatus, Event.f_mount res])
  else
    (false, [Event.SdCard_Initiate sdStatus])

/-- `jumpToApplication()`: the stack pointer is loaded from the word at
`APP_START_ADDRESS`, the vector table is moved, and the reset vector stored at
`APP_START_RESET_VEC_ADDRESS` is called.  The call does not return. -/
def jumpToApplication (c : Chip) : List Event :=
  [Event.set_MSP APP_START_ADDRESS,
   Event.set_VTOR (APP_START_ADDRESS &&& c.SCB_VTOR_TBLOFF_Msk),
   Event.applicationCodeEntry APP_START_RESET_VEC_ADDRESS]

/-- What one boot leaves behind: the calls made, in order, and the files on the card. -/
structure Outcome where
  trace : List Event
  files : Files

/-- The end of `main`: `delay_cycles_ms(100); DeinitializeSerialConsole();
sd_mmc_deinit(); jumpToApplication();`. -/
def exit_bootloader (c : Chip) : List Event :=
  [Event.delay_cycles_ms 100, Event.DeinitializeSerialConsole, Event.sd_mmc_deinit]
    ++ jumpToApplication c

/-- Part 3 of `main` ("STARTS BOOTLOADER HERE"): the flag check, the flashing
attempts and the hand-off to the application. -/
def update_and_launch (c : Chip) (e : Env) (files : Files) : Option Outcome :=
  match files FLAG_PATH with
  | some _ =>
    let flag_check := [Event.f_open FLAG_PATH FR_OK, Event.f_close FLAG_PATH]
    match flash_firmware c e files PRIMARY_PATH 0 with
    | none => none
    | some r1 =>
      if r1.1 = true then
        some { trace := flag_check ++ r1.2.1 ++ [Event.f_unlink FLAG_PATH] ++ exit_bootloader c,
               files := f_unlink e.f_unlink files FLAG_PATH }
      else
        match flash_firmware c e files GOLDEN_PATH r1.2.2 with
        | none => none
        | some r2 =>
          if r2.1 = true then
            some { trace := flag_check ++ r1.2.1 ++ r2.2.1 ++ [Event.f_unlink FLAG_PATH]
                     ++ exit_bootloader c,
                   files := f_unlink e.f_unlink files FLAG_PATH }
          else
            some { trace := flag_check ++ r1.2.1 ++ r2.2.1 ++ exit_bootloader c,
                   files := files }
  | none =>
    some { trace := [Event.f_open FLAG_PATH FR_NO_FILE] ++ exit_bootloader c, files := files }

/-- The function `main`: mount the card, and either reset the device (the reset does not
return) or run the update and launch the application. -/
def main (c : Chip) (e : Env) (files : Files) : Option Outcome :=
  let m := StartFilesystemAndTest e
  if m.1 = false then
    some { trace := m.2 ++ [Event.delay_cycles_ms 5000, Event.NVIC_SystemReset],
           files := files }
  else
    match update_and_launch c e files with
    | none => none
    | some out => some { trace := m.2 ++ [Event.delay_ms 1000] ++ out.trace, files := out.files }

/-! ## Observations on a trace -/

/-- A call of `nvm_erase_row`. -/
def Event.is_erase : Event → Bool
  | .nvm_erase_row _ _ => true
  | _ => false

/-- A call of `nvm_write_buffer`. -/
def Event.is_write : Event → Bool
  | .nvm_write_buffer _ _ _ _ => true
  | _ => false

/-- A call of `nvm_erase_row` that did not return `STATUS_OK`. -/
def Event.erase_failed : Event → Bool
  | .nvm_erase_row _ st => decide (st ≠ STATUS_OK)
  | _ => false

/-- A call of `nvm_write_buffer` that did not return `STATUS_OK`. -/
def Event.write_failed : Event → Bool
  | .nvm_write_buffer _ _ _ st => decide (st ≠ STATUS_OK)
  | _ => false

/-- A call of `f_read` that did not return `FR_OK`. -/
def Event.read_failed : Event → Bool
  | .f_read _ _ res _ => decide (res ≠ FR_OK)
  | _ => false

/-- A call of `f_read` that returned `FR_OK` but delivered another number of bytes than
requested. -/
def Event.read_short : Event → Bool
  | .f_read _ btr res bytes_read => decide (res = FR_OK ∧ bytes_read ≠ btr)
  | _ => false

/-- A call of `f_unlink`. -/
def Event.is_unlink : Event → Bool
  | .f_unlink _ => true
  | _ => false

/-- The transfer of control to the application. -/
def Event.is_launch : Event → Bool
  | .applicationCodeEntry _ => true
  | _ => false

/-- A file or NVM driver call on behalf of the image `filename`: the only events
between the call of `flash_firmware(filename)` and its return. -/
def Event.is_flash_step (filename : String) : Event → Bool
  | .f_open p _ => decide (p = filename)
  | .f_close p => decide (p = filename)
  | .f_read p _ _ _ => decide (p = filename)
  | .nvm_erase_row _ _ => true
  | .nvm_write_buffer _ _ _ _ => true
  | _ => false

/-- The image a call of `flash_firmware` is for. -/
def Event.call_of : Event → Option String
  | .flash_firmware f => some f
  | _ => none

/-- The image and the value of a return of `flash_firmware`. -/
def Event.return_of : Event → Option (String × Bool)
  | .flash_firmware_returns f r => some (f, r)
  | _ => none

/-- The images `flash_firmware` was called on, in order. -/
def calls (tr : List Event) : List String := tr.filterMap Event.call_of

/-- The flashing attempts that returned, in order, with the value each returned. -/
def attempts (tr : List Event) : List (String × Bool) := tr.filterMap Event.return_of

/-- Ceiling of `a / b`. -/
def ceil_div (a b : Nat) : Nat := (a + b - 1) / b

/-- The answer of `f_read` in the iteration that starts with `total_read` bytes read. -/
def read_reply (c : Chip) (binFile : ImageFile) (file_size total_read : Nat) :
    FRESULT × List Nat :=
  f_read binFile total_read (bytes_to_read c file_size total_read)

/-- The `f_read` event of that iteration. -/
def read_event (c : Chip) (filename : String) (binFile : ImageFile)
    (file_size total_read : Nat) : Event :=
  Event.f_read filename (bytes_to_read c file_size total_read)
    (read_reply c binFile file_size total_read).1
    (read_reply c binFile file_size total_read).2.length

/-- The answer of `nvm_write_buffer` in that iteration. -/
def write_reply (c : Chip) (e : Env) (binFile : ImageFile)
    (file_size current_addr total_read clk : Nat) : status_code :=
  e.nvm_write_buffer clk current_addr
    (page_buffer c (read_reply c binFile file_size total_read).2)

/-- The `nvm_write_buffer` event of that iteration. -/
def write_event (c : Chip) (e : Env) (binFile : ImageFile)
    (file_size current_addr total_read clk : Nat) : Event :=
  Event.nvm_write_buffer current_addr
    (page_buffer c (read_reply c binFile file_size total_read).2) c.NVMCTRL_PAGE_SIZE
    (write_reply c e binFile file_size current_addr total_read clk)

/-- A call of `f_open` on `path`. -/
def Event.is_open_of (path : String) : Event → Bool
  | .f_open p _ => decide (p = path)
  | _ => false

/-- The events of one call of `flash_firmware(filename)` whose body made the calls
`body` and returned `res`. -/
def attempt_events (filename : String) (body : List Event) (res : Bool) : List Event :=
  Event.flash_firmware filename :: (body ++ [Event.flash_firmware_returns filename res])

/-- The events of a successful mount followed by the `delay_ms(1000)` of `main`. -/
def mounted_events (e : Env) : List Event :=
  [Event.SdCard_Initiate CTRL_GOOD, Event.f_mount e.f_mount, Event.delay_ms 1000]

/-- The events of the flag check when the flag file opens. -/
def flag_found_events : List Event :=
  [Event.f_open FLAG_PATH FR_OK, Event.f_close FLAG_PATH]

/-- A step of an update: an erase, a page write, a deletion, a call of
`flash_firmware`, or the opening of an image file. -/
def Event.is_update_action : Event → Bool
  | .nvm_erase_row _ _ => true
  | .nvm_write_buffer _ _ _ _ => true
  | .f_unlink _ => true
  | .flash_firmware _ => true
  | .f_open p _ => decide (p = PRIMARY_PATH ∨ p = GOLDEN_PATH)
  | _ => false

/-- The trace makes no update step and ends with the jump to the application. -/
def straight_to_launcher (c : Chip) (tr : List Event) : Prop :=
  (∀ ev ∈ tr, ev.is_update_action = false) ∧ ∃ pre, tr = pre ++ jumpToApplication c

/-- The last call of `flash_firmware` in the trace made at least one `nvm_erase_row`
call and then returned `false`. -/
def last_attempt_erased_and_failed (tr : List Event) : Prop :=
  ∃ pre filename body post,
    tr = pre ++ attempt_events filename body false ++ post ∧
    calls body = [] ∧ attempts body = [] ∧ calls post = [] ∧
    ∃ ev ∈ body, ev.is_erase = true

/-- The address passed to `nvm_erase_row` in iteration `i` of the erase loop. -/
def erase_addr (c : Chip) (i : Nat) : Nat :=
  add32 APP_START_ADDRESS (mul32 i c.NVMCTRL_ROW_SIZE)

/-- A successful call of `nvm_erase_row` on the row with index `row` (the row that
holds the addresses `row * NVMCTRL_ROW_SIZE` up to the next row). -/
def Event.erases_row (c : Chip) (row : Nat) : Event → Bool
  | .nvm_erase_row addr st => decide (st = STATUS_OK ∧ addr / c.NVMCTRL_ROW_SIZE = row)
  | _ => false

/-- The buffer a call of `nvm_write_buffer` is given. -/
def Event.written : Event → Option (List Nat)
  | .nvm_write_buffer _ buffer _ _ => some buffer
  | _ => none

/-- The buffer passed to the last `nvm_write_buffer` call of a trace, if any. -/
def last_write_buffer (evs : List Event) : Option (List Nat) :=
  (evs.filterMap Event.written).getLast?

/-- The file holds `content`: its size is the length of `content`, and every read that
returns `FR_OK` delivers the bytes of `content` from the read pointer on. -/
def reads_from (binFile : ImageFile) (content : List Nat) : Prop :=
  binFile.fsize = content.length ∧
  ∀ fptr btr, (binFile.read fptr btr).1 = FR_OK →
    (binFile.read fptr btr).2 = (content.drop fptr).take btr

/-- No erase, read or page write of the trace failed, and no read came back short. -/
def no_failure (evs : List Event) : Bool :=
  evs.all fun ev =>
    !(ev.erase_failed || ev.read_failed || ev.read_short || ev.write_failed)

/-! ## Concrete cards and environments -/

/-- A file of 1024 bytes whose reads return `FR_OK` and deliver no byte. -/
def empty_reads_image : ImageFile :=
  { fsize := 1024, read := fun _ _ => (FR_OK, []) }

/-- A file of 1024 bytes whose reads return `FR_OK` and deliver at most 16 bytes. -/
def short_reads_image : ImageFile :=
  { fsize := 1024, read := fun _ btr => (FR_OK, List.replicate (min btr 16) 0) }

/-- A file of `2^32 - 1` bytes whose first page reads and whose later reads fail. -/
def huge_image : ImageFile :=
  { fsize := 4294967295
    read := fun fptr btr => if fptr = 0 then (FR_OK, List.replicate btr 0) else (FR_DISK_ERR, []) }

/-- An environment in which every NVM call succeeds except page writes at or above
address `limit`. -/
def write_limit_env (limit : Nat) : Env :=
  { SdCard_Initiate := CTRL_GOOD
    f_mount := FR_OK
    nvm_erase_row := fun _ _ => STATUS_OK
    nvm_write_buffer := fun _ addr _ => if addr < limit then STATUS_OK else STATUS_ERR_DENIED
    f_unlink := FR_OK }


/-- A file that holds `content` and whose reads never fail. -/
def stored (content : List Nat) : ImageFile :=
  { fsize := content.length
    read := fun fptr btr => (FR_OK, (content.drop fptr).take btr) }

/-- A file of 1024 bytes whose reads fail with a disk error. -/
def unreadable_image : ImageFile :=
  { fsize := 1024, read := fun _ _ => (FR_DISK_ERR, []) }

/-- An environment in which the card mounts and every NVM call succeeds. -/
def good_env : Env :=
  { SdCard_Initiate := CTRL_GOOD
    f_mount := FR_OK
    nvm_erase_row := fun _ _ => STATUS_OK
    nvm_write_buffer := fun _ _ _ => STATUS_OK
    f_unlink := FR_OK }

/-- A card with the given flag, primary image and golden image, and nothing else. -/
def card (flag primary golden : Option ImageFile) : Files :=
  fun p =>
    if p = FLAG_PATH then flag
    else if p = PRIMARY_PATH then primary
    else if p = GOLDEN_PATH then golden
    else none

/-- The content of a flag file. -/
def flag_file : ImageFile := stored [49]

/-! ## Further observations on a trace -/

/-- A call of `f_read`. -/
def Event.is_read : Event → Bool
  | .f_read _ _ _ _ => true
  | _ => false

/-- The address a call of `nvm_erase_row` is given. -/
def Event.erase_addr_of : Event → Option Nat
  | .nvm_erase_row addr _ => some addr
  | _ => none

/-- The address, buffer and length a call of `nvm_write_buffer` is given. -/
def Event.write_of : Event → Option (Nat × List Nat × Nat)
  | .nvm_write_buffer addr buffer length _ => some (addr, buffer, length)
  | _ => none

/-- The addresses passed to `nvm_erase_row`, in the order of the calls. -/
def erase_addrs (evs : List Event) : List Nat := evs.filterMap Event.erase_addr_of

/-- The address, buffer and length of every `nvm_write_buffer` call, in the order of the
calls. -/
def writes (evs : List Event) : List (Nat × List Nat × Nat) :=
  evs.filterMap Event.write_of

/-- The NVM calls of a trace in order: `true` for an erase, `false` for a page write. -/
def nvm_pattern (evs : List Event) : List Bool :=
  (evs.filter fun ev => ev.is_erase || ev.is_write).map Event.is_erase

/-- The successful erase of the row of iteration `k` of the erase loop. -/
def erase_ok_event (c : Chip) (k : Nat) : Event :=
  Event.nvm_erase_row (erase_addr c k) STATUS_OK

/-- The page `k` of a file that holds `content`, as `flash_firmware` passes it to
`nvm_write_buffer`: the bytes `[k * PAGE_SIZE, (k + 1) * PAGE_SIZE)` of the file, filled
up with `0xFF` when the file ends before. -/
def file_page (c : Chip) (content : List Nat) (k : Nat) : List Nat :=
  page_buffer c ((content.drop (k * c.NVMCTRL_PAGE_SIZE)).take c.NVMCTRL_PAGE_SIZE)

/-- Every erase and page write of the environment succeeds. -/
def Env.nvm_ok (e : Env) : Prop :=
  (∀ k addr, e.nvm_erase_row k addr = STATUS_OK) ∧
  (∀ k addr buffer, e.nvm_write_buffer k addr buffer = STATUS_OK)

/-- Every read inside the file returns `FR_OK` and delivers as many bytes as requested. -/
def ImageFile.reads_ok (binFile : ImageFile) : Prop :=
  ∀ fptr btr, fptr + btr ≤ f_size binFile →
    (binFile.read fptr btr).1 = FR_OK ∧ (binFile.read fptr btr).2.length = btr

/-! ## Further concrete cards and environments -/

/-- Modelled from the spec: `FlashRegion.length` for the SAMD21G18A of the board, whose
256 KiB of flash end at `0x40000`; the source has no such constant. -/
def samd21_region_length : Nat := 0x40000 - APP_START_ADDRESS

/-- A file one byte longer than the flash region of the SAMD21, whose reads fail. -/
def oversized_image : ImageFile :=
  { fsize := 0x2E001, read := fun _ _ => (FR_DISK_ERR, []) }

/-- A file of `2^32 - 1` zero bytes whose reads never fail. -/
def huge_zero_image : ImageFile :=
  { fsize := 4294967295, read := fun _ btr => (FR_OK, List.replicate btr 0) }

/-- A file of `2^32 - 0x12000 + 1` zero bytes whose reads never fail: it ends one byte
above the top of the 32-bit address space when placed at `APP_START_ADDRESS`. -/
def wrapping_image : ImageFile :=
  { fsize := 4294893569, read := fun _ btr => (FR_OK, List.replicate btr 0) }

/-- An environment in which the card initialises, `f_mount` returns `FR_NOT_READY` and
every NVM call succeeds. -/
def not_ready_env : Env :=
  { SdCard_Initiate := CTRL_GOOD
    f_mount := FR_NOT_READY
    nvm_erase_row := fun _ _ => STATUS_OK
    nvm_write_buffer := fun _ _ _ => STATUS_OK
    f_unlink := FR_OK }

/-- An environment in which every NVM call succeeds except the erase of the row at
address `bad`. -/
def erase_fail_env (bad : Nat) : Env :=
  { SdCard_Initiate := CTRL_GOOD
    f_mount := FR_OK
    nvm_erase_row := fun _ addr => if addr = bad then STATUS_ERR_DENIED else STATUS_OK
    nvm_write_buffer := fun _ _ _ => STATUS_OK
    f_unlink := FR_OK }

/-- An environment in which the card initialises and `f_mount` returns
`FR_INVALID_DRIVE`. -/
def invalid_drive_env : Env :=
  { SdCard_Initiate := CTRL_GOOD
    f_mount := FR_INVALID_DRIVE
    nvm_erase_row := fun _ _ => STATUS_OK
    nvm_write_buffer := fun _ _ _ => STATUS_OK
    f_unlink := FR_OK }

/-! ## Observations on reads, closes and page data -/

/-- A call of `f_close`. -/
def Event.is_close : Event → Bool
  | .f_close _ => true
  | _ => false

/-- The value an `f_read` call stored in `bytes_read`; `0` for every other call. -/
def Event.bytes_read_of : Event → Nat
  | .f_read _ _ _ bytes_read => bytes_read
  | _ => 0

/-- The number of bytes an `f_read` call asked for. -/
def Event.requested : Event → Option Nat
  | .f_read _ btr _ _ => some btr
  | _ => none

/-- The sum of the `bytes_read` values of the `f_read` calls of a trace. -/
def bytes_read_total (evs : List Event) : Nat := (evs.map Event.bytes_read_of).sum

/-- An `f_read` call that returned `FR_OK` and delivered no byte. -/
def Event.read_empty : Event → Bool
  | .f_read _ _ res bytes_read => decide (res = FR_OK ∧ bytes_read = 0)
  | _ => false

/-- A call with the page data left out: the buffer of an `nvm_write_buffer` call is
replaced by the empty list, every other call is unchanged. -/
def Event.skeleton : Event → Event
  | .nvm_write_buffer addr _ length st => .nvm_write_buffer addr [] length st
  | ev => ev

/-- The address and length a call of `nvm_write_buffer` is given. -/
def Event.write_target : Event → Option (Nat × Nat)
  | .nvm_write_buffer addr _ length _ => some (addr, length)
  | _ => none

/-- The address and length of every `nvm_write_buffer` call, in the order of the calls. -/
def write_targets (evs : List Event) : List (Nat × Nat) := evs.filterMap Event.write_target

/-- The status of a page write does not depend on the data written. -/
def Env.data_blind (e : Env) : Prop :=
  ∀ k addr buffer buffer', e.nvm_write_buffer k addr buffer = e.nvm_write_buffer k addr buffer'

/-- Every read returns the same result code for the two files and delivers the same number
of bytes. -/
def same_read_replies (f1 f2 : ImageFile) : Prop :=
  ∀ fptr btr, (f1.read fptr btr).1 = (f2.read fptr btr).1 ∧
    (f1.read fptr btr).2.length = (f2.read fptr btr).2.length

/-- A file whose directory entry says 1024 bytes but whose reads deliver data only below
offset 512 and no byte (with `FR_OK`) from there on. -/
def truncated_image : ImageFile :=
  { fsize := 1024
    read := fun fptr btr => if fptr < 512 then (FR_OK, List.replicate btr 0) else (FR_OK, []) }

/-- An environment in which every call succeeds except `f_unlink`, which is refused with
`FR_DENIED` (as for a file that carries the read-only attribute). -/
def unlink_denied_env : Env :=
  { SdCard_Initiate := CTRL_GOOD
    f_mount := FR_OK
    nvm_erase_row := fun _ _ => STATUS_OK
    nvm_write_buffer := fun _ _ _ => STATUS_OK
    f_unlink := FR_DENIED }

/-! # Routines of the application (`Application/src`)

Three routines of the application firmware are embedded next to the bootloader: the echo
interrupt handler of the ultrasonic sensor, the FIFO read-out of the gesture sensor, and
the part of the Wi-Fi task that downloads a new image and creates the update flag.  The
sensors, the HTTP client and FatFs answer through the arguments of the definitions. -/

/-! ## `EnvTask/US100.c` -/

/-- The variables `start_time`, `end_time` (`volatile uint16_t`) and `edge_rising` of
`US100.c`. -/
structure EchoState where
  start_time : Nat
  end_time : Nat
  edge_rising : Bool
  deriving DecidableEq

/-- The value of `uint16_t duration` in `ECHO_PIN_ISR`:
`(end_time >= start_time) ? (end_time - start_time) : (0xFFFF - start_time + end_time)`,
computed in `int` from two `uint16_t` values and converted to `uint16_t`. -/
def duration (start_time end_time : Nat) : Nat :=
  if end_time ≥ start_time then (end_time - start_time) % 65536
  else (0xFFFF - start_time + end_time) % 65536

/-- `ECHO_PIN_ISR()` when `tc_get_count_value(&echo_timer)` answers `count`: the new
values of the variables and, on the falling edge, the value of `duration`.  The conversion
of `duration` into `distance_cm`, done in `float`, is not part of the model. -/
def ECHO_PIN_ISR (s : EchoState) (count : Nat) : EchoState × Option Nat :=
  if s.edge_rising = true then
    ({ start_time := count % 65536, end_time := s.end_time, edge_rising := false }, none)
  else
    ({ start_time := s.start_time, end_time := count % 65536, edge_rising := true },
      some (duration s.start_time (count % 65536)))

/-- The variables of `US100.c` after start-up. -/
def echo_init : EchoState := { start_time := 0, end_time := 0, edge_rising := true }

/-! ## `GesTask/APDS9960.c` -/

/-- Bit `GVALID` of the gesture status register. -/
def APDS9960_GVALID : Nat := 0b00000001

/-- The struct `gesture_data_t` of `APDS9960.h`: four arrays of 32 bytes and two `uint8_t`
counters. -/
structure gesture_data_t where
  u_data : List Nat
  d_data : List Nat
  l_data : List Nat
  r_data : List Nat
  index : Nat
  total_gestures : Nat
  deriving DecidableEq

/-- The variable `gesture_cache`, together with the value `gesture_cache.index` had at
each store of a dataset since the last reset, in order. -/
structure GestureState where
  gesture_cache : gesture_data_t
  stores : List Nat
  deriving DecidableEq

/-- The state after `reset_gesture_cache()`: `memset(&gesture_cache, 0, ...)`. -/
def reset_gesture_cache : GestureState :=
  { gesture_cache :=
      { u_data := List.replicate 32 0, d_data := List.replicate 32 0,
        l_data := List.replicate 32 0, r_data := List.replicate 32 0,
        index := 0, total_gestures := 0 }
    stores := [] }

/-- What the sensor answers in one round of the polling loop: the gesture status register
and the FIFO level (`none` when `read_apds9960` returns `false`), and the bytes
`read_apds9960_block` leaves in `data_buf` (`none` when it returns `-1`). -/
structure Poll where
  gstat : Option Nat
  fifo_lvl : Option Nat
  data_buf : Option (List Nat)

/-- One iteration of `for (int i = 0; i < read_len; i += 4)`: a dataset of four bytes
`255` is skipped, any other is stored at `gesture_cache.index`, and the two `uint8_t`
counters are incremented.  A store at an index of 32 or more lies outside the arrays and
leaves them unchanged here; the index used is recorded in `stores`. -/
def store_dataset (data_buf : List Nat) (g : GestureState) (i : Nat) : GestureState :=
  if data_buf.getD i 0 = 255 ∧ data_buf.getD (i + 1) 0 = 255 ∧
      data_buf.getD (i + 2) 0 = 255 ∧ data_buf.getD (i + 3) 0 = 255 then g
  else
    { gesture_cache :=
        { u_data := g.gesture_cache.u_data.set g.gesture_cache.index (data_buf.getD i 0)
          d_data := g.gesture_cache.d_data.set g.gesture_cache.index (data_buf.getD (i + 1) 0)
          l_data := g.gesture_cache.l_data.set g.gesture_cache.index (data_buf.getD (i + 2) 0)
          r_data := g.gesture_cache.r_data.set g.gesture_cache.index (data_buf.getD (i + 3) 0)
          index := (g.gesture_cache.index + 1) % 256
          total_gestures := (g.gesture_cache.total_gestures + 1) % 256 }
      stores := g.stores ++ [g.gesture_cache.index] }

/-- The loop `for (int i = 0; i < read_len; i += 4)`: the iterations `i = 0, 4, 8, ...`
below `read_len`. -/
def store_datasets (data_buf : List Nat) (read_len : Nat) (g : GestureState) : GestureState :=
  (List.range ((read_len + 3) / 4)).foldl (fun g k => store_dataset data_buf g (4 * k)) g

/-- How the polling loop of `APDS9960_ReadGesture` ends: by a `return` with the given
value, or by `break`. -/
inductive LoopEnd
  | returned (value : Bool)
  | left
  deriving DecidableEq

/-- The loop `while (1)` of `APDS9960_ReadGesture`, with the answers of the sensor for the
rounds to come and the value of `loop`.  `none` means that the answers given do not reach
the end of the loop. -/
def poll_loop : List Poll → Nat → GestureState → Option (LoopEnd × GestureState)
  | [], _, _ => none
  | p :: rest, loop, g =>
    match p.gstat with
    | none => some (LoopEnd.returned false, g)
    | some gstat =>
      if (gstat % 256) &&& APDS9960_GVALID = 0 then some (LoopEnd.left, g)
      else
        match p.fifo_lvl with
        | none => some (LoopEnd.returned false, g)
        | some fifo_lvl =>
          if fifo_lvl % 256 > 0 then
            match p.data_buf with
            | none => some (LoopEnd.returned false, g)
            | some data_buf =>
              if loop + 1 > 40 then
                some (LoopEnd.returned false, store_datasets data_buf (fifo_lvl % 256 * 4) g)
              else poll_loop rest (loop + 1) (store_datasets data_buf (fifo_lvl % 256 * 4) g)
          else
            if loop + 1 > 40 then some (LoopEnd.returned false, g)
            else poll_loop rest (loop + 1) g

/-- `APDS9960_ReadGesture(&gesture)`: the value returned and the gesture cache.  The value
stored in `*gesture` (the result of `analyzeGestureData` and `classifyGesture`) is not
part of the model. -/
def APDS9960_ReadGesture (polls : List Poll) : Option (Bool × GestureState) :=
  match poll_loop polls 0 reset_gesture_cache with
  | none => none
  | some (LoopEnd.returned value, g) => some (value, g)
  | some (LoopEnd.left, g) =>
    if g.gesture_cache.total_gestures = 0 then some (false, g) else some (true, g)

/-- A round in which the sensor reports valid gesture data and a full FIFO of 32 datasets
of zero bytes. -/
def full_fifo : Poll :=
  { gstat := some 1, fifo_lvl := some 32, data_buf := some (List.replicate 128 0) }

/-- A round in which the sensor reports that the gesture data is no longer valid. -/
def gesture_over : Poll := { gstat := some 0, fifo_lvl := none, data_buf := none }

/-! ## `WifiHandlerThread/WifiHandler.c`: download of a new image -/

/-- The enumerators of `download_state` and the constants `MAIN_BUFFER_MAX_SIZE` and
`EAGAIN`, which `WifiHandler.c` uses and headers outside the sources define. -/
structure DownloadConfig where
  STORAGE_READY : Nat
  WIFI_CONNECTED : Nat
  GET_REQUESTED : Nat
  DOWNLOADING : Nat
  COMPLETED : Nat
  CANCELED : Nat
  MAIN_BUFFER_MAX_SIZE : Nat
  EAGAIN : Nat

/-- `is_state_set(mask)`: `(down_state & mask) != 0`. -/
def is_state_set (down_state mask : Nat) : Bool := decide (down_state &&& mask ≠ 0)

/-- `add_state(mask)`: `down_state |= mask`. -/
def add_state (down_state mask : Nat) : Nat := down_state ||| mask

/-- `clear_state(mask)`: `down_state &= ~mask`, on 32 bits. -/
def clear_state (down_state mask : Nat) : Nat := down_state &&& (mask ^^^ 0xFFFFFFFF)

/-- The calls the download makes on the card and on the HTTP client.  Every `f_open` of
`WifiHandler.c` that is modelled here asks for `FA_CREATE_ALWAYS | FA_WRITE`; `f_write`
and `f_close` act on the one `file_object` of the file, the file opened last. -/
inductive StorageCall
  | f_open (path : String) (res : FRESULT)
  | f_write (length : Nat) (res : FRESULT) (wsize : Nat)
  | f_close
  | http_client_send_request
  deriving DecidableEq

/-- What FatFs answers to the download: the result of an `f_open` and the result and
`wsize` of an `f_write`, each depending on the number of calls made before. -/
structure Storage where
  f_open : Nat → String → FRESULT
  f_write : Nat → Nat → FRESULT × Nat

/-- The variables `down_state`, `http_file_size` and `received_file_size`, and the calls
made so far. -/
structure Download where
  down_state : Nat
  http_file_size : Nat
  received_file_size : Nat
  calls : List StorageCall
  deriving DecidableEq

/-- The second half of `store_file_packet`, `if (data != NULL) { ... }`: the packet is
written; a write error closes the file and adds `CANCELED`, and once `received_file_size`
reaches `http_file_size` the file is closed and `COMPLETED` is added. -/
def write_packet (cfg : DownloadConfig) (st : Storage) (length : Nat) (d : Download) :
    Download :=
  let w := st.f_write d.calls.length length
  if w.1 ≠ FR_OK then
    { d with
      calls := d.calls ++ [StorageCall.f_write length w.1 w.2, StorageCall.f_close]
      down_state := add_state d.down_state cfg.CANCELED }
  else if (d.received_file_size + w.2) % 4294967296 ≥ d.http_file_size then
    { d with
      calls := d.calls ++ [StorageCall.f_write length w.1 w.2, StorageCall.f_close]
      received_file_size := (d.received_file_size + w.2) % 4294967296
      down_state := add_state d.down_state cfg.COMPLETED }
  else
    { d with
      calls := d.calls ++ [StorageCall.f_write length w.1 w.2]
      received_file_size := (d.received_file_size + w.2) % 4294967296 }

/-- `store_file_packet(data, length)`: nothing happens for an empty packet; the first
packet creates `0:Application.bin`, and the function returns when that fails. -/
def store_file_packet (cfg : DownloadConfig) (st : Storage) (data : Option (List Nat))
    (length : Nat) (d : Download) : Download :=
  if data.isNone = true ∨ length < 1 then d
  else if is_state_set d.down_state cfg.DOWNLOADING = false then
    let ret := st.f_open d.calls.length PRIMARY_PATH
    if ret ≠ FR_OK then
      { d with calls := d.calls ++ [StorageCall.f_open PRIMARY_PATH ret] }
    else
      write_packet cfg st length
        { d with
          calls := d.calls ++ [StorageCall.f_open PRIMARY_PATH ret]
          received_file_size := 0
          down_state := add_state d.down_state cfg.DOWNLOADING }
  else write_packet cfg st length d

/-- `start_download()`: the HTTP request is sent when the storage is ready, the Wi-Fi is
connected and no request or download is under way. -/
def start_download (cfg : DownloadConfig) (d : Download) : Download :=
  if is_state_set d.down_state cfg.STORAGE_READY = false then d
  else if is_state_set d.down_state cfg.WIFI_CONNECTED = false then d
  else if is_state_set d.down_state cfg.GET_REQUESTED = true then d
  else if is_state_set d.down_state cfg.DOWNLOADING = true then d
  else { d with calls := d.calls ++ [StorageCall.http_client_send_request] }

/-- The events the HTTP client reports to `http_client_callback`, with the fields of
`union http_client_data` the callback reads. -/
inductive HttpEvent
  | HTTP_CLIENT_CALLBACK_SOCK_CONNECTED
  | HTTP_CLIENT_CALLBACK_REQUESTED
  | HTTP_CLIENT_CALLBACK_RECV_RESPONSE (response_code content_length : Nat)
      (content : Option (List Nat))
  | HTTP_CLIENT_CALLBACK_RECV_CHUNKED_DATA (data : Option (List Nat)) (length : Nat)
      (is_complete : Bool)
  | HTTP_CLIENT_CALLBACK_DISCONNECTED (reason : Int)

/-- `http_client_callback(module_inst, type, data)`. -/
def http_client_callback (cfg : DownloadConfig) (st : Storage) (ev : HttpEvent)
    (d : Download) : Download :=
  match ev with
  | .HTTP_CLIENT_CALLBACK_SOCK_CONNECTED => d
  | .HTTP_CLIENT_CALLBACK_REQUESTED =>
    { d with down_state := add_state d.down_state cfg.GET_REQUESTED }
  | .HTTP_CLIENT_CALLBACK_RECV_RESPONSE response_code content_length content =>
    if response_code = 200 then
      if content_length ≤ cfg.MAIN_BUFFER_MAX_SIZE then
        let d1 := store_file_packet cfg st content content_length
          { d with http_file_size := content_length, received_file_size := 0 }
        { d1 with down_state := add_state d1.down_state cfg.COMPLETED }
      else { d with http_file_size := content_length, received_file_size := 0 }
    else { d with down_state := add_state d.down_state cfg.CANCELED }
  | .HTTP_CLIENT_CALLBACK_RECV_CHUNKED_DATA data length is_complete =>
    let d1 := store_file_packet cfg st data length d
    if is_complete = true then { d1 with down_state := add_state d1.down_state cfg.COMPLETED }
    else d1
  | .HTTP_CLIENT_CALLBACK_DISCONNECTED reason =>
    if reason = - (cfg.EAGAIN : Int) then
      let d1 :=
        if is_state_set d.down_state cfg.DOWNLOADING = true then
          { d with
            calls := d.calls ++ [StorageCall.f_close]
            down_state := clear_state d.down_state cfg.DOWNLOADING }
        else d
      let d2 :=
        if is_state_set d1.down_state cfg.GET_REQUESTED = true then
          { d1 with down_state := clear_state d1.down_state cfg.GET_REQUESTED }
        else d1
      start_download cfg d2
    else d

/-- The loop `while (!(is_state_set(COMPLETED) || is_state_set(CANCELED)))` of
`HTTP_DownloadFileTransaction`: each call of `m2m_wifi_handle_events` delivers the events
of one round to `http_client_callback`.  `none` means that the rounds given do not reach
the end of the loop. -/
def download_loop (cfg : DownloadConfig) (st : Storage) :
    List (List HttpEvent) → Download → Option Download
  | [], d =>
    if (is_state_set d.down_state cfg.COMPLETED || is_state_set d.down_state cfg.CANCELED)
        = true then some d
    else none
  | round :: rest, d =>
    if (is_state_set d.down_state cfg.COMPLETED || is_state_set d.down_state cfg.CANCELED)
        = true then some d
    else download_loop cfg st rest (round.foldl (fun d ev => http_client_callback cfg st ev d) d)

/-- The length of the metadata line written into the flag file: 40 characters of text,
`__DATE__` (11), a blank, `__TIME__` (8) and `"\r\n"`. -/
def metadata_length : Nat := 62

/-- `HTTP_DownloadFileTransaction()` up to the creation of the flag file: after the loop,
when `COMPLETED` is set, `0:FlagA.txt` is created and the metadata line written. -/
def HTTP_DownloadFileTransaction (cfg : DownloadConfig) (st : Storage)
    (rounds : List (List HttpEvent)) (d : Download) : Option Download :=
  match download_loop cfg st rounds d with
  | none => none
  | some d1 =>
    if is_state_set d1.down_state cfg.COMPLETED = true then
      let flag_res := st.f_open d1.calls.length FLAG_PATH
      if flag_res ≠ FR_OK then
        some { d1 with calls := d1.calls ++ [StorageCall.f_open FLAG_PATH flag_res] }
      else
        let w := st.f_write (d1.calls.length + 1) metadata_length
        some { d1 with
          calls := d1.calls ++ [StorageCall.f_open FLAG_PATH flag_res,
            StorageCall.f_write metadata_length w.1 w.2, StorageCall.f_close] }
    else some d1

/-- The values of the enumerators in the HTTP downloader example of the vendor, from
which `WifiHandler.c` derives: one bit per state. -/
def download_config : DownloadConfig :=
  { STORAGE_READY := 0x01, WIFI_CONNECTED := 0x02, GET_REQUESTED := 0x04,
    DOWNLOADING := 0x08, COMPLETED := 0x10, CANCELED := 0x20,
    MAIN_BUFFER_MAX_SIZE := 1460, EAGAIN := 11 }

/-- The downloader after `start_download`: storage ready, Wi-Fi connected, request sent. -/
def download_start : Download :=
  { down_state := 0x03, http_file_size := 0, received_file_size := 0,
    calls := [StorageCall.http_client_send_request] }

/-- A card on which `0:Application.bin` cannot be created (`FR_DENIED`) while every other
call succeeds. -/
def image_denied : Storage :=
  { f_open := fun _ path => if path = PRIMARY_PATH then FR_DENIED else FR_OK
    f_write := fun _ length => (FR_OK, length) }

/-- A card on which the first `f_write` fails with `FR_DISK_ERR` and every other call
succeeds. -/
def first_write_fails : Storage :=
  { f_open := fun _ _ => FR_OK
    f_write := fun k length => if k = 2 then (FR_DISK_ERR, 0) else (FR_OK, length) }

/-! ## Basic facts about the library calls and the two loops -/

theorem f_read_length_le (fil : ImageFile) (fptr btr : Nat) :
    (f_read fil fptr btr).2.length ≤ btr := by
  simp [f_read]

theorem f_size_lt (fil : ImageFile) : f_size fil < 4294967296 := by
  unfold f_size; omega

theorem sub32_of_le {a b : Nat} (hb : b ≤ a) (ha : a < 4294967296) : sub32 a b = a - b := by
  unfold sub32
  split <;> omega

/-- The number of bytes requested in one iteration is at most what is left of the file. -/
theorem bytes_to_read_le (P file_size total_read : Nat) (h : total_read < file_size)
    (hs : file_size < 4294967296) :
    (if sub32 file_size total_read ≥ P then P else sub32 file_size total_read)
      ≤ file_size - total_read := by
  rw [sub32_of_le (Nat.le_of_lt h) hs]
  split <;> omega

/-- The five ways one iteration of the write loop can go. -/
theorem write_loop_inv (c : Chip) (e : Env) (filename : String) (binFile : ImageFile)
    (file_size fuel current_addr total_read clk : Nat) (r : Bool × List Event × Nat)
    (h : write_loop c e filename binFile file_size (fuel + 1) current_addr total_read clk
      = some r) :
    (¬ total_read < file_size ∧ r = (true, [], clk)) ∨
    (total_read < file_size ∧ (read_reply c binFile file_size total_read).1 ≠ FR_OK ∧
      r = (false, [read_event c filename binFile file_size total_read,
        Event.f_close filename], clk)) ∨
    (total_read < file_size ∧ (read_reply c binFile file_size total_read).1 = FR_OK ∧
      (read_reply c binFile file_size total_read).2.length = 0 ∧
      r = (true, [read_event c filename binFile file_size total_read], clk)) ∨
    (total_read < file_size ∧ (read_reply c binFile file_size total_read).1 = FR_OK ∧
      (read_reply c binFile file_size total_read).2.length ≠ 0 ∧
      write_reply c e binFile file_size current_addr total_read clk ≠ STATUS_OK ∧
      r = (false, [read_event c filename binFile file_size total_read,
        write_event c e binFile file_size current_addr total_read clk,
        Event.f_close filename], clk + 1)) ∨
    (total_read < file_size ∧ (read_reply c binFile file_size total_read).1 = FR_OK ∧
      (read_reply c binFile file_size total_read).2.length ≠ 0 ∧
      write_reply c e binFile file_size current_addr total_read clk = STATUS_OK ∧
      ∃ r', write_loop c e filename binFile file_size fuel
          (add32 current_addr c.NVMCTRL_PAGE_SIZE)
          (add32 total_read (read_reply c binFile file_size total_read).2.length)
          (clk + 1) = some r' ∧
        r = (r'.1, read_event c filename binFile file_size total_read ::
          write_event c e binFile file_size current_addr total_read clk :: r'.2.1, r'.2.2)) := by
  rw [write_loop] at h
  by_cases hlt : total_read < file_size
  · simp only [hlt, if_true] at h
    by_cases hr : (f_read binFile total_read (bytes_to_read c file_size total_read)).1 = FR_OK
    · simp only [hr, ne_eq, not_true_eq_false, if_false] at h
      by_cases hz : (f_read binFile total_read (bytes_to_read c file_size total_read)).2.length = 0
      · simp only [hz, if_true] at h
        right; right; left
        refine ⟨hlt, hr, hz, ?_⟩
        simp only [read_event, read_reply, hr, hz]
        exact (Option.some.inj h).symm
      · simp only [hz, if_false] at h
        by_cases hw : e.nvm_write_buffer clk current_addr
            (page_buffer c (f_read binFile total_read (bytes_to_read c file_size total_read)).2)
            = STATUS_OK
        · simp only [hw, not_true_eq_false, if_false] at h
          right; right; right; right
          refine ⟨hlt, hr, hz, hw, ?_⟩
          cases hrec : write_loop c e filename binFile file_size fuel
              (add32 current_addr c.NVMCTRL_PAGE_SIZE)
              (add32 total_read
                (f_read binFile total_read (bytes_to_read c file_size total_read)).2.length)
              (clk + 1) with
          | none => rw [hrec] at h; cases h
          | some r' =>
            rw [hrec] at h
            refine ⟨r', ?_, ?_⟩
            · simp only [read_reply]; exact hrec
            · simp only [read_event, write_event, write_reply, read_reply, hr, hw]
              exact (Option.some.inj h).symm
        · simp only [hw, not_false_eq_true, if_true] at h
          right; right; right; left
          refine ⟨hlt, hr, hz, hw, ?_⟩
          simp only [read_event, write_event, write_reply, read_reply, hr]
          exact (Option.some.inj h).symm
    · simp only [ne_eq, hr, not_false_eq_true, if_true] at h
      right; left
      refine ⟨hlt, hr, ?_⟩
      simp only [read_event, read_reply]
      exact (Option.some.inj h).symm
  · simp only [hlt, if_false] at h
    left
    exact ⟨hlt, (Option.some.inj h).symm⟩

theorem write_loop_zero (c : Chip) (e : Env) (filename : String) (binFile : ImageFile)
    (file_size current_addr total_read clk : Nat) :
    write_loop c e filename binFile file_size 0 current_addr total_read clk = none := by
  rw [write_loop]

/-- The number of bytes delivered by a read is at most what is left of the file. -/
theorem read_reply_length_le (c : Chip) (binFile : ImageFile) (file_size total_read : Nat)
    (h : total_read < file_size) (hs : file_size < 4294967296) :
    (read_reply c binFile file_size total_read).2.length ≤ file_size - total_read := by
  have h1 := f_read_length_le binFile total_read (bytes_to_read c file_size total_read)
  have h2 := bytes_to_read_le c.NVMCTRL_PAGE_SIZE file_size total_read h hs
  unfold read_reply
  unfold bytes_to_read at h1 ⊢
  omega

/-- The write loop ends within `file_size - total_read + 1` iterations. -/
theorem write_loop_total (c : Chip) (e : Env) (filename : String) (binFile : ImageFile)
    (file_size : Nat) (hs : file_size < 4294967296) :
    ∀ (fuel current_addr total_read clk : Nat), total_read ≤ file_size →
      file_size - total_read < fuel →
      ∃ r, write_loop c e filename binFile file_size fuel current_addr total_read clk
        = some r := by
  intro fuel
  induction fuel with
  | zero => intro _ _ _ _ h; omega
  | succ fuel ih =>
    intro current_addr total_read clk hle hfuel
    rw [write_loop]
    by_cases hlt : total_read < file_size
    · simp only [hlt, if_true]
      have hlen := read_reply_length_le c binFile file_size total_read hlt hs
      unfold read_reply at hlen
      split
      · exact ⟨_, rfl⟩
      · split
        · exact ⟨_, rfl⟩
        · split
          · exact ⟨_, rfl⟩
          · have hadd : add32 total_read
                (f_read binFile total_read (bytes_to_read c file_size total_read)).2.length
                = total_read +
                  (f_read binFile total_read (bytes_to_read c file_size total_read)).2.length := by
              unfold add32; omega
            obtain ⟨r, hr⟩ := ih (add32 current_addr c.NVMCTRL_PAGE_SIZE)
              (add32 total_read
                (f_read binFile total_read (bytes_to_read c file_size total_read)).2.length)
              (clk + 1) (by omega) (by omega)
            rw [hr]
            exact ⟨_, rfl⟩
    · simp only [hlt, if_false]
      exact ⟨_, rfl⟩

/-- Every event of the erase loop is a driver call for the image. -/
theorem erase_loop_steps (c : Chip) (e : Env) (filename : String) :
    ∀ (n i clk : Nat), ∀ ev ∈ (erase_loop c e filename n i clk).2.1,
      ev.is_flash_step filename = true := by
  intro n
  induction n with
  | zero => intro i clk ev h; simp [erase_loop] at h
  | succ n ih =>
    intro i clk ev h
    rw [erase_loop] at h
    simp only at h
    split at h
    · simp at h
      rcases h with h | h <;> subst h <;> simp [Event.is_flash_step]
    · simp at h
      rcases h with h | h
      · subst h; simp [Event.is_flash_step]
      · exact ih _ _ ev h

/-- Every event of the write loop is a driver call for the image. -/
theorem write_loop_steps (c : Chip) (e : Env) (filename : String) (binFile : ImageFile)
    (file_size : Nat) :
    ∀ (fuel current_addr total_read clk : Nat) (r : Bool × List Event × Nat),
      write_loop c e filename binFile file_size fuel current_addr total_read clk = some r →
      ∀ ev ∈ r.2.1, ev.is_flash_step filename = true := by
  intro fuel
  induction fuel with
  | zero => intro _ _ _ r h; rw [write_loop_zero] at h; cases h
  | succ fuel ih =>
    intro current_addr total_read clk r h ev hev
    rcases write_loop_inv c e filename binFile file_size fuel current_addr total_read clk r h
      with ⟨_, rfl⟩ | ⟨_, _, rfl⟩ | ⟨_, _, _, rfl⟩ | ⟨_, _, _, _, rfl⟩ |
        ⟨_, _, _, _, r', hr', rfl⟩
    · simp at hev
    · simp at hev
      rcases hev with h | h <;> subst h <;> simp [Event.is_flash_step, read_event]
    · simp at hev
      subst hev; simp [Event.is_flash_step, read_event]
    · simp at hev
      rcases hev with h | h | h <;> subst h <;>
        simp [Event.is_flash_step, read_event, write_event]
    · simp at hev
      rcases hev with h | h | h
      · subst h; simp [Event.is_flash_step, read_event]
      · subst h; simp [Event.is_flash_step, write_event]
      · exact ih _ _ _ r' hr' ev h

/-- The four ways the body of `flash_firmware` can go. -/
theorem flash_firmware_body_inv (c : Chip) (e : Env) (files : Files) (filename : String)
    (clk : Nat) (r : Bool × List Event × Nat)
    (h : flash_firmware_body c e files filename clk = some r) :
    (files filename = none ∧ r = (false, [Event.f_open filename FR_NO_FILE], clk)) ∨
    (∃ binFile, files filename = some binFile ∧ f_size binFile < 1024 ∧
      r = (false, [Event.f_open filename FR_OK, Event.f_close filename], clk)) ∨
    (∃ binFile, files filename = some binFile ∧ 1024 ≤ f_size binFile ∧
      (erase_loop c e filename (rows_to_erase c (f_size binFile)) 0 clk).1 = false ∧
      r = (false, Event.f_open filename FR_OK ::
          (erase_loop c e filename (rows_to_erase c (f_size binFile)) 0 clk).2.1,
        (erase_loop c e filename (rows_to_erase c (f_size binFile)) 0 clk).2.2)) ∨
    (∃ binFile wr, files filename = some binFile ∧ 1024 ≤ f_size binFile ∧
      (erase_loop c e filename (rows_to_erase c (f_size binFile)) 0 clk).1 = true ∧
      write_loop c e filename binFile (f_size binFile) (f_size binFile + 1)
        APP_START_ADDRESS 0
        (erase_loop c e filename (rows_to_erase c (f_size binFile)) 0 clk).2.2 = some wr ∧
      r = (wr.1, Event.f_open filename FR_OK ::
          ((erase_loop c e filename (rows_to_erase c (f_size binFile)) 0 clk).2.1 ++ wr.2.1
            ++ if wr.1 = true then [Event.f_close filename] else []),
        wr.2.2)) := by
  unfold flash_firmware_body at h
  cases hf : files filename with
  | none =>
    rw [hf] at h
    left
    exact ⟨rfl, (Option.some.inj h).symm⟩
  | some binFile =>
    rw [hf] at h
    simp only at h
    right
    by_cases hsz : f_size binFile < 1024
    · simp only [hsz, if_true] at h
      left
      exact ⟨binFile, rfl, hsz, (Option.some.inj h).symm⟩
    · simp only [hsz, if_false] at h
      right
      by_cases her : (erase_loop c e filename (rows_to_erase c (f_size binFile)) 0 clk).1 = false
      · simp only [her, if_true] at h
        left
        exact ⟨binFile, rfl, by omega, her, (Option.some.inj h).symm⟩
      · simp only [her, if_false] at h
        right
        cases hw : write_loop c e filename binFile (f_size binFile) (f_size binFile + 1)
            APP_START_ADDRESS 0
            (erase_loop c e filename (rows_to_erase c (f_size binFile)) 0 clk).2.2 with
        | none => rw [hw] at h; cases h
        | some wr =>
          rw [hw] at h
          simp only at h
          refine ⟨binFile, wr, rfl, by omega, by simpa using her, hw, ?_⟩
          by_cases hwr : wr.1 = false
          · simp only [hwr, if_true] at h
            rw [← Option.some.inj h]
            simp [hwr]
          · simp only [hwr, if_false] at h
            rw [← Option.some.inj h]
            have : wr.1 = true := by simpa using hwr
            simp [this]

/-- The body of `flash_firmware` always returns. -/
theorem flash_firmware_body_total (c : Chip) (e : Env) (files : Files) (filename : String)
    (clk : Nat) : ∃ r, flash_firmware_body c e files filename clk = some r := by
  unfold flash_firmware_body
  split
  · exact ⟨_, rfl⟩
  · rename_i binFile _
    simp only
    split
    · exact ⟨_, rfl⟩
    · split
      · exact ⟨_, rfl⟩
      · obtain ⟨wr, hwr⟩ := write_loop_total c e filename binFile (f_size binFile)
          (f_size_lt binFile) (f_size binFile + 1) APP_START_ADDRESS 0
          (erase_loop c e filename (rows_to_erase c (f_size binFile)) 0 clk).2.2
          (Nat.zero_le _) (by omega)
        rw [hwr]
        simp only
        split <;> exact ⟨_, rfl⟩

/-- Every event of the body of `flash_firmware` is a driver call for the image. -/
theorem flash_firmware_body_steps (c : Chip) (e : Env) (files : Files) (filename : String)
    (clk : Nat) (r : Bool × List Event × Nat)
    (h : flash_firmware_body c e files filename clk = some r) :
    ∀ ev ∈ r.2.1, ev.is_flash_step filename = true := by
  intro ev hev
  rcases flash_firmware_body_inv c e files filename clk r h with
    ⟨_, rfl⟩ | ⟨bf, _, _, rfl⟩ | ⟨bf, _, _, _, rfl⟩ | ⟨bf, wr, _, _, _, hw, rfl⟩
  · simp at hev; subst hev; simp [Event.is_flash_step]
  · simp at hev
    rcases hev with h | h <;> subst h <;> simp [Event.is_flash_step]
  · simp at hev
    rcases hev with h | h
    · subst h; simp [Event.is_flash_step]
    · exact erase_loop_steps c e filename _ _ _ ev h
  · have hws := write_loop_steps c e filename bf _ _ _ _ _ wr hw
    simp at hev
    rcases hev with h | h | h | h
    · subst h; simp [Event.is_flash_step]
    · exact erase_loop_steps c e filename _ _ _ ev h
    · exact hws ev h
    · rw [h.2]; simp [Event.is_flash_step]

/-- A call of `flash_firmware` always returns, and its events are the call marker, driver
calls for the image, and the return marker. -/
theorem flash_firmware_shape (c : Chip) (e : Env) (files : Files) (filename : String)
    (clk : Nat) :
    ∃ (res : Bool) (body : List Event) (clk' : Nat),
      flash_firmware c e files filename clk =
        some (res, Event.flash_firmware filename ::
          (body ++ [Event.flash_firmware_returns filename res]), clk') ∧
      flash_firmware_body c e files filename clk = some (res, body, clk') ∧
      ∀ ev ∈ body, ev.is_flash_step filename = true := by
  obtain ⟨r, hr⟩ := flash_firmware_body_total c e files filename clk
  refine ⟨r.1, r.2.1, r.2.2, ?_, hr, flash_firmware_body_steps c e files filename clk r hr⟩
  unfold flash_firmware
  rw [hr]

/-! ## The shape of a boot -/

theorem step_call_of (filename : String) (ev : Event)
    (h : ev.is_flash_step filename = true) : ev.call_of = none ∧ ev.return_of = none := by
  cases ev <;> simp [Event.is_flash_step] at h <;> simp [Event.call_of, Event.return_of]

theorem calls_of_steps (filename : String) (body : List Event)
    (h : ∀ ev ∈ body, ev.is_flash_step filename = true) : calls body = [] := by
  induction body with
  | nil => rfl
  | cons ev rest ih =>
    have h1 := (step_call_of filename ev (h ev (List.mem_cons_self _ _))).1
    have h2 := ih (fun x hx => h x (List.mem_cons_of_mem _ hx))
    unfold calls at h2 ⊢
    rw [List.filterMap_cons_none h1, h2]

theorem attempts_of_steps (filename : String) (body : List Event)
    (h : ∀ ev ∈ body, ev.is_flash_step filename = true) : attempts body = [] := by
  induction body with
  | nil => rfl
  | cons ev rest ih =>
    have h1 := (step_call_of filename ev (h ev (List.mem_cons_self _ _))).2
    have h2 := ih (fun x hx => h x (List.mem_cons_of_mem _ hx))
    unfold attempts at h2 ⊢
    rw [List.filterMap_cons_none h1, h2]

theorem calls_append (a b : List Event) : calls (a ++ b) = calls a ++ calls b := by
  simp [calls]

theorem attempts_append (a b : List Event) : attempts (a ++ b) = attempts a ++ attempts b := by
  simp [attempts]

theorem calls_attempt_events (filename : String) (body : List Event) (res : Bool)
    (h : ∀ ev ∈ body, ev.is_flash_step filename = true) :
    calls (attempt_events filename body res) = [filename] := by
  have hb := calls_of_steps filename body h
  unfold calls at hb ⊢
  simp [attempt_events, hb, Event.call_of]

theorem attempts_attempt_events (filename : String) (body : List Event) (res : Bool)
    (h : ∀ ev ∈ body, ev.is_flash_step filename = true) :
    attempts (attempt_events filename body res) = [(filename, res)] := by
  have hb := attempts_of_steps filename body h
  unfold attempts at hb ⊢
  simp [attempt_events, hb, Event.return_of]

/-- A driver call for an image is neither a deletion nor part of the hand-off. -/
theorem step_kinds (filename : String) (ev : Event) (h : ev.is_flash_step filename = true) :
    ev.is_unlink = false ∧ ev.is_launch = false ∧ ev ≠ Event.DeinitializeSerialConsole ∧
      ev ≠ Event.sd_mmc_deinit ∧ ev ≠ Event.NVIC_SystemReset ∧
      (∀ f, ev ≠ Event.flash_firmware f) ∧ (∀ f r, ev ≠ Event.flash_firmware_returns f r) := by
  cases ev <;> simp [Event.is_flash_step] at h <;> simp [Event.is_unlink, Event.is_launch]

/-- When the card mounts, `main` is the update sequence after the mount events. -/
theorem main_mounted (c : Chip) (e : Env) (files : Files)
    (hm : (StartFilesystemAndTest e).1 = true) :
    main c e files = (update_and_launch c e files).map fun out =>
      { trace := mounted_events e ++ out.trace, files := out.files } := by
  have hev : (StartFilesystemAndTest e).2 =
      [Event.SdCard_Initiate CTRL_GOOD, Event.f_mount e.f_mount] := by
    unfold StartFilesystemAndTest at hm ⊢
    by_cases h1 : e.SdCard_Initiate = CTRL_GOOD
    · by_cases h2 : FR_INVALID_DRIVE = e.f_mount
      · simp [h1, h2] at hm
      · simp [h1, h2]
    · simp [h1] at hm
  unfold main
  simp only [hm, hev]
  cases update_and_launch c e files <;> simp [mounted_events]

/-- The four ways the update sequence can go. -/
theorem update_and_launch_cases (c : Chip) (e : Env) (files : Files) :
    (files FLAG_PATH = none ∧
      update_and_launch c e files =
        some { trace := [Event.f_open FLAG_PATH FR_NO_FILE] ++ exit_bootloader c,
               files := files }) ∨
    ((files FLAG_PATH).isSome = true ∧ ∃ b1 k1,
      flash_firmware_body c e files PRIMARY_PATH 0 = some (true, b1, k1) ∧
      (∀ ev ∈ b1, ev.is_flash_step PRIMARY_PATH = true) ∧
      update_and_launch c e files =
        some { trace := flag_found_events ++ attempt_events PRIMARY_PATH b1 true
                 ++ [Event.f_unlink FLAG_PATH] ++ exit_bootloader c,
               files := f_unlink e.f_unlink files FLAG_PATH }) ∨
    ((files FLAG_PATH).isSome = true ∧ ∃ b1 k1 b2 k2,
      flash_firmware_body c e files PRIMARY_PATH 0 = some (false, b1, k1) ∧
      flash_firmware_body c e files GOLDEN_PATH k1 = some (true, b2, k2) ∧
      (∀ ev ∈ b1, ev.is_flash_step PRIMARY_PATH = true) ∧
      (∀ ev ∈ b2, ev.is_flash_step GOLDEN_PATH = true) ∧
      update_and_launch c e files =
        some { trace := flag_found_events ++ attempt_events PRIMARY_PATH b1 false
                 ++ attempt_events GOLDEN_PATH b2 true
                 ++ [Event.f_unlink FLAG_PATH] ++ exit_bootloader c,
               files := f_unlink e.f_unlink files FLAG_PATH }) ∨
    ((files FLAG_PATH).isSome = true ∧ ∃ b1 k1 b2 k2,
      flash_firmware_body c e files PRIMARY_PATH 0 = some (false, b1, k1) ∧
      flash_firmware_body c e files GOLDEN_PATH k1 = some (false, b2, k2) ∧
      (∀ ev ∈ b1, ev.is_flash_step PRIMARY_PATH = true) ∧
      (∀ ev ∈ b2, ev.is_flash_step GOLDEN_PATH = true) ∧
      update_and_launch c e files =
        some { trace := flag_found_events ++ attempt_events PRIMARY_PATH b1 false
                 ++ attempt_events GOLDEN_PATH b2 false ++ exit_bootloader c,
               files := files }) := by
  cases hflag : files FLAG_PATH with
  | none =>
    left
    refine ⟨rfl, ?_⟩
    unfold update_and_launch
    rw [hflag]
  | some flagFile =>
    right
    obtain ⟨r1, b1, k1, h1, hb1, hs1⟩ := flash_firmware_shape c e files PRIMARY_PATH 0
    cases r1 with
    | true =>
      left
      refine ⟨rfl, b1, k1, hb1, hs1, ?_⟩
      unfold update_and_launch
      rw [hflag]
      simp only [h1, if_true]
      rfl
    | false =>
      right
      obtain ⟨r2, b2, k2, h2, hb2, hs2⟩ := flash_firmware_shape c e files GOLDEN_PATH k1
      cases r2 with
      | true =>
        left
        refine ⟨rfl, b1, k1, b2, k2, hb1, hb2, hs1, hs2, ?_⟩
        unfold update_and_launch
        rw [hflag]
        simp only [h1, h2, if_true]
        rfl
      | false =>
        right
        refine ⟨rfl, b1, k1, b2, k2, hb1, hb2, hs1, hs2, ?_⟩
        unfold update_and_launch
        rw [hflag]
        simp only [h1, h2]
        rfl

/-! ## The erase loop -/

theorem erase_loop_succ (c : Chip) (e : Env) (filename : String) (n i clk : Nat) :
    erase_loop c e filename (n + 1) i clk =
      if e.nvm_erase_row clk (erase_addr c i) ≠ STATUS_OK then
        (false, [Event.nvm_erase_row (erase_addr c i) (e.nvm_erase_row clk (erase_addr c i)),
          Event.f_close filename], clk + 1)
      else
        ((erase_loop c e filename n (i + 1) (clk + 1)).1,
          Event.nvm_erase_row (erase_addr c i) (e.nvm_erase_row clk (erase_addr c i)) ::
            (erase_loop c e filename n (i + 1) (clk + 1)).2.1,
          (erase_loop c e filename n (i + 1) (clk + 1)).2.2) := by
  rw [erase_loop]
  rfl

/-- When the erase loop completes, it has made exactly the calls
`nvm_erase_row(erase_addr (i + k))` for `k = 0 .. n - 1`, all successful. -/
theorem erase_loop_ok (c : Chip) (e : Env) (filename : String) :
    ∀ (n i clk : Nat), (erase_loop c e filename n i clk).1 = true →
      (erase_loop c e filename n i clk).2.1 =
        (List.range n).map (fun k => Event.nvm_erase_row (erase_addr c (i + k)) STATUS_OK) ∧
      (erase_loop c e filename n i clk).2.2 = clk + n := by
  intro n
  induction n with
  | zero => intro i clk _; simp [erase_loop]
  | succ n ih =>
    intro i clk h
    rw [erase_loop_succ] at h ⊢
    by_cases hst : e.nvm_erase_row clk (erase_addr c i) = STATUS_OK
    · simp only [hst, ne_eq, not_true_eq_false, if_false] at h ⊢
      obtain ⟨h1, h2⟩ := ih (i + 1) (clk + 1) h
      refine ⟨?_, by rw [h2]; omega⟩
      rw [h1, List.range_succ_eq_map]
      simp only [List.map_cons, List.map_map, Nat.add_zero]
      congr 1
      apply List.map_congr_left
      intro k _
      simp only [Function.comp]
      congr 2
      omega
    · simp [hst] at h

/-- When the erase loop fails, its trace holds a failed erase. -/
theorem erase_loop_fail (c : Chip) (e : Env) (filename : String) :
    ∀ (n i clk : Nat), (erase_loop c e filename n i clk).1 = false →
      ∃ ev ∈ (erase_loop c e filename n i clk).2.1, ev.erase_failed = true := by
  intro n
  induction n with
  | zero => intro i clk h; simp [erase_loop] at h
  | succ n ih =>
    intro i clk h
    rw [erase_loop_succ] at h ⊢
    by_cases hst : e.nvm_erase_row clk (erase_addr c i) = STATUS_OK
    · simp only [hst, ne_eq, not_true_eq_false, if_false] at h ⊢
      obtain ⟨ev, hev, hf⟩ := ih (i + 1) (clk + 1) h
      exact ⟨ev, List.mem_cons_of_mem _ hev, hf⟩
    · simp only [ne_eq, hst, not_false_eq_true, if_true]
      exact ⟨_, List.mem_cons_self _ _, by simp [Event.erase_failed, hst]⟩

/-- The erase loop makes no read and no page write. -/
theorem erase_loop_kinds (c : Chip) (e : Env) (filename : String) :
    ∀ (n i clk : Nat), ∀ ev ∈ (erase_loop c e filename n i clk).2.1,
      ev.is_write = false ∧ ev.read_failed = false ∧ ev.write_failed = false ∧
        ev.read_short = false := by
  intro n
  induction n with
  | zero => intro i clk ev h; simp [erase_loop] at h
  | succ n ih =>
    intro i clk ev h
    rw [erase_loop_succ] at h
    split at h
    · simp at h
      rcases h with h | h <;> subst h <;>
        simp [Event.is_write, Event.read_failed, Event.write_failed, Event.read_short]
    · simp at h
      rcases h with h | h
      · subst h
        simp [Event.is_write, Event.read_failed, Event.write_failed, Event.read_short]
      · exact ih _ _ ev h

/-! ## The write loop -/

theorem read_event_failed (c : Chip) (filename : String) (binFile : ImageFile)
    (file_size total_read : Nat) :
    (read_event c filename binFile file_size total_read).read_failed =
      decide ((read_reply c binFile file_size total_read).1 ≠ FR_OK) := rfl

theorem write_event_failed (c : Chip) (e : Env) (binFile : ImageFile)
    (file_size current_addr total_read clk : Nat) :
    (write_event c e binFile file_size current_addr total_read clk).write_failed =
      decide (write_reply c e binFile file_size current_addr total_read clk ≠ STATUS_OK) := rfl

/-- The write loop completes (is not left by `return false`) exactly when no read and no
page write of its trace failed. -/
theorem write_loop_ok_iff (c : Chip) (e : Env) (filename : String) (binFile : ImageFile)
    (file_size : Nat) :
    ∀ (fuel current_addr total_read clk : Nat) (r : Bool × List Event × Nat),
      write_loop c e filename binFile file_size fuel current_addr total_read clk = some r →
      (r.1 = true ↔ ∀ ev ∈ r.2.1, ev.read_failed = false ∧ ev.write_failed = false) := by
  intro fuel
  induction fuel with
  | zero => intro _ _ _ r h; rw [write_loop_zero] at h; cases h
  | succ fuel ih =>
    intro current_addr total_read clk r h
    rcases write_loop_inv c e filename binFile file_size fuel current_addr total_read clk r h
      with ⟨_, rfl⟩ | ⟨_, hr, rfl⟩ | ⟨_, hr, _, rfl⟩ | ⟨_, hr, _, hw, rfl⟩ |
        ⟨_, hr, _, hw, r', hr', rfl⟩
    · simp
    · simp only [Bool.false_eq_true, false_iff, not_forall]
      exact ⟨read_event c filename binFile file_size total_read, List.mem_cons_self _ _,
        by simp [read_event_failed, hr]⟩
    · simp [hr, Event.read_failed, Event.write_failed, read_event]
    · simp only [Bool.false_eq_true, false_iff, not_forall]
      exact ⟨write_event c e binFile file_size current_addr total_read clk,
        by simp, by simp [write_event_failed, hw]⟩
    · have := ih _ _ _ r' hr'
      simp only [this, List.mem_cons, forall_eq_or_imp]
      simp [read_event_failed, hr, write_event_failed, hw, Event.write_failed, read_event,
        Event.read_failed, write_event]

/-! ## A flashing attempt on a file that opens and passes the size check -/

/-- The two ways `flash_firmware` can go once the file is open and large enough: the
erase loop fails, or it completes and the write loop runs. -/
theorem flash_firmware_opened (c : Chip) (e : Env) (files : Files) (filename : String)
    (clk : Nat) (binFile : ImageFile) (hopen : files filename = some binFile)
    (hsize : 1024 ≤ f_size binFile) :
    ((erase_loop c e filename (rows_to_erase c (f_size binFile)) 0 clk).1 = false ∧
      flash_firmware c e files filename clk =
        some (false,
          attempt_events filename (Event.f_open filename FR_OK ::
            (erase_loop c e filename (rows_to_erase c (f_size binFile)) 0 clk).2.1) false,
          (erase_loop c e filename (rows_to_erase c (f_size binFile)) 0 clk).2.2)) ∨
    ((erase_loop c e filename (rows_to_erase c (f_size binFile)) 0 clk).1 = true ∧
      ∃ wr, write_loop c e filename binFile (f_size binFile) (f_size binFile + 1)
          APP_START_ADDRESS 0
          (erase_loop c e filename (rows_to_erase c (f_size binFile)) 0 clk).2.2 = some wr ∧
        flash_firmware c e files filename clk =
          some (wr.1,
            attempt_events filename (Event.f_open filename FR_OK ::
              ((erase_loop c e filename (rows_to_erase c (f_size binFile)) 0 clk).2.1
                ++ wr.2.1 ++ if wr.1 = true then [Event.f_close filename] else [])) wr.1,
            wr.2.2)) := by
  obtain ⟨r, hr⟩ := flash_firmware_body_total c e files filename clk
  have hff : flash_firmware c e files filename clk =
      some (r.1, attempt_events filename r.2.1 r.1, r.2.2) := by
    unfold flash_firmware
    rw [hr]
    rfl
  rcases flash_firmware_body_inv c e files filename clk r hr with
    ⟨hn, _⟩ | ⟨bf, hbf, hlt, _⟩ | ⟨bf, hbf, _, her, rfl⟩ | ⟨bf, wr, hbf, _, her, hw, rfl⟩
  · rw [hn] at hopen; cases hopen
  · rw [hbf] at hopen
    have hsame : bf = binFile := Option.some.inj hopen
    subst hsame
    exact absurd hsize (Nat.not_le.mpr hlt)
  · rw [hbf] at hopen
    have hsame : bf = binFile := Option.some.inj hopen
    subst hsame
    exact Or.inl ⟨her, hff⟩
  · rw [hbf] at hopen
    have hsame : bf = binFile := Option.some.inj hopen
    subst hsame
    exact Or.inr ⟨her, wr, hw, hff⟩

theorem mem_attempt_events (filename : String) (body : List Event) (res : Bool)
    (ev : Event) :
    ev ∈ attempt_events filename body res ↔
      ev = Event.flash_firmware filename ∨ ev ∈ body ∨
        ev = Event.flash_firmware_returns filename res := by
  simp [attempt_events]

/-! ## Counting the pages written -/

theorem ceil_div_zero (P : Nat) (hP : 0 < P) : ceil_div 0 P = 0 := by
  unfold ceil_div
  apply Nat.div_eq_of_lt
  omega

theorem ceil_div_full (P x : Nat) (hP : 0 < P) (hx : P ≤ x) :
    ceil_div (x - P) P + 1 = ceil_div x P := by
  unfold ceil_div
  rw [← Nat.add_div_right _ hP]
  congr 1
  omega

theorem ceil_div_last (P x : Nat) (hx : 0 < x) (hxP : x ≤ P) : ceil_div x P = 1 := by
  unfold ceil_div
  apply Nat.div_eq_of_lt_le <;> omega

theorem bytes_to_read_eq (c : Chip) (file_size total_read : Nat)
    (h : total_read < file_size) (hs : file_size < 4294967296) :
    bytes_to_read c file_size total_read =
      if c.NVMCTRL_PAGE_SIZE ≤ file_size - total_read then c.NVMCTRL_PAGE_SIZE
      else file_size - total_read := by
  unfold bytes_to_read
  rw [sub32_of_le (Nat.le_of_lt h) hs]

theorem bytes_to_read_pos (c : Chip) (file_size total_read : Nat)
    (hP : 0 < c.NVMCTRL_PAGE_SIZE) (h : total_read < file_size)
    (hs : file_size < 4294967296) : 0 < bytes_to_read c file_size total_read := by
  rw [bytes_to_read_eq c file_size total_read h hs]
  split <;> omega

theorem read_event_short (c : Chip) (filename : String) (binFile : ImageFile)
    (file_size total_read : Nat) :
    (read_event c filename binFile file_size total_read).read_short =
      decide ((read_reply c binFile file_size total_read).1 = FR_OK ∧
        (read_reply c binFile file_size total_read).2.length ≠
          bytes_to_read c file_size total_read) := rfl

/-- When no read or page write of the write loop fails and every read delivers what was
asked for, the loop completes and writes one page per started page of the rest of the
file. -/
theorem write_loop_count (c : Chip) (e : Env) (filename : String) (binFile : ImageFile)
    (file_size : Nat) (hP : 0 < c.NVMCTRL_PAGE_SIZE) (hs : file_size < 4294967296) :
    ∀ (fuel current_addr total_read clk : Nat) (r : Bool × List Event × Nat),
      write_loop c e filename binFile file_size fuel current_addr total_read clk = some r →
      total_read ≤ file_size →
      (∀ ev ∈ r.2.1, ev.read_failed = false ∧ ev.read_short = false ∧
        ev.write_failed = false) →
      r.1 = true ∧
      (r.2.1.filter Event.is_write).length =
        ceil_div (file_size - total_read) c.NVMCTRL_PAGE_SIZE := by
  intro fuel
  induction fuel with
  | zero => intro _ _ _ r h; rw [write_loop_zero] at h; cases h
  | succ fuel ih =>
    intro current_addr total_read clk r h hle hall
    rcases write_loop_inv c e filename binFile file_size fuel current_addr total_read clk r h
      with ⟨hge, rfl⟩ | ⟨_, hr, rfl⟩ | ⟨hlt, hr, hz, rfl⟩ | ⟨_, hr, _, hw, rfl⟩ |
        ⟨hlt, hr, hz, hw, r', hr', rfl⟩
    · have : file_size - total_read = 0 := by omega
      rw [this, ceil_div_zero _ hP]
      simp
    · have := (hall _ (List.mem_cons_self _ _)).1
      simp [read_event_failed, hr] at this
    · have := (hall _ (List.mem_cons_self _ _)).2.1
      have hpos := bytes_to_read_pos c file_size total_read hP hlt hs
      rw [read_event_short] at this
      simp only [hr, hz, true_and, ne_eq, decide_eq_false_iff_not, not_not] at this
      omega
    · have := (hall (write_event c e binFile file_size current_addr total_read clk)
        (by simp)).2.2
      simp [write_event_failed, hw] at this
    · have hfull := (hall _ (List.mem_cons_self _ _)).2.1
      rw [read_event_short] at hfull
      simp only [hr, true_and, ne_eq, decide_eq_false_iff_not, not_not] at hfull
      have hbtr := bytes_to_read_eq c file_size total_read hlt hs
      have hadd : add32 total_read (read_reply c binFile file_size total_read).2.length =
          total_read + bytes_to_read c file_size total_read := by
        rw [hfull]
        unfold add32
        have : bytes_to_read c file_size total_read ≤ file_size - total_read := by
          rw [hbtr]; split <;> omega
        omega
      rw [hadd] at hr'
      have hle' : total_read + bytes_to_read c file_size total_read ≤ file_size := by
        rw [hbtr]; split <;> omega
      obtain ⟨h1, h2⟩ := ih _ _ _ r' hr' hle' (fun ev hev =>
        hall ev (List.mem_cons_of_mem _ (List.mem_cons_of_mem _ hev)))
      refine ⟨h1, ?_⟩
      have hfilter : (List.filter Event.is_write
          (read_event c filename binFile file_size total_read ::
            write_event c e binFile file_size current_addr total_read clk :: r'.2.1)).length
          = (List.filter Event.is_write r'.2.1).length + 1 := by
        simp [List.filter_cons, read_event, write_event, Event.is_write]
      rw [hfilter, h2, hbtr]
      by_cases hfullpage : c.NVMCTRL_PAGE_SIZE ≤ file_size - total_read
      · simp only [hfullpage, if_true]
        have : file_size - (total_read + c.NVMCTRL_PAGE_SIZE) =
            file_size - total_read - c.NVMCTRL_PAGE_SIZE := by omega
        rw [this]
        exact ceil_div_full _ _ hP hfullpage
      · simp only [hfullpage, if_false]
        have : file_size - (total_read + (file_size - total_read)) = 0 := by omega
        rw [this, ceil_div_zero _ hP, ceil_div_last _ _ (by omega) (by omega)]

theorem erase_loop_ok_of_no_failure (c : Chip) (e : Env) (filename : String)
    (n i clk : Nat)
    (h : ∀ ev ∈ (erase_loop c e filename n i clk).2.1, ev.erase_failed = false) :
    (erase_loop c e filename n i clk).1 = true := by
  cases hb : (erase_loop c e filename n i clk).1 with
  | true => rfl
  | false =>
    obtain ⟨ev, hev, hf⟩ := erase_loop_fail c e filename n i clk hb
    rw [h ev hev] at hf
    cases hf

theorem filter_write_attempt_events (filename : String) (body : List Event) (res : Bool) :
    (attempt_events filename body res).filter Event.is_write =
      body.filter Event.is_write := by
  simp [attempt_events, List.filter_cons, Event.is_write]

theorem filter_write_erase_loop (c : Chip) (e : Env) (filename : String) (n i clk : Nat) :
    (erase_loop c e filename n i clk).2.1.filter Event.is_write = [] := by
  rw [List.filter_eq_nil_iff]
  intro ev hev
  simp [(erase_loop_kinds c e filename n i clk ev hev).1]

/-! ## The buffer of the last page -/

theorem last_write_buffer_append_some (a b : List Event) (x : List Nat)
    (h : last_write_buffer b = some x) : last_write_buffer (a ++ b) = some x := by
  unfold last_write_buffer at h ⊢
  rw [List.filterMap_append, List.getLast?_append, h]
  rfl

theorem written_of_not_write (ev : Event) (h : ev.is_write = false) : ev.written = none := by
  cases ev <;> simp [Event.is_write] at h <;> rfl

theorem last_write_buffer_append_none (a b : List Event)
    (h : ∀ ev ∈ b, ev.is_write = false) :
    last_write_buffer (a ++ b) = last_write_buffer a := by
  have hb : b.filterMap Event.written = [] := by
    rw [List.filterMap_eq_nil_iff]
    intro ev hev
    exact written_of_not_write ev (h ev hev)
  unfold last_write_buffer
  rw [List.filterMap_append, hb, List.append_nil]

theorem last_write_buffer_cons_cons (ev1 ev2 : Event) (rest : List Event) (x : List Nat)
    (h : last_write_buffer rest = some x) :
    last_write_buffer (ev1 :: ev2 :: rest) = some x :=
  last_write_buffer_append_some [ev1, ev2] rest x h

/-- A read of a file that holds `content`, when it returns `FR_OK`, delivers the bytes
of `content` from the read pointer on. -/
theorem f_read_of_reads_from (binFile : ImageFile) (content : List Nat)
    (h : reads_from binFile content) (fptr btr : Nat)
    (hok : (f_read binFile fptr btr).1 = FR_OK) :
    (f_read binFile fptr btr).2 = (content.drop fptr).take btr := by
  unfold f_read at hok ⊢
  simp only at hok ⊢
  rw [h.2 fptr btr hok, List.take_take, Nat.min_self]

/-- The write loop started at the end of the file makes no call. -/
theorem write_loop_done (c : Chip) (e : Env) (filename : String) (binFile : ImageFile)
    (file_size fuel current_addr clk : Nat) (r : Bool × List Event × Nat)
    (h : write_loop c e filename binFile file_size fuel current_addr file_size clk = some r) :
    r = (true, [], clk) := by
  cases fuel with
  | zero => rw [write_loop_zero] at h; cases h
  | succ fuel =>
    rcases write_loop_inv c e filename binFile file_size fuel current_addr file_size clk r h
      with ⟨_, rfl⟩ | ⟨hlt, _⟩ | ⟨hlt, _⟩ | ⟨hlt, _⟩ | ⟨hlt, _⟩
    · rfl
    all_goals exact absurd hlt (Nat.lt_irrefl _)

theorem mod_of_last_page (P fs tr : Nat) (hdvd : P ∣ tr) (hlt : tr < fs)
    (hshort : fs - tr < P) : fs % P = fs - tr := by
  obtain ⟨k, rfl⟩ := hdvd
  have : fs = P * k + (fs - P * k) := by omega
  rw [this, Nat.mul_add_mod, Nat.mod_eq_of_lt (by omega)]
  omega

/-- When the write loop completes on a file that holds `content` and whose size is not
a multiple of the page size, the buffer of its last page write is the tail of the file
followed by `0xFF` bytes up to the page size. -/
theorem write_loop_last_buffer (c : Chip) (e : Env) (filename : String)
    (binFile : ImageFile) (content : List Nat) (hP : 0 < c.NVMCTRL_PAGE_SIZE)
    (hfile : reads_from binFile content) (hs : content.length < 4294967296)
    (hpart : content.length % c.NVMCTRL_PAGE_SIZE ≠ 0) :
    ∀ (fuel current_addr total_read clk : Nat) (r : Bool × List Event × Nat),
      write_loop c e filename binFile content.length fuel current_addr total_read clk
        = some r →
      r.1 = true → total_read < content.length → c.NVMCTRL_PAGE_SIZE ∣ total_read →
      last_write_buffer r.2.1 =
        some (content.drop (content.length - content.length % c.NVMCTRL_PAGE_SIZE) ++
          List.replicate (c.NVMCTRL_PAGE_SIZE - content.length % c.NVMCTRL_PAGE_SIZE) 0xFF) := by
  intro fuel
  induction fuel with
  | zero => intro _ _ _ r h; rw [write_loop_zero] at h; cases h
  | succ fuel ih =>
    intro current_addr total_read clk r h hok hlt hdvd
    have hbtr := bytes_to_read_eq c content.length total_read hlt hs
    have hdata : (read_reply c binFile content.length total_read).1 = FR_OK →
        (read_reply c binFile content.length total_read).2 =
          (content.drop total_read).take (bytes_to_read c content.length total_read) :=
      fun hr => f_read_of_reads_from binFile content hfile _ _ hr
    have hlen : (read_reply c binFile content.length total_read).1 = FR_OK →
        (read_reply c binFile content.length total_read).2.length =
          bytes_to_read c content.length total_read := by
      intro hr
      rw [hdata hr, List.length_take, List.length_drop, hbtr]
      split <;> omega
    rcases write_loop_inv c e filename binFile content.length fuel current_addr total_read
        clk r h
      with ⟨hge, _⟩ | ⟨_, _, rfl⟩ | ⟨_, hr, hz, rfl⟩ | ⟨_, _, _, _, rfl⟩ |
        ⟨_, hr, hz, hw, r', hr', rfl⟩
    · exact absurd hlt hge
    · cases hok
    · have hpos := bytes_to_read_pos c content.length total_read hP hlt hs
      have := hlen hr
      omega
    · cases hok
    · have hl := hlen hr
      by_cases hfull : c.NVMCTRL_PAGE_SIZE ≤ content.length - total_read
      · have hb : bytes_to_read c content.length total_read = c.NVMCTRL_PAGE_SIZE := by
          rw [hbtr]; simp [hfull]
        have hadd : add32 total_read (read_reply c binFile content.length total_read).2.length
            = total_read + c.NVMCTRL_PAGE_SIZE := by
          rw [hl, hb]; unfold add32; omega
        rw [hadd] at hr'
        have hdvd' : c.NVMCTRL_PAGE_SIZE ∣ total_read + c.NVMCTRL_PAGE_SIZE :=
          Nat.dvd_add hdvd (Nat.dvd_refl _)
        have hne : total_read + c.NVMCTRL_PAGE_SIZE ≠ content.length := by
          intro heq
          rw [← heq] at hpart
          exact hpart (Nat.mod_eq_zero_of_dvd hdvd')
        exact last_write_buffer_cons_cons _ _ _ _ (ih _ _ _ r' hr' hok (by omega) hdvd')
      · have hb : bytes_to_read c content.length total_read = content.length - total_read := by
          rw [hbtr]; simp [hfull]
        have hadd : add32 total_read (read_reply c binFile content.length total_read).2.length
            = content.length := by
          rw [hl, hb]; unfold add32; omega
        rw [hadd] at hr'
        have hr'' := write_loop_done c e filename binFile content.length fuel _ _ r' hr'
        subst hr''
        have hmod := mod_of_last_page c.NVMCTRL_PAGE_SIZE content.length total_read hdvd hlt
          (by omega)
        have htr : content.length - content.length % c.NVMCTRL_PAGE_SIZE = total_read := by
          rw [hmod]; omega
        simp only [last_write_buffer, write_event, read_event, page_buffer, List.filterMap_cons,
          Event.written, List.filterMap_nil, List.getLast?_singleton]
        rw [hl, hdata hr, hb, htr, hmod]
        congr 2
        rw [List.take_of_length_le]
        rw [List.length_drop]

/-! ## Rows erased and addresses written -/

theorem ceil_mul_ge (fs R : Nat) (hR : 0 < R) : fs ≤ R * ((fs + R - 1) / R) := by
  have h1 := Nat.div_add_mod (fs + R - 1) R
  have h2 := Nat.mod_lt (fs + R - 1) hR
  omega

theorem ceil_pred_mul_lt (fs R : Nat) (hR : 0 < R) (hfs : 0 < fs) :
    R * ((fs + R - 1) / R - 1) < fs := by
  have h1 := Nat.div_add_mod (fs + R - 1) R
  have h2 := Nat.mod_lt (fs + R - 1) hR
  have h3 : 1 ≤ (fs + R - 1) / R := by
    rw [Nat.le_div_iff_mul_le hR]; omega
  have h4 : R * ((fs + R - 1) / R - 1) = R * ((fs + R - 1) / R) - R := by
    rw [Nat.mul_sub, Nat.mul_one]
  omega

/-- Without wrap-around, `rows_to_erase` is the number of rows the file starts. -/
theorem rows_to_erase_eq (c : Chip) (fs : Nat) (hR : 0 < c.NVMCTRL_ROW_SIZE)
    (h : fs + c.NVMCTRL_ROW_SIZE ≤ 4294967296) :
    rows_to_erase c fs = ceil_div fs c.NVMCTRL_ROW_SIZE := by
  unfold rows_to_erase ceil_div add32 sub32
  congr 1
  split <;> omega

/-- When the erase loop completes, the number of `nvm_erase_row` calls is the number of
iterations asked for. -/
theorem erase_loop_count (c : Chip) (e : Env) (filename : String) (n i clk : Nat)
    (h : (erase_loop c e filename n i clk).1 = true) :
    ((erase_loop c e filename n i clk).2.1.filter Event.is_erase).length = n := by
  rw [(erase_loop_ok c e filename n i clk h).1, List.filter_eq_self.mpr, List.length_map,
    List.length_range]
  intro ev hev
  rw [List.mem_map] at hev
  obtain ⟨k, _, rfl⟩ := hev
  rfl

theorem bytes_to_read_cases (c : Chip) (file_size total_read : Nat)
    (h : total_read < file_size) (hs : file_size < 4294967296) :
    (c.NVMCTRL_PAGE_SIZE ≤ file_size - total_read ∧
      bytes_to_read c file_size total_read = c.NVMCTRL_PAGE_SIZE) ∨
    (file_size - total_read < c.NVMCTRL_PAGE_SIZE ∧
      bytes_to_read c file_size total_read = file_size - total_read) := by
  rw [bytes_to_read_eq c file_size total_read h hs]
  by_cases hfull : c.NVMCTRL_PAGE_SIZE ≤ file_size - total_read
  · left; exact ⟨hfull, by simp [hfull]⟩
  · right; exact ⟨by omega, by simp [hfull]⟩

/-- When every read delivers what was asked for, the page writes of the write loop go
to `current_addr`, `current_addr + NVMCTRL_PAGE_SIZE`, ... and each starts below the
end of the file. -/
theorem write_loop_addrs (c : Chip) (e : Env) (filename : String) (binFile : ImageFile)
    (file_size : Nat) (hs : file_size < 4294967296) :
    ∀ (fuel current_addr total_read clk : Nat) (r : Bool × List Event × Nat),
      write_loop c e filename binFile file_size fuel current_addr total_read clk = some r →
      total_read ≤ file_size →
      current_addr + (file_size - total_read) ≤ 4294967296 →
      (∀ ev ∈ r.2.1, ev.read_short = false) →
      ∀ a buffer len st, Event.nvm_write_buffer a buffer len st ∈ r.2.1 →
        ∃ j, a = current_addr + j * c.NVMCTRL_PAGE_SIZE ∧
          j * c.NVMCTRL_PAGE_SIZE < file_size - total_read := by
  intro fuel
  induction fuel with
  | zero => intro _ _ _ r h; rw [write_loop_zero] at h; cases h
  | succ fuel ih =>
    intro current_addr total_read clk r h hle hfit hall a buffer len st hmem
    rcases write_loop_inv c e filename binFile file_size fuel current_addr total_read clk r h
      with ⟨_, rfl⟩ | ⟨_, _, rfl⟩ | ⟨_, _, _, rfl⟩ | ⟨hlt, _, _, _, rfl⟩ |
        ⟨hlt, hr, hz, hw, r', hr', rfl⟩
    · simp at hmem
    · simp [read_event] at hmem
    · simp [read_event] at hmem
    · simp only [read_event, write_event, List.mem_cons, Event.nvm_write_buffer.injEq,
        List.mem_singleton, List.not_mem_nil, or_false, false_or, reduceCtorEq] at hmem
      exact ⟨0, by omega, by omega⟩
    · have hfull := hall _ (List.mem_cons_self _ _)
      rw [read_event_short] at hfull
      simp only [hr, true_and, ne_eq, decide_eq_false_iff_not, not_not] at hfull
      simp only [List.mem_cons] at hmem
      rcases hmem with hm | hm | hm
      · simp [read_event] at hm
      · simp only [write_event, Event.nvm_write_buffer.injEq] at hm
        exact ⟨0, by omega, by omega⟩
      · have hcases := bytes_to_read_cases c file_size total_read hlt hs
        have hadd : add32 total_read (read_reply c binFile file_size total_read).2.length =
            total_read + bytes_to_read c file_size total_read := by
          rw [hfull]; unfold add32; omega
        rw [hadd] at hr'
        have hca : add32 current_addr c.NVMCTRL_PAGE_SIZE =
            (current_addr + c.NVMCTRL_PAGE_SIZE) % 4294967296 := rfl
        obtain ⟨j, hj1, hj2⟩ := ih _ _ _ r' hr' (by omega) (by omega)
          (fun ev hev => hall ev (List.mem_cons_of_mem _ (List.mem_cons_of_mem _ hev)))
          a buffer len st hm
        have hsucc : (j + 1) * c.NVMCTRL_PAGE_SIZE =
            j * c.NVMCTRL_PAGE_SIZE + c.NVMCTRL_PAGE_SIZE := Nat.succ_mul _ _
        refine ⟨j + 1, ?_, ?_⟩ <;> omega

/-- A page that starts inside the file lies in a row that the erase loop erases. -/
theorem erased_row_exists (c : Chip) (fs j x : Nat) (hc : c.wf)
    (halign : c.NVMCTRL_ROW_SIZE ∣ APP_START_ADDRESS)
    (hend : APP_START_ADDRESS + fs ≤ 4294967296)
    (hj : j * c.NVMCTRL_PAGE_SIZE < fs)
    (hlo : APP_START_ADDRESS + j * c.NVMCTRL_PAGE_SIZE ≤ x)
    (hhi : x < APP_START_ADDRESS + j * c.NVMCTRL_PAGE_SIZE + c.NVMCTRL_PAGE_SIZE) :
    ∃ i, i < rows_to_erase c fs ∧
      erase_addr c i / c.NVMCTRL_ROW_SIZE = x / c.NVMCTRL_ROW_SIZE := by
  obtain ⟨hP, ⟨m, hm⟩, hR, _⟩ := hc
  have hRle : c.NVMCTRL_ROW_SIZE ≤ APP_START_ADDRESS :=
    Nat.le_of_dvd (by decide) halign
  rw [rows_to_erase_eq c fs hR (by omega)]
  unfold ceil_div
  obtain ⟨q, hq⟩ := halign
  have hge := ceil_mul_ge fs c.NVMCTRL_ROW_SIZE hR
  have hpred := ceil_pred_mul_lt fs c.NVMCTRL_ROW_SIZE hR (by omega)
  generalize (fs + c.NVMCTRL_ROW_SIZE - 1) / c.NVMCTRL_ROW_SIZE = rows at hge hpred ⊢
  -- the page ends at or below the end of the erased rows
  have hjm : j < rows * m := by
    apply Nat.lt_of_mul_lt_mul_right (a := c.NVMCTRL_PAGE_SIZE)
    calc j * c.NVMCTRL_PAGE_SIZE < fs := hj
      _ ≤ c.NVMCTRL_ROW_SIZE * rows := hge
      _ = rows * m * c.NVMCTRL_PAGE_SIZE := by rw [hm]; ring
  have hpage : (j + 1) * c.NVMCTRL_PAGE_SIZE ≤ c.NVMCTRL_ROW_SIZE * rows := by
    calc (j + 1) * c.NVMCTRL_PAGE_SIZE ≤ rows * m * c.NVMCTRL_PAGE_SIZE :=
          Nat.mul_le_mul_right _ hjm
      _ = c.NVMCTRL_ROW_SIZE * rows := by rw [hm]; ring
  have hsucc : (j + 1) * c.NVMCTRL_PAGE_SIZE =
      j * c.NVMCTRL_PAGE_SIZE + c.NVMCTRL_PAGE_SIZE := Nat.succ_mul _ _
  have hx : x - APP_START_ADDRESS < c.NVMCTRL_ROW_SIZE * rows := by omega
  have hi : (x - APP_START_ADDRESS) / c.NVMCTRL_ROW_SIZE < rows :=
    Nat.div_lt_of_lt_mul hx
  refine ⟨(x - APP_START_ADDRESS) / c.NVMCTRL_ROW_SIZE, hi, ?_⟩
  generalize hidef : (x - APP_START_ADDRESS) / c.NVMCTRL_ROW_SIZE = i at hi ⊢
  have hile : c.NVMCTRL_ROW_SIZE * i ≤ c.NVMCTRL_ROW_SIZE * (rows - 1) :=
    Nat.mul_le_mul_left _ (by omega)
  have hcomm : i * c.NVMCTRL_ROW_SIZE = c.NVMCTRL_ROW_SIZE * i := Nat.mul_comm _ _
  have haddr : erase_addr c i = APP_START_ADDRESS + c.NVMCTRL_ROW_SIZE * i := by
    unfold erase_addr add32 mul32
    rw [hcomm]
    omega
  rw [haddr]
  have hxs : x = c.NVMCTRL_ROW_SIZE * q + (x - APP_START_ADDRESS) := by omega
  rw [hq]
  conv_rhs => rw [hxs]
  rw [← Nat.mul_add, Nat.mul_div_cancel_left _ hR, Nat.mul_add_div hR, hidef]

/-- A list that starts with events other than `w` splits at `w` after those events. -/
theorem split_after_others (w : Event) :
    ∀ (front rest pre post : List Event), front ++ rest = pre ++ w :: post →
      (∀ ev ∈ front, ev ≠ w) → ∃ pre', pre = front ++ pre' := by
  intro front
  induction front with
  | nil => intro rest pre post _ _; exact ⟨pre, rfl⟩
  | cons ev front ih =>
    intro rest pre post h hne
    cases pre with
    | nil =>
      simp only [List.cons_append, List.nil_append, List.cons.injEq] at h
      exact absurd h.1 (hne ev (List.mem_cons_self _ _))
    | cons p pre =>
      simp only [List.cons_append, List.cons.injEq] at h
      obtain ⟨pre', hpre'⟩ := ih rest pre post h.2
        (fun x hx => hne x (List.mem_cons_of_mem _ hx))
      exact ⟨pre', by rw [h.1, hpre']; rfl⟩

/-- The write loop makes no `nvm_erase_row` call. -/
theorem write_loop_no_erase (c : Chip) (e : Env) (filename : String) (binFile : ImageFile)
    (file_size : Nat) :
    ∀ (fuel current_addr total_read clk : Nat) (r : Bool × List Event × Nat),
      write_loop c e filename binFile file_size fuel current_addr total_read clk = some r →
      r.2.1.filter Event.is_erase = [] := by
  intro fuel
  induction fuel with
  | zero => intro _ _ _ r h; rw [write_loop_zero] at h; cases h
  | succ fuel ih =>
    intro current_addr total_read clk r h
    rcases write_loop_inv c e filename binFile file_size fuel current_addr total_read clk r h
      with ⟨_, rfl⟩ | ⟨_, _, rfl⟩ | ⟨_, _, _, rfl⟩ | ⟨_, _, _, _, rfl⟩ |
        ⟨_, _, _, _, r', hr', rfl⟩
    · rfl
    · rfl
    · rfl
    · rfl
    · have := ih _ _ _ r' hr'
      simp only [List.filter_cons, read_event, write_event, Event.is_erase, this]
      rfl

/-- For a file that opens and passes the size check, when every erase succeeds the
number of `nvm_erase_row` calls is `rows_to_erase`; this is `ceil(F / NVMCTRL_ROW_SIZE)`
as long as `F + NVMCTRL_ROW_SIZE` does not exceed `2^32`. -/
theorem rows_erased_eq_rows_to_erase (c : Chip) (e : Env) (files : Files)
    (filename : String) (clk : Nat) (binFile : ImageFile)
    (hopen : files filename = some binFile) (hsize : 1024 ≤ f_size binFile) :
    ∃ res evs clk', flash_firmware c e files filename clk = some (res, evs, clk') ∧
      ((∀ ev ∈ evs, ev.erase_failed = false) →
        (evs.filter Event.is_erase).length = rows_to_erase c (f_size binFile) ∧
        (0 < c.NVMCTRL_ROW_SIZE → f_size binFile + c.NVMCTRL_ROW_SIZE ≤ 4294967296 →
          (evs.filter Event.is_erase).length =
            ceil_div (f_size binFile) c.NVMCTRL_ROW_SIZE)) := by
  rcases flash_firmware_opened c e files filename clk binFile hopen hsize with
    ⟨her, hff⟩ | ⟨her, wr, hw, hff⟩
  · refine ⟨_, _, _, hff, ?_⟩
    intro hall
    exfalso
    obtain ⟨ev, hev, hf⟩ := erase_loop_fail c e filename _ _ _ her
    have := hall ev (by
      rw [mem_attempt_events]
      exact Or.inr (Or.inl (List.mem_cons_of_mem _ hev)))
    rw [this] at hf
    cases hf
  · refine ⟨_, _, _, hff, ?_⟩
    intro _
    have hcount : (List.filter Event.is_erase (attempt_events filename
        (Event.f_open filename FR_OK ::
          ((erase_loop c e filename (rows_to_erase c (f_size binFile)) 0 clk).2.1 ++ wr.2.1
            ++ if wr.1 = true then [Event.f_close filename] else [])) wr.1)).length =
        rows_to_erase c (f_size binFile) := by
      have h1 := erase_loop_count c e filename _ _ _ her
      have h2 := write_loop_no_erase c e filename binFile _ _ _ _ _ wr hw
      have h3 : List.filter Event.is_erase
          (if wr.1 = true then [Event.f_close filename] else []) = [] := by
        split <;> rfl
      simp only [attempt_events, List.filter_cons, List.filter_append, h2, h3,
        Event.is_erase, List.append_nil, List.filter_nil]
      simpa using h1
    exact ⟨hcount, fun hR hfit => by rw [hcount, rows_to_erase_eq c _ hR hfit]⟩

/-! ## Splitting a trace at an event -/

/-- When a list is split at an event with property `P`, and it is also a `front` without
`P`, an event `w` and a `back` without `P`, the two splits are the same. -/
theorem split_unique (P : Event → Bool) (w w' : Event) :
    ∀ (front back pre post : List Event), front ++ w :: back = pre ++ w' :: post →
      P w' = true → (∀ ev ∈ front, P ev = false) → (∀ ev ∈ back, P ev = false) →
      pre = front ∧ w' = w ∧ post = back := by
  intro front
  induction front with
  | nil =>
    intro back pre post h hw _ hback
    cases pre with
    | nil =>
      simp only [List.nil_append, List.cons.injEq] at h
      exact ⟨rfl, h.1.symm, h.2.symm⟩
    | cons p pre =>
      simp only [List.nil_append, List.cons_append, List.cons.injEq] at h
      have hmem : w' ∈ back := by rw [h.2]; simp
      rw [hback w' hmem] at hw
      cases hw
  | cons ev front ih =>
    intro back pre post h hw hfront hback
    cases pre with
    | nil =>
      simp only [List.nil_append, List.cons_append, List.cons.injEq] at h
      have := hfront ev (List.mem_cons_self _ _)
      rw [h.1, hw] at this
      cases this
    | cons p pre =>
      simp only [List.cons_append, List.cons.injEq] at h
      obtain ⟨h1, h2, h3⟩ := ih back pre post h.2 hw
        (fun x hx => hfront x (List.mem_cons_of_mem _ hx)) hback
      exact ⟨by rw [h.1, h1], h2, h3⟩

/-- When `body ++ tail` is split at an event with property `P` and no event of `tail` has
`P`, the event lies in `body` and `tail` ends what follows it. -/
theorem split_before_others (P : Event → Bool) (w : Event)
    (body tail pre post : List Event) (h : body ++ tail = pre ++ w :: post)
    (hw : P w = true) (htail : ∀ ev ∈ tail, P ev = false) :
    ∃ post', body = pre ++ w :: post' ∧ post = post' ++ tail := by
  rw [List.append_eq_append_iff] at h
  rcases h with ⟨a', h1, h2⟩ | ⟨c', h1, h2⟩
  · have hmem : w ∈ tail := by rw [h2]; simp
    rw [htail w hmem] at hw
    cases hw
  · cases c' with
    | nil =>
      simp only [List.nil_append] at h2
      have hmem : w ∈ tail := by rw [← h2]; simp
      rw [htail w hmem] at hw
      cases hw
    | cons x c' =>
      simp only [List.cons_append, List.cons.injEq] at h2
      exact ⟨c', by rw [h1, h2.1], h2.2⟩

/-- When `front ++ rest` is split at an event with property `P` and no event of `front`
has `P`, the event lies in `rest`. -/
theorem split_after_front (P : Event → Bool) (w : Event) :
    ∀ (front rest pre post : List Event), front ++ rest = pre ++ w :: post →
      P w = true → (∀ ev ∈ front, P ev = false) →
      ∃ pre', pre = front ++ pre' ∧ rest = pre' ++ w :: post := by
  intro front
  induction front with
  | nil => intro rest pre post h _ _; exact ⟨pre, rfl, h⟩
  | cons ev front ih =>
    intro rest pre post h hw hfront
    cases pre with
    | nil =>
      simp only [List.nil_append, List.cons_append, List.cons.injEq] at h
      have := hfront ev (List.mem_cons_self _ _)
      rw [h.1, hw] at this
      cases this
    | cons p pre =>
      simp only [List.cons_append, List.cons.injEq] at h
      obtain ⟨pre', h1, h2⟩ := ih rest pre post h.2 hw
        (fun x hx => hfront x (List.mem_cons_of_mem _ hx))
      exact ⟨pre', by rw [h.1, h1]; rfl, h2⟩

/-! ## The calls of the erase loop -/

/-- When the erase loop fails, it has erased the rows of the iterations before the
failing one, then made the failing call, closed the file, and nothing else. -/
theorem erase_loop_fail_shape (c : Chip) (e : Env) (filename : String) :
    ∀ (n i clk : Nat), (erase_loop c e filename n i clk).1 = false →
      ∃ k st, k < n ∧ st ≠ STATUS_OK ∧
        (erase_loop c e filename n i clk).2.1 =
          (List.range k).map (fun d => erase_ok_event c (i + d)) ++
            [Event.nvm_erase_row (erase_addr c (i + k)) st, Event.f_close filename] := by
  intro n
  induction n with
  | zero => intro i clk h; simp [erase_loop] at h
  | succ n ih =>
    intro i clk h
    rw [erase_loop_succ] at h ⊢
    by_cases hst : e.nvm_erase_row clk (erase_addr c i) = STATUS_OK
    · simp only [hst, ne_eq, not_true_eq_false, if_false] at h ⊢
      obtain ⟨k, st, hk, hne, hevs⟩ := ih (i + 1) (clk + 1) h
      refine ⟨k + 1, st, by omega, hne, ?_⟩
      rw [hevs, List.range_succ_eq_map]
      simp only [List.map_cons, List.map_map, Nat.add_zero, List.cons_append, erase_ok_event]
      congr 1
      have hidx : i + 1 + k = i + (k + 1) := by omega
      rw [hidx]
      congr 1
      apply List.map_congr_left
      intro d _
      simp only [Function.comp]
      have : i + 1 + d = i + (d + 1) := by omega
      rw [this]
    · simp only [ne_eq, hst, not_false_eq_true, if_true]
      exact ⟨0, _, by omega, hst, by simp⟩

/-- The erase events of the erase loop, whether it completes or fails: each is the call
of some iteration `k`, at `erase_addr (i + k)`. -/
theorem erase_loop_addrs (c : Chip) (e : Env) (filename : String) (n i clk : Nat) :
    ∀ a st, Event.nvm_erase_row a st ∈ (erase_loop c e filename n i clk).2.1 →
      ∃ k, k < n ∧ a = erase_addr c (i + k) := by
  intro a st hmem
  cases hres : (erase_loop c e filename n i clk).1 with
  | true =>
    rw [(erase_loop_ok c e filename n i clk hres).1, List.mem_map] at hmem
    obtain ⟨k, hk, heq⟩ := hmem
    simp only [Event.nvm_erase_row.injEq] at heq
    exact ⟨k, List.mem_range.mp hk, heq.1.symm⟩
  | false =>
    obtain ⟨k, st', hk, _, hevs⟩ := erase_loop_fail_shape c e filename n i clk hres
    rw [hevs, List.mem_append] at hmem
    rcases hmem with h | h
    · rw [List.mem_map] at h
      obtain ⟨d, hd, heq⟩ := h
      simp only [erase_ok_event, Event.nvm_erase_row.injEq] at heq
      exact ⟨d, by have := List.mem_range.mp hd; omega, heq.1.symm⟩
    · simp only [List.mem_cons, Event.nvm_erase_row.injEq, List.mem_singleton,
        List.not_mem_nil, or_false, reduceCtorEq] at h
      exact ⟨k, hk, h.1⟩

/-! ## The end of the erased rows and of the written pages -/

theorem ceil_le_of_le_mul (fs R t : Nat) (hR : 0 < R) (h : fs ≤ R * t) :
    (fs + R - 1) / R ≤ t := by
  apply Nat.le_of_lt_succ
  apply Nat.div_lt_of_lt_mul
  rw [Nat.mul_succ]
  omega

/-- The page that starts at `j * PAGE_SIZE` inside the file ends at or below the end of
the rows the file starts. -/
theorem page_end_le_rows (c : Chip) (fs j : Nat) (hc : c.wf)
    (hj : j * c.NVMCTRL_PAGE_SIZE < fs) :
    (j + 1) * c.NVMCTRL_PAGE_SIZE ≤
      c.NVMCTRL_ROW_SIZE * ((fs + c.NVMCTRL_ROW_SIZE - 1) / c.NVMCTRL_ROW_SIZE) := by
  obtain ⟨hP, ⟨m, hm⟩, hR, _⟩ := hc
  have hge := ceil_mul_ge fs c.NVMCTRL_ROW_SIZE hR
  generalize (fs + c.NVMCTRL_ROW_SIZE - 1) / c.NVMCTRL_ROW_SIZE = rows at hge ⊢
  have hjm : j < rows * m := by
    apply Nat.lt_of_mul_lt_mul_right (a := c.NVMCTRL_PAGE_SIZE)
    calc j * c.NVMCTRL_PAGE_SIZE < fs := hj
      _ ≤ c.NVMCTRL_ROW_SIZE * rows := hge
      _ = rows * m * c.NVMCTRL_PAGE_SIZE := by rw [hm]; ring
  calc (j + 1) * c.NVMCTRL_PAGE_SIZE ≤ rows * m * c.NVMCTRL_PAGE_SIZE :=
        Nat.mul_le_mul_right _ hjm
    _ = c.NVMCTRL_ROW_SIZE * rows := by rw [hm]; ring

/-- Without wrap-around, iteration `k` of the erase loop erases the row at
`APP_START_ADDRESS + k * ROW_SIZE`. -/
theorem erase_addr_eq (c : Chip) (k : Nat)
    (h : APP_START_ADDRESS + c.NVMCTRL_ROW_SIZE * k < 4294967296) :
    erase_addr c k = APP_START_ADDRESS + k * c.NVMCTRL_ROW_SIZE := by
  have hcomm : k * c.NVMCTRL_ROW_SIZE = c.NVMCTRL_ROW_SIZE * k := Nat.mul_comm _ _
  unfold erase_addr add32 mul32
  rw [hcomm]
  omega

/-- For a file that fits a region made of whole rows, every row the erase loop can erase
lies in the region. -/
theorem erased_row_in_region (c : Chip) (fs length k : Nat) (hc : c.wf)
    (halign : c.NVMCTRL_ROW_SIZE ∣ APP_START_ADDRESS)
    (hrows : c.NVMCTRL_ROW_SIZE ∣ length)
    (hregion : APP_START_ADDRESS + length ≤ 4294967296) (hfit : fs ≤ length)
    (hk : k < rows_to_erase c fs) :
    erase_addr c k = APP_START_ADDRESS + k * c.NVMCTRL_ROW_SIZE ∧
    APP_START_ADDRESS + k * c.NVMCTRL_ROW_SIZE + c.NVMCTRL_ROW_SIZE ≤
      APP_START_ADDRESS + length := by
  have hR := hc.2.2.1
  have hRle : c.NVMCTRL_ROW_SIZE ≤ APP_START_ADDRESS := Nat.le_of_dvd (by decide) halign
  rw [rows_to_erase_eq c fs hR (by omega)] at hk
  unfold ceil_div at hk
  obtain ⟨t, ht⟩ := hrows
  have hle := ceil_le_of_le_mul fs c.NVMCTRL_ROW_SIZE t hR (by rw [← ht]; exact hfit)
  have hkt : k + 1 ≤ t := by omega
  have hmul : c.NVMCTRL_ROW_SIZE * (k + 1) ≤ c.NVMCTRL_ROW_SIZE * t :=
    Nat.mul_le_mul_left _ hkt
  have hsucc : c.NVMCTRL_ROW_SIZE * (k + 1) = c.NVMCTRL_ROW_SIZE * k + c.NVMCTRL_ROW_SIZE :=
    Nat.mul_succ _ _
  have hcomm : k * c.NVMCTRL_ROW_SIZE = c.NVMCTRL_ROW_SIZE * k := Nat.mul_comm _ _
  refine ⟨erase_addr_eq c k (by omega), ?_⟩
  omega

/-- Every page write of the write loop passes a buffer of one page and the length of
one page. -/
theorem write_loop_page (c : Chip) (e : Env) (filename : String) (binFile : ImageFile)
    (file_size : Nat) :
    ∀ (fuel current_addr total_read clk : Nat) (r : Bool × List Event × Nat),
      write_loop c e filename binFile file_size fuel current_addr total_read clk = some r →
      ∀ a buffer len st, Event.nvm_write_buffer a buffer len st ∈ r.2.1 →
        len = c.NVMCTRL_PAGE_SIZE ∧ buffer.length = c.NVMCTRL_PAGE_SIZE := by
  have hbuf : ∀ total_read,
      (page_buffer c (read_reply c binFile file_size total_read).2).length =
        c.NVMCTRL_PAGE_SIZE := by
    intro total_read
    have h1 := f_read_length_le binFile total_read (bytes_to_read c file_size total_read)
    have h2 : bytes_to_read c file_size total_read ≤ c.NVMCTRL_PAGE_SIZE := by
      unfold bytes_to_read
      split <;> omega
    simp only [page_buffer, read_reply, List.length_append, List.length_replicate]
    omega
  intro fuel
  induction fuel with
  | zero => intro _ _ _ r h; rw [write_loop_zero] at h; cases h
  | succ fuel ih =>
    intro current_addr total_read clk r h a buffer len st hmem
    rcases write_loop_inv c e filename binFile file_size fuel current_addr total_read clk r h
      with ⟨_, rfl⟩ | ⟨_, _, rfl⟩ | ⟨_, _, _, rfl⟩ | ⟨_, _, _, _, rfl⟩ |
        ⟨_, _, _, _, r', hr', rfl⟩
    · simp at hmem
    · simp [read_event] at hmem
    · simp [read_event] at hmem
    · simp only [read_event, write_event, List.mem_cons, Event.nvm_write_buffer.injEq,
        List.mem_singleton, List.not_mem_nil, or_false, false_or, reduceCtorEq] at hmem
      exact ⟨hmem.2.2.1, by rw [hmem.2.1]; exact hbuf total_read⟩
    · simp only [List.mem_cons] at hmem
      rcases hmem with hm | hm | hm
      · simp [read_event] at hm
      · simp only [write_event, Event.nvm_write_buffer.injEq] at hm
        exact ⟨hm.2.2.1, by rw [hm.2.1]; exact hbuf total_read⟩
      · exact ih _ _ _ r' hr' a buffer len st hm

/-! ## Membership in the trace of an attempt -/

theorem erase_mem_attempt (filename : String) (body : List Event) (res : Bool)
    (a : Nat) (st : status_code) :
    Event.nvm_erase_row a st ∈ attempt_events filename (Event.f_open filename FR_OK :: body) res
      ↔ Event.nvm_erase_row a st ∈ body := by
  simp [attempt_events]

theorem write_mem_attempt (filename : String) (body : List Event) (res : Bool)
    (a : Nat) (buffer : List Nat) (len : Nat) (st : status_code) :
    Event.nvm_write_buffer a buffer len st ∈
        attempt_events filename (Event.f_open filename FR_OK :: body) res
      ↔ Event.nvm_write_buffer a buffer len st ∈ body := by
  simp [attempt_events]

theorem erase_not_mem_close (filename : String) (b : Bool) (a : Nat) (st : status_code) :
    Event.nvm_erase_row a st ∉ (if b = true then [Event.f_close filename] else []) := by
  split <;> simp

theorem write_not_mem_close (filename : String) (b : Bool) (a : Nat) (buffer : List Nat)
    (len : Nat) (st : status_code) :
    Event.nvm_write_buffer a buffer len st ∉
      (if b = true then [Event.f_close filename] else []) := by
  split <;> simp

theorem erase_not_mem_write_loop (c : Chip) (e : Env) (filename : String)
    (binFile : ImageFile) (file_size fuel current_addr total_read clk : Nat)
    (r : Bool × List Event × Nat)
    (h : write_loop c e filename binFile file_size fuel current_addr total_read clk = some r)
    (a : Nat) (st : status_code) : Event.nvm_erase_row a st ∉ r.2.1 := by
  intro hmem
  have hnil := write_loop_no_erase c e filename binFile file_size _ _ _ _ r h
  have : Event.nvm_erase_row a st ∈ r.2.1.filter Event.is_erase :=
    List.mem_filter.mpr ⟨hmem, rfl⟩
  rw [hnil] at this
  cases this

theorem write_not_mem_erase_loop (c : Chip) (e : Env) (filename : String) (n i clk : Nat)
    (a : Nat) (buffer : List Nat) (len : Nat) (st : status_code) :
    Event.nvm_write_buffer a buffer len st ∉ (erase_loop c e filename n i clk).2.1 := by
  intro hmem
  have := (erase_loop_kinds c e filename n i clk _ hmem).1
  simp [Event.is_write] at this

/-! ## Failures inside the two loops -/

/-- An iteration of the write loop that starts inside the file begins with a read. -/
theorem write_loop_first_read (c : Chip) (e : Env) (filename : String)
    (binFile : ImageFile) (file_size fuel current_addr total_read clk : Nat)
    (r : Bool × List Event × Nat)
    (h : write_loop c e filename binFile file_size fuel current_addr total_read clk = some r)
    (hlt : total_read < file_size) :
    ∃ ev ∈ r.2.1, ev.is_read = true := by
  cases fuel with
  | zero => rw [write_loop_zero] at h; cases h
  | succ fuel =>
    rcases write_loop_inv c e filename binFile file_size fuel current_addr total_read clk r h
      with ⟨hge, _⟩ | ⟨_, _, rfl⟩ | ⟨_, _, _, rfl⟩ | ⟨_, _, _, _, rfl⟩ |
        ⟨_, _, _, _, r', _, rfl⟩
    · exact absurd hlt hge
    all_goals exact ⟨read_event c filename binFile file_size total_read,
      List.mem_cons_self _ _, rfl⟩

/-- A failed read or a failed page write. -/
theorem failed_step_kinds (ev : Event)
    (h : (ev.read_failed || ev.write_failed) = true) :
    ev.is_erase = false ∧ (∀ f, ev ≠ Event.flash_firmware f) ∧
      (∀ f r, ev ≠ Event.flash_firmware_returns f r) ∧ (∀ p, ev ≠ Event.f_close p) ∧
      (∀ p res, ev ≠ Event.f_open p res) := by
  cases ev <;> simp [Event.read_failed, Event.write_failed] at h <;> simp [Event.is_erase]

/-- In the write loop, a failed read or a failed page write is followed by the closing of
the file and nothing else, and the function returns `false`. -/
theorem write_loop_abort (c : Chip) (e : Env) (filename : String) (binFile : ImageFile)
    (file_size : Nat) :
    ∀ (fuel current_addr total_read clk : Nat) (r : Bool × List Event × Nat),
      write_loop c e filename binFile file_size fuel current_addr total_read clk = some r →
      ∀ pre w post, r.2.1 = pre ++ w :: post →
        (w.read_failed || w.write_failed) = true →
        r.1 = false ∧ post = [Event.f_close filename] := by
  intro fuel
  induction fuel with
  | zero => intro _ _ _ r h; rw [write_loop_zero] at h; cases h
  | succ fuel ih =>
    intro current_addr total_read clk r h pre w post hsplit hw
    have hread_ok : (read_reply c binFile file_size total_read).1 = FR_OK →
        ((read_event c filename binFile file_size total_read).read_failed ||
          (read_event c filename binFile file_size total_read).write_failed) = false := by
      intro hr
      simp [read_event, Event.read_failed, Event.write_failed, hr]
    have hclose : ((Event.f_close filename).read_failed ||
        (Event.f_close filename).write_failed) = false := rfl
    rcases write_loop_inv c e filename binFile file_size fuel current_addr total_read clk r h
      with ⟨_, rfl⟩ | ⟨_, hr, rfl⟩ | ⟨_, hr, _, rfl⟩ | ⟨_, hr, _, hst, rfl⟩ |
        ⟨_, hr, _, hst, r', hr', rfl⟩
    · simp at hsplit
    · have hsp : ([] : List Event) ++ read_event c filename binFile file_size total_read ::
          [Event.f_close filename] = pre ++ w :: post := hsplit
      obtain ⟨_, _, h3⟩ := split_unique (fun ev => ev.read_failed || ev.write_failed) _ _ _ _ _ _
        hsp hw (by simp) (by
          intro ev hev
          rw [List.mem_singleton] at hev
          rw [hev]; rfl)
      exact ⟨rfl, h3⟩
    · exfalso
      have hmem : w ∈ [read_event c filename binFile file_size total_read] := by
        show w ∈ (true, [read_event c filename binFile file_size total_read], clk).2.1
        rw [hsplit]; simp
      rw [List.mem_singleton] at hmem
      rw [hmem, hread_ok hr] at hw
      cases hw
    · have hsp : [read_event c filename binFile file_size total_read] ++
          write_event c e binFile file_size current_addr total_read clk ::
          [Event.f_close filename] = pre ++ w :: post := hsplit
      obtain ⟨_, _, h3⟩ := split_unique (fun ev => ev.read_failed || ev.write_failed) _ _ _ _ _ _
        hsp hw (by
          intro ev hev
          rw [List.mem_singleton] at hev
          rw [hev]; exact hread_ok hr) (by
          intro ev hev
          rw [List.mem_singleton] at hev
          rw [hev]; rfl)
      exact ⟨rfl, h3⟩
    · have hsp : [read_event c filename binFile file_size total_read,
          write_event c e binFile file_size current_addr total_read clk] ++ r'.2.1
          = pre ++ w :: post := hsplit
      obtain ⟨pre', _, hrest⟩ := split_after_front
        (fun ev => ev.read_failed || ev.write_failed) w _ _ _ _ hsp hw (by
          intro ev hev
          simp only [List.mem_cons, List.mem_singleton, List.not_mem_nil, or_false] at hev
          rcases hev with h | h
          · rw [h]; exact hread_ok hr
          · rw [h]
            simp [write_event, Event.read_failed, Event.write_failed, hst])
      exact ih _ _ _ r' hr' pre' w post hrest hw

/-- The four ways a call of `flash_firmware` can go. -/
theorem flash_firmware_cases (c : Chip) (e : Env) (files : Files) (filename : String)
    (clk : Nat) :
    (files filename = none ∧
      flash_firmware c e files filename clk =
        some (false, attempt_events filename [Event.f_open filename FR_NO_FILE] false, clk)) ∨
    (∃ binFile, files filename = some binFile ∧ f_size binFile < 1024 ∧
      flash_firmware c e files filename clk =
        some (false, attempt_events filename
          [Event.f_open filename FR_OK, Event.f_close filename] false, clk)) ∨
    (∃ binFile, files filename = some binFile ∧ 1024 ≤ f_size binFile ∧
      (erase_loop c e filename (rows_to_erase c (f_size binFile)) 0 clk).1 = false ∧
      flash_firmware c e files filename clk =
        some (false,
          attempt_events filename (Event.f_open filename FR_OK ::
            (erase_loop c e filename (rows_to_erase c (f_size binFile)) 0 clk).2.1) false,
          (erase_loop c e filename (rows_to_erase c (f_size binFile)) 0 clk).2.2)) ∨
    (∃ binFile wr, files filename = some binFile ∧ 1024 ≤ f_size binFile ∧
      (erase_loop c e filename (rows_to_erase c (f_size binFile)) 0 clk).1 = true ∧
      write_loop c e filename binFile (f_size binFile) (f_size binFile + 1)
          APP_START_ADDRESS 0
          (erase_loop c e filename (rows_to_erase c (f_size binFile)) 0 clk).2.2 = some wr ∧
      flash_firmware c e files filename clk =
        some (wr.1,
          attempt_events filename (Event.f_open filename FR_OK ::
            ((erase_loop c e filename (rows_to_erase c (f_size binFile)) 0 clk).2.1
              ++ wr.2.1 ++ if wr.1 = true then [Event.f_close filename] else [])) wr.1,
          wr.2.2)) := by
  cases hf : files filename with
  | none =>
    left
    refine ⟨rfl, ?_⟩
    unfold flash_firmware flash_firmware_body
    rw [hf]
    rfl
  | some binFile =>
    right
    by_cases hsz : f_size binFile < 1024
    · left
      refine ⟨binFile, rfl, hsz, ?_⟩
      unfold flash_firmware flash_firmware_body
      rw [hf]
      simp only [hsz, if_true]
      rfl
    · right
      rcases flash_firmware_opened c e files filename clk binFile hf (by omega) with
        ⟨her, hff⟩ | ⟨her, wr, hw, hff⟩
      · exact Or.inl ⟨binFile, rfl, by omega, her, hff⟩
      · exact Or.inr ⟨binFile, wr, rfl, by omega, her, hw, hff⟩

/-! ## Runs in which every read and every NVM call succeeds -/

theorem erase_loop_nvm_ok (c : Chip) (e : Env) (filename : String) (he : e.nvm_ok) :
    ∀ (n i clk : Nat), (erase_loop c e filename n i clk).1 = true := by
  intro n
  induction n with
  | zero => intro i clk; rfl
  | succ n ih =>
    intro i clk
    rw [erase_loop_succ, if_neg (not_not.mpr (he.1 clk (erase_addr c i)))]
    exact ih (i + 1) (clk + 1)

theorem read_reply_of_reads_ok (c : Chip) (binFile : ImageFile) (total_read : Nat)
    (hok : binFile.reads_ok) (hlt : total_read < f_size binFile) :
    (read_reply c binFile (f_size binFile) total_read).1 = FR_OK ∧
    (read_reply c binFile (f_size binFile) total_read).2.length =
      bytes_to_read c (f_size binFile) total_read := by
  have hle : total_read + bytes_to_read c (f_size binFile) total_read ≤ f_size binFile := by
    rcases bytes_to_read_cases c (f_size binFile) total_read hlt (f_size_lt binFile) with
      ⟨h1, h2⟩ | ⟨h1, h2⟩ <;> omega
  have h := hok total_read (bytes_to_read c (f_size binFile) total_read) hle
  refine ⟨h.1, ?_⟩
  show ((binFile.read total_read (bytes_to_read c (f_size binFile) total_read)).2.take
    (bytes_to_read c (f_size binFile) total_read)).length = _
  rw [List.length_take, h.2, Nat.min_self]

theorem write_loop_clean (c : Chip) (e : Env) (filename : String) (binFile : ImageFile)
    (he : e.nvm_ok) (hok : binFile.reads_ok) :
    ∀ (fuel current_addr total_read clk : Nat) (r : Bool × List Event × Nat),
      write_loop c e filename binFile (f_size binFile) fuel current_addr total_read clk
        = some r →
      total_read ≤ f_size binFile →
      ∀ ev ∈ r.2.1, ev.read_failed = false ∧ ev.read_short = false ∧
        ev.write_failed = false := by
  intro fuel
  induction fuel with
  | zero =>
    intro ca tr clk r h
    rw [write_loop_zero] at h
    cases h
  | succ fuel ih =>
    intro ca tr clk r h htr ev hev
    have hrd : tr < f_size binFile →
        (read_event c filename binFile (f_size binFile) tr).read_failed = false ∧
        (read_event c filename binFile (f_size binFile) tr).read_short = false ∧
        (read_event c filename binFile (f_size binFile) tr).write_failed = false := by
      intro hlt
      have hr := read_reply_of_reads_ok c binFile tr hok hlt
      refine ⟨?_, ?_, rfl⟩
      · rw [read_event_failed]; simp [hr.1]
      · rw [read_event_short]; simp [hr.2]
    have hwr : (write_event c e binFile (f_size binFile) ca tr clk).read_failed = false ∧
        (write_event c e binFile (f_size binFile) ca tr clk).read_short = false ∧
        (write_event c e binFile (f_size binFile) ca tr clk).write_failed = false := by
      refine ⟨rfl, rfl, ?_⟩
      rw [write_event_failed]
      simp [write_reply, he.2]
    rcases write_loop_inv c e filename binFile (f_size binFile) fuel ca tr clk r h with
      ⟨_, hr⟩ | ⟨hlt, hbad, _⟩ | ⟨hlt, _, _, hr⟩ | ⟨_, _, _, hbad, _⟩ |
      ⟨hlt, _, _, _, r', hr', hr⟩
    · rw [hr] at hev
      cases hev
    · exact absurd (read_reply_of_reads_ok c binFile tr hok hlt).1 hbad
    · rw [hr] at hev
      rw [List.mem_singleton] at hev
      rw [hev]
      exact hrd hlt
    · exact absurd (he.2 _ _ _) hbad
    · rw [hr] at hev
      have hlen := (read_reply_of_reads_ok c binFile tr hok hlt).2
      have hle : tr + bytes_to_read c (f_size binFile) tr ≤ f_size binFile := by
        rcases bytes_to_read_cases c (f_size binFile) tr hlt (f_size_lt binFile) with
          ⟨h1, h2⟩ | ⟨h1, h2⟩ <;> omega
      have hs := f_size_lt binFile
      have htr' : add32 tr (read_reply c binFile (f_size binFile) tr).2.length
          ≤ f_size binFile := by
        rw [hlen]
        unfold add32
        rw [Nat.mod_eq_of_lt (by omega)]
        exact hle
      rcases List.mem_cons.mp hev with h1 | h1
      · rw [h1]; exact hrd hlt
      · rcases List.mem_cons.mp h1 with h2 | h2
        · rw [h2]; exact hwr
        · exact ih _ _ _ r' hr' htr' ev h2

/-! ## The erase addresses and page writes of a trace -/

theorem erase_addrs_append (a b : List Event) :
    erase_addrs (a ++ b) = erase_addrs a ++ erase_addrs b := by
  unfold erase_addrs
  exact List.filterMap_append _ _ _

theorem writes_append (a b : List Event) : writes (a ++ b) = writes a ++ writes b := by
  unfold writes
  exact List.filterMap_append _ _ _

theorem erase_addrs_attempt_events (filename : String) (st : FRESULT) (body : List Event)
    (res : Bool) :
    erase_addrs (attempt_events filename (Event.f_open filename st :: body) res)
      = erase_addrs body := by
  unfold attempt_events
  rw [List.cons_append]
  show erase_addrs (body ++ [Event.flash_firmware_returns filename res]) = _
  rw [erase_addrs_append]
  show erase_addrs body ++ [] = _
  rw [List.append_nil]

theorem writes_attempt_events (filename : String) (st : FRESULT) (body : List Event)
    (res : Bool) :
    writes (attempt_events filename (Event.f_open filename st :: body) res) = writes body := by
  unfold attempt_events
  rw [List.cons_append]
  show writes (body ++ [Event.flash_firmware_returns filename res]) = _
  rw [writes_append]
  show writes body ++ [] = _
  rw [List.append_nil]

theorem erase_addrs_of_no_erase :
    ∀ (evs : List Event), evs.filter Event.is_erase = [] → erase_addrs evs = [] := by
  intro evs
  induction evs with
  | nil => intro _; rfl
  | cons ev rest ih =>
    intro h
    cases ev <;> simp [List.filter, Event.is_erase] at h <;>
      simpa [erase_addrs, Event.erase_addr_of] using ih (by simpa using h)

theorem writes_of_no_write :
    ∀ (evs : List Event), evs.filter Event.is_write = [] → writes evs = [] := by
  intro evs
  induction evs with
  | nil => intro _; rfl
  | cons ev rest ih =>
    intro h
    cases ev <;> simp [List.filter, Event.is_write] at h <;>
      simpa [writes, Event.write_of] using ih (by simpa using h)

theorem writes_length :
    ∀ (evs : List Event), (writes evs).length = (evs.filter Event.is_write).length := by
  intro evs
  induction evs with
  | nil => rfl
  | cons ev rest ih =>
    cases ev <;> simpa [writes, Event.write_of, Event.is_write, List.filter] using ih

theorem mem_writes (evs : List Event) (a : Nat) (buffer : List Nat) (len : Nat) :
    (a, buffer, len) ∈ writes evs ↔ ∃ st, Event.nvm_write_buffer a buffer len st ∈ evs := by
  unfold writes
  rw [List.mem_filterMap]
  constructor
  · rintro ⟨ev, hev, h⟩
    cases ev <;> simp [Event.write_of] at h
    rcases h with ⟨h1, h2, h3⟩
    subst h1; subst h2; subst h3
    exact ⟨_, hev⟩
  · rintro ⟨st, h⟩
    exact ⟨_, h, rfl⟩

theorem mem_erase_addrs (evs : List Event) (a : Nat) :
    a ∈ erase_addrs evs ↔ ∃ st, Event.nvm_erase_row a st ∈ evs := by
  unfold erase_addrs
  rw [List.mem_filterMap]
  constructor
  · rintro ⟨ev, hev, h⟩
    cases ev <;> simp [Event.erase_addr_of] at h
    subst h
    exact ⟨_, hev⟩
  · rintro ⟨st, h⟩
    exact ⟨_, h, rfl⟩

theorem erase_addrs_ok_events (c : Chip) (n : Nat) :
    erase_addrs ((List.range n).map (erase_ok_event c)) = (List.range n).map (erase_addr c) := by
  unfold erase_addrs
  rw [List.filterMap_map]
  have : (Event.erase_addr_of ∘ erase_ok_event c) = (some ∘ erase_addr c) := rfl
  rw [this, List.filterMap_eq_map]

theorem erase_loop_ok_events (c : Chip) (e : Env) (filename : String) (n clk : Nat)
    (h : (erase_loop c e filename n 0 clk).1 = true) :
    (erase_loop c e filename n 0 clk).2.1 = (List.range n).map (erase_ok_event c) ∧
    (erase_loop c e filename n 0 clk).2.2 = clk + n := by
  have h1 := erase_loop_ok c e filename n 0 clk h
  refine ⟨?_, h1.2⟩
  rw [h1.1]
  apply List.map_congr_left
  intro k _
  show Event.nvm_erase_row (erase_addr c (0 + k)) STATUS_OK = _
  rw [Nat.zero_add]
  rfl

theorem erase_addrs_close (filename : String) (b : Bool) :
    erase_addrs (if b = true then [Event.f_close filename] else []) = [] := by
  cases b <;> rfl

theorem writes_close (filename : String) (b : Bool) :
    writes (if b = true then [Event.f_close filename] else []) = [] := by
  cases b <;> rfl

/-- The erase addresses and page writes of one call of `flash_firmware` are those of its
erase loop and of its write loop. -/
theorem flash_firmware_nvm (c : Chip) (e : Env) (files : Files) (filename : String)
    (clk : Nat) :
    ∃ res evs clk', flash_firmware c e files filename clk = some (res, evs, clk') ∧
      (erase_addrs evs = [] ∨ ∃ binFile, files filename = some binFile ∧
        1024 ≤ f_size binFile ∧
        erase_addrs evs =
          erase_addrs (erase_loop c e filename (rows_to_erase c (f_size binFile)) 0 clk).2.1 ∧
        ∀ ev ∈ (erase_loop c e filename (rows_to_erase c (f_size binFile)) 0 clk).2.1,
          ev ∈ evs) ∧
      (writes evs = [] ∨ ∃ binFile clk0 wr, files filename = some binFile ∧
        1024 ≤ f_size binFile ∧
        write_loop c e filename binFile (f_size binFile) (f_size binFile + 1)
          APP_START_ADDRESS 0 clk0 = some wr ∧
        res = wr.1 ∧ writes evs = writes wr.2.1) := by
  rcases flash_firmware_cases c e files filename clk with
    ⟨_, hff⟩ | ⟨bf, _, _, hff⟩ | ⟨bf, hopen, hsize, _, hff⟩ | ⟨bf, wr, hopen, hsize, _, hwr, hff⟩
  · exact ⟨_, _, _, hff, Or.inl rfl, Or.inl rfl⟩
  · exact ⟨_, _, _, hff, Or.inl rfl, Or.inl rfl⟩
  · refine ⟨_, _, _, hff, Or.inr ⟨bf, hopen, hsize, erase_addrs_attempt_events _ _ _ _, ?_⟩,
      Or.inl ?_⟩
    · intro ev hev
      rw [mem_attempt_events]
      exact Or.inr (Or.inl (List.mem_cons_of_mem _ hev))
    · rw [writes_attempt_events]
      exact writes_of_no_write _ (filter_write_erase_loop c e filename _ _ _)
  · refine ⟨_, _, _, hff, Or.inr ⟨bf, hopen, hsize, ?_, ?_⟩,
      Or.inr ⟨bf, _, wr, hopen, hsize, hwr, rfl, ?_⟩⟩
    · rw [erase_addrs_attempt_events, erase_addrs_append, erase_addrs_append,
        erase_addrs_close,
        erase_addrs_of_no_erase _ (write_loop_no_erase c e filename bf _ _ _ _ _ _ hwr),
        List.append_nil, List.append_nil]
    · intro ev hev
      rw [mem_attempt_events]
      refine Or.inr (Or.inl (List.mem_cons_of_mem _ ?_))
      exact List.mem_append_left _ (List.mem_append_left _ hev)
    · rw [writes_attempt_events, writes_append, writes_append, writes_close,
        writes_of_no_write _ (filter_write_erase_loop c e filename _ _ _),
        List.append_nil, List.nil_append]

theorem erase_addr_zero (c : Chip) : erase_addr c 0 = APP_START_ADDRESS := by
  unfold erase_addr mul32 add32
  rw [Nat.zero_mul]
  decide

theorem erase_loop_head (c : Chip) (e : Env) (filename : String) (n i clk a : Nat)
    (h : (erase_addrs (erase_loop c e filename n i clk).2.1).head? = some a) :
    a = erase_addr c i := by
  cases n with
  | zero => cases h
  | succ n =>
    rw [erase_loop_succ] at h
    split at h
    · exact (Option.some.inj h).symm
    · exact (Option.some.inj h).symm

theorem write_loop_head (c : Chip) (e : Env) (filename : String) (binFile : ImageFile)
    (file_size fuel current_addr total_read clk : Nat) (r : Bool × List Event × Nat)
    (h : write_loop c e filename binFile file_size fuel current_addr total_read clk = some r)
    (w : Nat × List Nat × Nat) (hw : (writes r.2.1).head? = some w) : w.1 = current_addr := by
  cases fuel with
  | zero =>
    rw [write_loop_zero] at h
    cases h
  | succ fuel =>
    rcases write_loop_inv c e filename binFile file_size fuel current_addr total_read clk r h
      with ⟨_, hr⟩ | ⟨_, _, hr⟩ | ⟨_, _, _, hr⟩ | ⟨_, _, _, _, hr⟩ | ⟨_, _, _, _, r', _, hr⟩
    · rw [hr] at hw; cases hw
    · rw [hr] at hw; cases hw
    · rw [hr] at hw; cases hw
    · rw [hr] at hw
      rw [← Option.some.inj hw]
    · rw [hr] at hw
      rw [← Option.some.inj hw]

theorem tbloff_mask_keeps_base (p : Nat) (hp : p ≤ 13) :
    APP_START_ADDRESS &&& (4294967296 - 2 ^ p) = APP_START_ADDRESS := by
  interval_cases p <;> decide

theorem erase_failed_of_not_erase (ev : Event) (h : ev.is_erase = false) :
    ev.erase_failed = false := by
  cases ev <;> first | rfl | cases h

theorem write_loop_not_erase (c : Chip) (e : Env) (filename : String) (binFile : ImageFile)
    (file_size fuel current_addr total_read clk : Nat) (r : Bool × List Event × Nat)
    (h : write_loop c e filename binFile file_size fuel current_addr total_read clk = some r) :
    ∀ ev ∈ r.2.1, ev.is_erase = false := by
  intro ev hev
  have h1 := write_loop_no_erase c e filename binFile file_size fuel current_addr total_read
    clk r h
  rw [List.filter_eq_nil_iff] at h1
  exact Bool.eq_false_iff.mpr (h1 ev hev)

/-- The erase calls of a call of `flash_firmware` on a file that passed the size check
are those of its erase loop. -/
theorem flash_firmware_erases (c : Chip) (e : Env) (files : Files) (filename : String)
    (clk : Nat) (binFile : ImageFile) (hopen : files filename = some binFile)
    (hsize : 1024 ≤ f_size binFile) :
    ∃ res evs clk', flash_firmware c e files filename clk = some (res, evs, clk') ∧
      erase_addrs evs =
        erase_addrs (erase_loop c e filename (rows_to_erase c (f_size binFile)) 0 clk).2.1 ∧
      (∀ ev ∈ (erase_loop c e filename (rows_to_erase c (f_size binFile)) 0 clk).2.1,
        ev ∈ evs) ∧
      (∀ ev ∈ evs, ev.erase_failed = true →
        ev ∈ (erase_loop c e filename (rows_to_erase c (f_size binFile)) 0 clk).2.1) := by
  rcases flash_firmware_opened c e files filename clk binFile hopen hsize with
    ⟨_, hff⟩ | ⟨_, wr, hwr, hff⟩
  · refine ⟨_, _, _, hff, erase_addrs_attempt_events _ _ _ _, ?_, ?_⟩
    · intro ev hev
      rw [mem_attempt_events]
      exact Or.inr (Or.inl (List.mem_cons_of_mem _ hev))
    · intro ev hev hf
      rw [mem_attempt_events] at hev
      rcases hev with h | h | h
      · rw [h] at hf; cases hf
      · rcases List.mem_cons.mp h with h1 | h1
        · rw [h1] at hf; cases hf
        · exact h1
      · rw [h] at hf; cases hf
  · refine ⟨_, _, _, hff, ?_, ?_, ?_⟩
    · rw [erase_addrs_attempt_events, erase_addrs_append, erase_addrs_append,
        erase_addrs_close,
        erase_addrs_of_no_erase _ (write_loop_no_erase c e filename binFile _ _ _ _ _ _ hwr),
        List.append_nil, List.append_nil]
    · intro ev hev
      rw [mem_attempt_events]
      refine Or.inr (Or.inl (List.mem_cons_of_mem _ ?_))
      exact List.mem_append_left _ (List.mem_append_left _ hev)
    · intro ev hev hf
      rw [mem_attempt_events] at hev
      rcases hev with h | h | h
      · rw [h] at hf; cases hf
      · rcases List.mem_cons.mp h with h1 | h1
        · rw [h1] at hf; cases hf
        · rcases List.mem_append.mp h1 with h2 | h2
          · rcases List.mem_append.mp h2 with h3 | h3
            · exact h3
            · have := erase_failed_of_not_erase ev
                (write_loop_not_erase c e filename binFile _ _ _ _ _ wr hwr ev h3)
              rw [this] at hf; cases hf
          · cases hb : wr.1
            · rw [hb] at h2; cases h2
            · rw [hb] at h2
              rw [List.mem_singleton.mp h2] at hf; cases hf
      · rw [h] at hf; cases hf

/-- When the erase loop completes, the addresses erased by the call are those of the loop
counter `0, 1, ..., rows_to_erase - 1`, and no erase of the call failed. -/
theorem flash_firmware_erase_ok (c : Chip) (e : Env) (files : Files) (filename : String)
    (clk : Nat) (binFile : ImageFile) (hopen : files filename = some binFile)
    (hsize : 1024 ≤ f_size binFile)
    (hE : (erase_loop c e filename (rows_to_erase c (f_size binFile)) 0 clk).1 = true) :
    ∃ res evs clk', flash_firmware c e files filename clk = some (res, evs, clk') ∧
      erase_addrs evs = (List.range (rows_to_erase c (f_size binFile))).map (erase_addr c) ∧
      ∀ ev ∈ evs, ev.erase_failed = false := by
  obtain ⟨res, evs, clk', hff, haddrs, _, hfail⟩ :=
    flash_firmware_erases c e files filename clk binFile hopen hsize
  have hev := (erase_loop_ok_events c e filename _ clk hE).1
  refine ⟨res, evs, clk', hff, ?_, ?_⟩
  · rw [haddrs, hev, erase_addrs_ok_events]
  · intro ev hmem
    cases hf : ev.erase_failed
    · rfl
    · have h1 := hfail ev hmem hf
      rw [hev, List.mem_map] at h1
      obtain ⟨k, _, hk⟩ := h1
      rw [← hk] at hf
      cases hf

theorem range_map_getElem (f : Nat → Nat) (n i : Nat) (h : i < n) :
    ((List.range n).map f)[i]? = some (f i) := by
  rw [List.getElem?_map, List.getElem?_range h]
  rfl

theorem erase_addr_in_file (c : Chip) (fs length k : Nat) (hR : 0 < c.NVMCTRL_ROW_SIZE)
    (hregion : APP_START_ADDRESS + length ≤ 4294967296) (hfit : fs ≤ length)
    (hk : k < ceil_div fs c.NVMCTRL_ROW_SIZE) :
    erase_addr c k = APP_START_ADDRESS + k * c.NVMCTRL_ROW_SIZE := by
  apply erase_addr_eq
  unfold ceil_div at hk
  have hpos : 0 < fs := by
    rcases Nat.eq_zero_or_pos fs with h | h
    · rw [h, Nat.zero_add] at hk
      rw [Nat.div_eq_of_lt (by omega)] at hk
      cases hk
    · exact h
  have h1 := ceil_pred_mul_lt fs c.NVMCTRL_ROW_SIZE hR hpos
  have h2 : c.NVMCTRL_ROW_SIZE * k ≤
      c.NVMCTRL_ROW_SIZE * ((fs + c.NVMCTRL_ROW_SIZE - 1) / c.NVMCTRL_ROW_SIZE - 1) :=
    Nat.mul_le_mul_left _ (by omega)
  omega

/-! ## The addresses of the page writes -/

theorem page_addr_succ (ca P k : Nat) :
    (add32 ca P + k * P) % 4294967296 = (ca + (k + 1) * P) % 4294967296 := by
  unfold add32
  rw [Nat.mod_add_mod, Nat.succ_mul]
  congr 1
  omega

/-- The write loop passes `current_addr`, `current_addr + PAGE_SIZE`, ... to
`nvm_write_buffer`, each sum taken in `uint32_t`. -/
theorem write_loop_write_addrs (c : Chip) (e : Env) (filename : String) (binFile : ImageFile)
    (file_size : Nat) :
    ∀ (fuel current_addr total_read clk : Nat) (r : Bool × List Event × Nat),
      write_loop c e filename binFile file_size fuel current_addr total_read clk = some r →
      current_addr < 4294967296 →
      (writes r.2.1).map (fun w => w.1) =
        (List.range (writes r.2.1).length).map
          (fun k => (current_addr + k * c.NVMCTRL_PAGE_SIZE) % 4294967296) := by
  intro fuel
  induction fuel with
  | zero =>
    intro ca tr clk r h
    rw [write_loop_zero] at h
    cases h
  | succ fuel ih =>
    intro ca tr clk r h hca
    rcases write_loop_inv c e filename binFile file_size fuel ca tr clk r h with
      ⟨_, hr⟩ | ⟨_, _, hr⟩ | ⟨_, _, _, hr⟩ | ⟨_, _, _, _, hr⟩ | ⟨_, _, _, _, r', hr', hr⟩
    · rw [hr]; rfl
    · rw [hr]; rfl
    · rw [hr]; rfl
    · rw [hr]
      show [ca] = [(ca + 0 * c.NVMCTRL_PAGE_SIZE) % 4294967296]
      rw [Nat.zero_mul, Nat.add_zero, Nat.mod_eq_of_lt hca]
    · have h1 := ih (add32 ca c.NVMCTRL_PAGE_SIZE) _ _ r' hr' (Nat.mod_lt _ (by decide))
      rw [hr]
      show ca :: (writes r'.2.1).map (fun w => w.1) =
        (List.range ((writes r'.2.1).length + 1)).map
          (fun k => (ca + k * c.NVMCTRL_PAGE_SIZE) % 4294967296)
      rw [h1, List.range_succ_eq_map, List.map_cons, List.map_map, Nat.zero_mul,
        Nat.add_zero, Nat.mod_eq_of_lt hca]
      congr 1
      apply List.map_congr_left
      intro k _
      exact page_addr_succ ca c.NVMCTRL_PAGE_SIZE k

theorem page_addr_no_wrap (P n k : Nat) (hk : k < n)
    (h : APP_START_ADDRESS + n * P ≤ 4294967296) :
    (APP_START_ADDRESS + k * P) % 4294967296 = APP_START_ADDRESS + k * P := by
  apply Nat.mod_eq_of_lt
  have h1 : (k + 1) * P ≤ n * P := Nat.mul_le_mul_right P hk
  rw [Nat.succ_mul] at h1
  rcases Nat.eq_zero_or_pos P with hP | hP
  · rw [hP, Nat.mul_zero]
    decide
  · omega

/-- In a run in which every read and every NVM call succeeds, `flash_firmware` returns
`true` after erasing `rows_to_erase` rows and writing one page per started page of the
file. -/
theorem flash_clean_run (c : Chip) (e : Env) (files : Files) (filename : String)
    (clk : Nat) (binFile : ImageFile) (hP : 0 < c.NVMCTRL_PAGE_SIZE)
    (he : e.nvm_ok) (hok : binFile.reads_ok)
    (hopen : files filename = some binFile) (hsize : 1024 ≤ f_size binFile) :
    ∃ wr, write_loop c e filename binFile (f_size binFile) (f_size binFile + 1)
        APP_START_ADDRESS 0 (clk + rows_to_erase c (f_size binFile)) = some wr ∧
      wr.1 = true ∧
      (wr.2.1.filter Event.is_write).length =
        ceil_div (f_size binFile) c.NVMCTRL_PAGE_SIZE ∧
      flash_firmware c e files filename clk =
        some (true,
          attempt_events filename (Event.f_open filename FR_OK ::
            ((List.range (rows_to_erase c (f_size binFile))).map (erase_ok_event c)
              ++ wr.2.1 ++ [Event.f_close filename])) true,
          wr.2.2) := by
  have hE := erase_loop_nvm_ok c e filename he (rows_to_erase c (f_size binFile)) 0 clk
  have hev := erase_loop_ok_events c e filename _ clk hE
  rcases flash_firmware_opened c e files filename clk binFile hopen hsize with
    ⟨hbad, _⟩ | ⟨_, wr, hwr, hff⟩
  · rw [hE] at hbad
    cases hbad
  · rw [hev.2] at hwr
    have hclean := write_loop_clean c e filename binFile he hok _ _ _ _ wr hwr (Nat.zero_le _)
    have hcount := write_loop_count c e filename binFile (f_size binFile) hP
      (f_size_lt binFile) _ _ _ _ wr hwr (Nat.zero_le _) hclean
    rw [Nat.sub_zero] at hcount
    refine ⟨wr, hwr, hcount.1, hcount.2, ?_⟩
    rw [hff, hev.1, hcount.1]
    rfl

/-! ## The pages written for a file that delivers its content -/

theorem read_reply_of_reads_from (c : Chip) (binFile : ImageFile) (content : List Nat)
    (hfile : reads_from binFile content) (file_size total_read : Nat)
    (hok : (read_reply c binFile file_size total_read).1 = FR_OK) :
    (read_reply c binFile file_size total_read).2 =
      (content.drop total_read).take (bytes_to_read c file_size total_read) :=
  f_read_of_reads_from binFile content hfile total_read _ hok

theorem file_page_full (c : Chip) (content : List Nat) (k : Nat) :
    page_buffer c ((content.drop (k * c.NVMCTRL_PAGE_SIZE)).take c.NVMCTRL_PAGE_SIZE)
      = file_page c content k := rfl

theorem file_page_last (c : Chip) (content : List Nat) (k : Nat)
    (hshort : content.length - k * c.NVMCTRL_PAGE_SIZE < c.NVMCTRL_PAGE_SIZE) :
    page_buffer c ((content.drop (k * c.NVMCTRL_PAGE_SIZE)).take
        (content.length - k * c.NVMCTRL_PAGE_SIZE))
      = file_page c content k := by
  unfold file_page
  rw [List.take_of_length_le (by rw [List.length_drop]),
    List.take_of_length_le (by rw [List.length_drop]; omega)]

theorem range_succ_map_shift {α : Type} (f : Nat → α) (n k : Nat) :
    (List.range (n + 1)).map (fun d => f (k + d)) =
      f k :: (List.range n).map (fun d => f (k + 1 + d)) := by
  rw [List.range_succ_eq_map, List.map_cons, List.map_map]
  congr 1
  apply List.map_congr_left
  intro d _
  show f (k + (d + 1)) = f (k + 1 + d)
  congr 1
  omega

/-- When the write loop completes for a file that holds `content`, its page writes are
the pages of the file, in order, at consecutive page addresses. -/
theorem write_loop_writes (c : Chip) (e : Env) (filename : String) (binFile : ImageFile)
    (content : List Nat) (hP : 0 < c.NVMCTRL_PAGE_SIZE) (hfile : reads_from binFile content)
    (hend : APP_START_ADDRESS + content.length ≤ 4294967296) :
    ∀ (fuel k clk : Nat) (r : Bool × List Event × Nat),
      write_loop c e filename binFile content.length fuel
        (APP_START_ADDRESS + k * c.NVMCTRL_PAGE_SIZE) (k * c.NVMCTRL_PAGE_SIZE) clk = some r →
      r.1 = true → k * c.NVMCTRL_PAGE_SIZE ≤ content.length →
      writes r.2.1 =
        (List.range (ceil_div (content.length - k * c.NVMCTRL_PAGE_SIZE)
            c.NVMCTRL_PAGE_SIZE)).map
          (fun d => (APP_START_ADDRESS + (k + d) * c.NVMCTRL_PAGE_SIZE,
            file_page c content (k + d), c.NVMCTRL_PAGE_SIZE)) := by
  have happ : APP_START_ADDRESS = 73728 := rfl
  have hs : content.length < 4294967296 := by omega
  intro fuel
  induction fuel with
  | zero =>
    intro k clk r h
    rw [write_loop_zero] at h
    cases h
  | succ fuel ih =>
    intro k clk r h hres hk
    rcases write_loop_inv c e filename binFile content.length fuel _ _ clk r h with
      ⟨hnlt, hr⟩ | ⟨_, _, hr⟩ | ⟨hlt, hok, hzero, _⟩ | ⟨_, _, _, _, hr⟩ |
      ⟨hlt, hok, _, _, r', hr', hr⟩
    · have h0 : content.length - k * c.NVMCTRL_PAGE_SIZE = 0 := by omega
      rw [hr, h0, ceil_div_zero _ hP]
      rfl
    · rw [hr] at hres; cases hres
    · exfalso
      have hdata := read_reply_of_reads_from c binFile content hfile _ _ hok
      have hpos := bytes_to_read_pos c content.length (k * c.NVMCTRL_PAGE_SIZE) hP hlt hs
      rw [hdata, List.length_take, List.length_drop] at hzero
      omega
    · rw [hr] at hres; cases hres
    · have hdata := read_reply_of_reads_from c binFile content hfile _ _ hok
      have hres' : r'.1 = true := by rw [hr] at hres; exact hres
      rw [hr]
      show (APP_START_ADDRESS + k * c.NVMCTRL_PAGE_SIZE,
          page_buffer c (read_reply c binFile content.length (k * c.NVMCTRL_PAGE_SIZE)).2,
          c.NVMCTRL_PAGE_SIZE) :: writes r'.2.1 = _
      rw [hdata] at hr' ⊢
      rcases bytes_to_read_cases c content.length (k * c.NVMCTRL_PAGE_SIZE) hlt hs with
        ⟨hfull, hbtr⟩ | ⟨hshort, hbtr⟩
      · rw [hbtr] at hr' ⊢
        have hlen : ((content.drop (k * c.NVMCTRL_PAGE_SIZE)).take
            c.NVMCTRL_PAGE_SIZE).length = c.NVMCTRL_PAGE_SIZE := by
          rw [List.length_take, List.length_drop]
          omega
        rw [hlen] at hr'
        have htr : add32 (k * c.NVMCTRL_PAGE_SIZE) c.NVMCTRL_PAGE_SIZE
            = (k + 1) * c.NVMCTRL_PAGE_SIZE := by
          unfold add32
          rw [Nat.succ_mul]
          exact Nat.mod_eq_of_lt (by omega)
        rw [htr] at hr'
        have hshift := range_succ_map_shift
          (fun i => (APP_START_ADDRESS + i * c.NVMCTRL_PAGE_SIZE, file_page c content i,
            c.NVMCTRL_PAGE_SIZE))
          (ceil_div (content.length - k * c.NVMCTRL_PAGE_SIZE - c.NVMCTRL_PAGE_SIZE)
            c.NVMCTRL_PAGE_SIZE) k
        beta_reduce at hshift
        rw [← ceil_div_full _ _ hP hfull, hshift, file_page_full]
        have hsub : content.length - k * c.NVMCTRL_PAGE_SIZE - c.NVMCTRL_PAGE_SIZE
            = content.length - (k + 1) * c.NVMCTRL_PAGE_SIZE := by
          rw [Nat.succ_mul]; omega
        rw [hsub]
        congr 1
        rcases Nat.lt_or_ge ((k + 1) * c.NVMCTRL_PAGE_SIZE) content.length with hmore | hdone
        · have hca : add32 (APP_START_ADDRESS + k * c.NVMCTRL_PAGE_SIZE) c.NVMCTRL_PAGE_SIZE
              = APP_START_ADDRESS + (k + 1) * c.NVMCTRL_PAGE_SIZE := by
            unfold add32
            rw [Nat.succ_mul, ← Nat.add_assoc]
            apply Nat.mod_eq_of_lt
            rw [Nat.succ_mul] at hmore
            omega
          rw [hca] at hr'
          exact ih (k + 1) _ r' hr' hres' (Nat.le_of_lt hmore)
        · have heq : (k + 1) * c.NVMCTRL_PAGE_SIZE = content.length := by
            rw [Nat.succ_mul] at hdone ⊢
            omega
          rw [heq] at hr'
          have hr0 := write_loop_done c e filename binFile content.length fuel _ _ r' hr'
          rw [hr0, heq, Nat.sub_self, ceil_div_zero _ hP]
          rfl
      · rw [hbtr] at hr' ⊢
        have hlen : ((content.drop (k * c.NVMCTRL_PAGE_SIZE)).take
            (content.length - k * c.NVMCTRL_PAGE_SIZE)).length
            = content.length - k * c.NVMCTRL_PAGE_SIZE := by
          rw [List.length_take, List.length_drop]
          omega
        rw [hlen] at hr'
        have htr : add32 (k * c.NVMCTRL_PAGE_SIZE) (content.length - k * c.NVMCTRL_PAGE_SIZE)
            = content.length := by
          unfold add32
          rw [Nat.add_sub_cancel' hk]
          exact Nat.mod_eq_of_lt hs
        rw [htr] at hr'
        have hr0 := write_loop_done c e filename binFile content.length fuel _ _ r' hr'
        rw [hr0, ceil_div_last _ _ (by omega) (Nat.le_of_lt hshort), file_page_last _ _ _ hshort]
        rfl

theorem file_page_byte (c : Chip) (content : List Nat) (j : Nat)
    (hP : 0 < c.NVMCTRL_PAGE_SIZE) (hj : j < content.length) :
    (file_page c content (j / c.NVMCTRL_PAGE_SIZE))[j % c.NVMCTRL_PAGE_SIZE]? = content[j]? := by
  unfold file_page page_buffer
  have hdm := Nat.div_add_mod j c.NVMCTRL_PAGE_SIZE
  have hmod := Nat.mod_lt j hP
  have hmul : j / c.NVMCTRL_PAGE_SIZE * c.NVMCTRL_PAGE_SIZE
      = c.NVMCTRL_PAGE_SIZE * (j / c.NVMCTRL_PAGE_SIZE) := Nat.mul_comm _ _
  rw [List.getElem?_append_left (by
    rw [List.length_take, List.length_drop]
    omega)]
  rw [List.getElem?_take_of_lt hmod, List.getElem?_drop, hmul, hdm]

theorem writes_flash_body (c : Chip) (e : Env) (filename : String)
    (n i clk0 : Nat) (r : Bool × List Event × Nat) (res : Bool) :
    writes (attempt_events filename (Event.f_open filename FR_OK ::
      ((erase_loop c e filename n i clk0).2.1 ++ r.2.1 ++
        if r.1 = true then [Event.f_close filename] else [])) res) = writes r.2.1 := by
  rw [writes_attempt_events, writes_append, writes_append, writes_close,
    writes_of_no_write _ (filter_write_erase_loop c e filename _ _ _),
    List.append_nil, List.nil_append]

theorem div_lt_ceil_div (j fs P : Nat) (hP : 0 < P) (hj : j < fs) : j / P < ceil_div fs P := by
  unfold ceil_div
  rw [Nat.div_lt_iff_lt_mul hP]
  have := ceil_mul_ge fs P hP
  rw [Nat.mul_comm] at this
  omega

/-! ## The order of the NVM calls of a boot -/

theorem nvm_pattern_append (a b : List Event) :
    nvm_pattern (a ++ b) = nvm_pattern a ++ nvm_pattern b := by
  unfold nvm_pattern
  rw [List.filter_append, List.map_append]

theorem nvm_pattern_ok_events (c : Chip) :
    ∀ (l : List Nat), nvm_pattern (l.map (erase_ok_event c)) = List.replicate l.length true := by
  intro l
  induction l with
  | nil => rfl
  | cons k rest ih =>
    show true :: nvm_pattern (rest.map (erase_ok_event c)) = _
    rw [ih]
    rfl

theorem nvm_pattern_of_no_erase :
    ∀ (evs : List Event), (∀ ev ∈ evs, ev.is_erase = false) →
      nvm_pattern evs = List.replicate (evs.filter Event.is_write).length false := by
  intro evs
  induction evs with
  | nil => intro _; rfl
  | cons ev rest ih =>
    intro h
    have h1 := ih (fun x hx => h x (List.mem_cons_of_mem _ hx))
    have h0 := h ev (List.mem_cons_self _ _)
    unfold nvm_pattern at h1 ⊢
    cases hw : ev.is_write
    · rw [List.filter_cons_of_neg (by rw [h0, hw]; decide),
        List.filter_cons_of_neg (by rw [hw]; decide)]
      exact h1
    · rw [List.filter_cons_of_pos (by rw [h0, hw]; decide),
        List.filter_cons_of_pos hw, List.map_cons, h1, h0]
      rfl

theorem update_and_launch_primary_ok (c : Chip) (e : Env) (files : Files)
    (evs : List Event) (clk' : Nat) (hflag : (files FLAG_PATH).isSome = true)
    (hff : flash_firmware c e files PRIMARY_PATH 0 = some (true, evs, clk')) :
    update_and_launch c e files =
      some { trace := flag_found_events ++ evs ++ [Event.f_unlink FLAG_PATH]
               ++ exit_bootloader c,
             files := f_unlink e.f_unlink files FLAG_PATH } := by
  obtain ⟨fl, hfl⟩ := Option.isSome_iff_exists.mp hflag
  unfold update_and_launch
  rw [hfl]
  simp only [hff]
  rfl

theorem reads_ok_of_reads_from (binFile : ImageFile) (content : List Nat)
    (hfile : reads_from binFile content) (hs : content.length < 4294967296)
    (hreads : ∀ fptr btr, (binFile.read fptr btr).1 = FR_OK) : binFile.reads_ok := by
  have hfs : f_size binFile = content.length := by
    unfold f_size
    rw [hfile.1]
    exact Nat.mod_eq_of_lt hs
  intro fptr btr hle
  refine ⟨hreads fptr btr, ?_⟩
  rw [hfile.2 fptr btr (hreads fptr btr), List.length_take, List.length_drop]
  omega

/-! ## Closing of the file -/

theorem write_loop_closes (c : Chip) (e : Env) (filename : String) (binFile : ImageFile)
    (file_size : Nat) :
    ∀ (fuel current_addr total_read clk : Nat) (r : Bool × List Event × Nat),
      write_loop c e filename binFile file_size fuel current_addr total_read clk = some r →
      (r.1 = true → ∀ ev ∈ r.2.1, ev.is_close = false) ∧
      (r.1 = false → ∃ pre, r.2.1 = pre ++ [Event.f_close filename] ∧
        ∀ ev ∈ pre, ev.is_close = false) := by
  intro fuel
  induction fuel with
  | zero =>
    intro ca tr clk r h
    rw [write_loop_zero] at h
    cases h
  | succ fuel ih =>
    intro ca tr clk r h
    have hrd : (read_event c filename binFile file_size tr).is_close = false := rfl
    have hwr : (write_event c e binFile file_size ca tr clk).is_close = false := rfl
    rcases write_loop_inv c e filename binFile file_size fuel ca tr clk r h with
      ⟨_, hr⟩ | ⟨_, _, hr⟩ | ⟨_, _, _, hr⟩ | ⟨_, _, _, _, hr⟩ | ⟨_, _, _, _, r', hr', hr⟩
    · rw [hr]
      exact ⟨fun _ ev hev => (by cases hev), fun h => (by cases h)⟩
    · rw [hr]
      refine ⟨fun h => (by cases h), fun _ => ⟨[_], rfl, ?_⟩⟩
      intro ev hev
      rw [List.mem_singleton.mp hev]
      exact hrd
    · rw [hr]
      refine ⟨?_, fun h => (by cases h)⟩
      intro _ ev hev
      rw [List.mem_singleton.mp hev]
      exact hrd
    · rw [hr]
      refine ⟨fun h => (by cases h), fun _ => ⟨[_, _], rfl, ?_⟩⟩
      intro ev hev
      rcases List.mem_cons.mp hev with h1 | h1
      · rw [h1]; exact hrd
      · rw [List.mem_singleton.mp h1]; exact hwr
    · have h1 := ih _ _ _ r' hr'
      rw [hr]
      constructor
      · intro hres ev hev
        rcases List.mem_cons.mp hev with h2 | h2
        · rw [h2]; exact hrd
        · rcases List.mem_cons.mp h2 with h3 | h3
          · rw [h3]; exact hwr
          · exact h1.1 hres ev h3
      · intro hres
        obtain ⟨pre, hpre, hno⟩ := h1.2 hres
        refine ⟨read_event c filename binFile file_size tr ::
          write_event c e binFile file_size ca tr clk :: pre, ?_, ?_⟩
        · show _ :: _ :: r'.2.1 = _
          rw [hpre]
          rfl
        · intro ev hev
          rcases List.mem_cons.mp hev with h2 | h2
          · rw [h2]; exact hrd
          · rcases List.mem_cons.mp h2 with h3 | h3
            · rw [h3]; exact hwr
            · exact hno ev h3

theorem closes_of_split (filename : String) (res : Bool) (pre : List Event)
    (h : ∀ ev ∈ pre, ev.is_close = false) :
    (pre ++ [Event.f_close filename, Event.flash_firmware_returns filename res]).filter
      Event.is_close = [Event.f_close filename] := by
  rw [List.filter_append, List.filter_eq_nil_iff.mpr (fun ev hev => by rw [h ev hev]; decide)]
  rfl

/-- Where the file of a call of `flash_firmware` is closed: never when the open failed,
and otherwise in the last call before the function returns and nowhere else. -/
theorem flash_firmware_closes (c : Chip) (e : Env) (files : Files) (filename : String)
    (clk : Nat) :
    ∃ res evs clk', flash_firmware c e files filename clk = some (res, evs, clk') ∧
      (files filename = none → ∀ ev ∈ evs, ev.is_close = false) ∧
      ((files filename).isSome = true → ∃ pre,
        evs = pre ++ [Event.f_close filename, Event.flash_firmware_returns filename res] ∧
        ∀ ev ∈ pre, ev.is_close = false) := by
  rcases flash_firmware_cases c e files filename clk with
    ⟨hnone, hff⟩ | ⟨bf, hopen, _, hff⟩ | ⟨bf, hopen, _, hE, hff⟩ |
    ⟨bf, wr, hopen, _, hE, hwr, hff⟩
  · refine ⟨_, _, _, hff, ?_, ?_⟩
    · intro _ ev hev
      rw [mem_attempt_events] at hev
      rcases hev with h | h | h
      · rw [h]; rfl
      · rw [List.mem_singleton.mp h]; rfl
      · rw [h]; rfl
    · intro h
      rw [hnone] at h
      cases h
  · refine ⟨_, _, _, hff, ?_, ?_⟩
    · intro h
      rw [hopen] at h
      cases h
    · intro _
      refine ⟨[Event.flash_firmware filename, Event.f_open filename FR_OK], rfl, ?_⟩
      intro ev hev
      rcases List.mem_cons.mp hev with h | h
      · rw [h]; rfl
      · rw [List.mem_singleton.mp h]; rfl
  · refine ⟨_, _, _, hff, ?_, ?_⟩
    · intro h
      rw [hopen] at h
      cases h
    · intro _
      obtain ⟨k, st, _, _, hshape⟩ := erase_loop_fail_shape c e filename _ 0 clk hE
      refine ⟨Event.flash_firmware filename :: Event.f_open filename FR_OK ::
        ((List.range k).map (fun d => erase_ok_event c (0 + d)) ++
          [Event.nvm_erase_row (erase_addr c (0 + k)) st]), ?_, ?_⟩
      · rw [hshape]
        simp [attempt_events]
      · intro ev hev
        rcases List.mem_cons.mp hev with h | h
        · rw [h]; rfl
        · rcases List.mem_cons.mp h with h1 | h1
          · rw [h1]; rfl
          · rcases List.mem_append.mp h1 with h2 | h2
            · obtain ⟨d, _, hd⟩ := List.mem_map.mp h2
              rw [← hd]; rfl
            · rw [List.mem_singleton.mp h2]; rfl
  · have hev := (erase_loop_ok_events c e filename _ clk hE).1
    have hcl := write_loop_closes c e filename bf _ _ _ _ _ wr hwr
    have hok : ∀ ev ∈ (List.range (rows_to_erase c (f_size bf))).map (erase_ok_event c),
        ev.is_close = false := by
      intro ev h2
      obtain ⟨d, _, hd⟩ := List.mem_map.mp h2
      rw [← hd]; rfl
    refine ⟨_, _, _, hff, ?_, ?_⟩
    · intro h
      rw [hopen] at h
      cases h
    · intro _
      rw [hev]
      cases hres : wr.1
      · obtain ⟨pre, hpre, hno⟩ := hcl.2 hres
        refine ⟨Event.flash_firmware filename :: Event.f_open filename FR_OK ::
          ((List.range (rows_to_erase c (f_size bf))).map (erase_ok_event c) ++ pre), ?_, ?_⟩
        · rw [hpre]
          simp [attempt_events]
        · intro ev hev
          rcases List.mem_cons.mp hev with h | h
          · rw [h]; rfl
          · rcases List.mem_cons.mp h with h1 | h1
            · rw [h1]; rfl
            · rcases List.mem_append.mp h1 with h2 | h2
              · exact hok ev h2
              · exact hno ev h2
      · refine ⟨Event.flash_firmware filename :: Event.f_open filename FR_OK ::
          ((List.range (rows_to_erase c (f_size bf))).map (erase_ok_event c) ++ wr.2.1), ?_, ?_⟩
        · simp [attempt_events]
        · intro ev hev
          rcases List.mem_cons.mp hev with h | h
          · rw [h]; rfl
          · rcases List.mem_cons.mp h with h1 | h1
            · rw [h1]; rfl
            · rcases List.mem_append.mp h1 with h2 | h2
              · exact hok ev h2
              · exact hcl.1 hres ev h2

/-! ## Bytes read and bytes requested in the write loop -/

theorem bytes_read_total_step (c : Chip) (e : Env) (filename : String) (binFile : ImageFile)
    (file_size current_addr total_read clk : Nat) (rest : List Event) :
    bytes_read_total (read_event c filename binFile file_size total_read ::
        write_event c e binFile file_size current_addr total_read clk :: rest)
      = (read_reply c binFile file_size total_read).2.length + bytes_read_total rest := by
  unfold bytes_read_total
  rw [List.map_cons, List.map_cons, List.sum_cons, List.sum_cons]
  show _ + (0 + _) = _
  rw [Nat.zero_add]
  rfl

theorem bytes_read_total_append (a b : List Event) :
    bytes_read_total (a ++ b) = bytes_read_total a + bytes_read_total b := by
  unfold bytes_read_total
  rw [List.map_append, List.sum_append]

theorem bytes_read_total_of_no_read (evs : List Event)
    (h : ∀ ev ∈ evs, ev.is_read = false) : bytes_read_total evs = 0 := by
  induction evs with
  | nil => rfl
  | cons ev rest ih =>
    have h0 := h ev (List.mem_cons_self _ _)
    have h1 := ih (fun x hx => h x (List.mem_cons_of_mem _ hx))
    unfold bytes_read_total at h1 ⊢
    rw [List.map_cons, List.sum_cons, h1]
    cases ev <;> first | rfl | cases h0

theorem add32_total_read (c : Chip) (binFile : ImageFile) (file_size total_read : Nat)
    (hs : file_size < 4294967296) (hlt : total_read < file_size) :
    add32 total_read (read_reply c binFile file_size total_read).2.length
      = total_read + (read_reply c binFile file_size total_read).2.length ∧
    total_read + (read_reply c binFile file_size total_read).2.length ≤ file_size := by
  have hle := read_reply_length_le c binFile file_size total_read hlt hs
  refine ⟨?_, by omega⟩
  unfold add32
  exact Nat.mod_eq_of_lt (by omega)

/-- When the write loop is left by its condition without an empty read, the bytes read
add up to the rest of the file. -/
theorem write_loop_bytes (c : Chip) (e : Env) (filename : String) (binFile : ImageFile)
    (file_size : Nat) (hs : file_size < 4294967296) :
    ∀ (fuel current_addr total_read clk : Nat) (r : Bool × List Event × Nat),
      write_loop c e filename binFile file_size fuel current_addr total_read clk = some r →
      total_read ≤ file_size →
      total_read + bytes_read_total r.2.1 ≤ file_size ∧
      (r.1 = true → (∀ ev ∈ r.2.1, ev.read_empty = false) →
        total_read + bytes_read_total r.2.1 = file_size) := by
  intro fuel
  induction fuel with
  | zero =>
    intro ca tr clk r h
    rw [write_loop_zero] at h
    cases h
  | succ fuel ih =>
    intro ca tr clk r h htr
    have hone : tr < file_size →
        bytes_read_total [read_event c filename binFile file_size tr]
          = (read_reply c binFile file_size tr).2.length := by
      intro _
      unfold bytes_read_total
      rw [List.map_cons, List.map_nil, List.sum_cons, List.sum_nil]
      rfl
    rcases write_loop_inv c e filename binFile file_size fuel ca tr clk r h with
      ⟨hnlt, hr⟩ | ⟨hlt, _, hr⟩ | ⟨hlt, hok, hz, hr⟩ | ⟨hlt, _, _, _, hr⟩ |
      ⟨hlt, _, _, _, r', hr', hr⟩
    · rw [hr]
      show tr + 0 ≤ file_size ∧ (_ → _ → tr + 0 = file_size)
      exact ⟨by omega, fun _ _ => by omega⟩
    · rw [hr]
      have hle := read_reply_length_le c binFile file_size tr hlt hs
      constructor
      · show tr + bytes_read_total ([read_event c filename binFile file_size tr] ++
          [Event.f_close filename]) ≤ file_size
        rw [bytes_read_total_append, hone hlt]
        show tr + (_ + 0) ≤ file_size
        omega
      · intro hres
        cases hres
    · rw [hr]
      constructor
      · show tr + bytes_read_total [read_event c filename binFile file_size tr] ≤ file_size
        rw [hone hlt, hz]
        omega
      · intro _ hno
        have := hno (read_event c filename binFile file_size tr) (List.mem_singleton.mpr rfl)
        have hemp : (read_event c filename binFile file_size tr).read_empty = true := by
          show decide (_ ∧ _) = true
          exact decide_eq_true ⟨hok, hz⟩
        rw [hemp] at this
        cases this
    · rw [hr]
      have hle := read_reply_length_le c binFile file_size tr hlt hs
      constructor
      · show tr + bytes_read_total (read_event c filename binFile file_size tr ::
          write_event c e binFile file_size ca tr clk :: [Event.f_close filename]) ≤ file_size
        rw [bytes_read_total_step]
        show tr + (_ + 0) ≤ file_size
        omega
      · intro hres
        cases hres
    · obtain ⟨hadd, hle⟩ := add32_total_read c binFile file_size tr hs hlt
      rw [hadd] at hr'
      have h1 := ih _ _ _ r' hr' hle
      rw [hr]
      show tr + bytes_read_total (read_event c filename binFile file_size tr ::
          write_event c e binFile file_size ca tr clk :: r'.2.1) ≤ file_size ∧
        (r'.1 = true → (∀ ev ∈ read_event c filename binFile file_size tr ::
          write_event c e binFile file_size ca tr clk :: r'.2.1, ev.read_empty = false) →
          tr + bytes_read_total (read_event c filename binFile file_size tr ::
            write_event c e binFile file_size ca tr clk :: r'.2.1) = file_size)
      rw [bytes_read_total_step]
      refine ⟨by omega, ?_⟩
      intro hres hno
      have := h1.2 hres (fun ev hev =>
        hno ev (List.mem_cons_of_mem _ (List.mem_cons_of_mem _ hev)))
      omega

/-- Every `f_read` of the write loop is made with `total_read`, the bytes read so far,
below the file size, and asks for `bytes_to_read` bytes. -/
theorem write_loop_requests (c : Chip) (e : Env) (filename : String) (binFile : ImageFile)
    (file_size : Nat) (hs : file_size < 4294967296) :
    ∀ (fuel current_addr total_read clk : Nat) (r : Bool × List Event × Nat),
      write_loop c e filename binFile file_size fuel current_addr total_read clk = some r →
      total_read ≤ file_size →
      ∀ pre p btr res n post, r.2.1 = pre ++ Event.f_read p btr res n :: post →
        total_read + bytes_read_total pre < file_size ∧
        btr = bytes_to_read c file_size (total_read + bytes_read_total pre) := by
  intro fuel
  induction fuel with
  | zero =>
    intro ca tr clk r h
    rw [write_loop_zero] at h
    cases h
  | succ fuel ih =>
    intro ca tr clk r h htr pre p btr res n post hsplit
    have hfirst : ∀ (rest : List Event), tr < file_size →
        read_event c filename binFile file_size tr :: rest = pre ++ Event.f_read p btr res n :: post →
        (pre = [] ∧ btr = bytes_to_read c file_size tr ∧ rest = post) ∨
        ∃ pre', pre = read_event c filename binFile file_size tr :: pre' ∧
          rest = pre' ++ Event.f_read p btr res n :: post := by
      intro rest _ hspl
      rcases List.cons_eq_append_iff.mp hspl with ⟨h1, h2⟩ | ⟨pre', h1, h2⟩
      · left
        have h3 := List.cons.inj h2
        have h4 : Event.f_read p btr res n = read_event c filename binFile file_size tr := h3.1
        unfold read_event at h4
        injection h4 with _ hb _ _
        exact ⟨h1, hb, h3.2.symm⟩
      · exact Or.inr ⟨pre', h1, h2⟩
    have hnil : bytes_read_total [] = 0 := rfl
    rcases write_loop_inv c e filename binFile file_size fuel ca tr clk r h with
      ⟨_, hr⟩ | ⟨hlt, _, hr⟩ | ⟨hlt, _, _, hr⟩ | ⟨hlt, _, _, _, hr⟩ |
      ⟨hlt, _, _, _, r', hr', hr⟩
    · rw [hr] at hsplit
      cases pre <;> cases hsplit
    · rw [hr] at hsplit
      rcases hfirst _ hlt hsplit with ⟨h1, h2, _⟩ | ⟨pre', _, h2⟩
      · rw [h1, hnil, Nat.add_zero]
        exact ⟨hlt, h2⟩
      · rcases List.cons_eq_append_iff.mp h2 with ⟨_, h4⟩ | ⟨pre'', _, h4⟩
        · cases h4
        · cases pre'' <;> cases h4
    · rw [hr] at hsplit
      rcases hfirst _ hlt hsplit with ⟨h1, h2, _⟩ | ⟨pre', _, h2⟩
      · rw [h1, hnil, Nat.add_zero]
        exact ⟨hlt, h2⟩
      · cases pre' <;> cases h2
    · rw [hr] at hsplit
      rcases hfirst _ hlt hsplit with ⟨h1, h2, _⟩ | ⟨pre', _, h2⟩
      · rw [h1, hnil, Nat.add_zero]
        exact ⟨hlt, h2⟩
      · rcases List.cons_eq_append_iff.mp h2 with ⟨_, h4⟩ | ⟨pre'', _, h4⟩
        · have h5 := (List.cons.inj h4.symm).1
          unfold write_event at h5
          cases h5
        · rcases List.cons_eq_append_iff.mp h4 with ⟨_, h6⟩ | ⟨p3, _, h6⟩
          · cases h6
          · cases p3 <;> cases h6
    · rw [hr] at hsplit
      rcases hfirst _ hlt hsplit with ⟨h1, h2, _⟩ | ⟨pre', hp1, h2⟩
      · rw [h1, hnil, Nat.add_zero]
        exact ⟨hlt, h2⟩
      · rcases List.cons_eq_append_iff.mp h2 with ⟨_, h4⟩ | ⟨pre'', hp2, h4⟩
        · have h5 := (List.cons.inj h4.symm).1
          unfold write_event at h5
          cases h5
        · obtain ⟨hadd, hle⟩ := add32_total_read c binFile file_size tr hs hlt
          rw [hadd] at hr'
          have h7 := ih _ _ _ r' hr' hle pre'' p btr res n post h4
          rw [hp1, hp2, bytes_read_total_step, ← Nat.add_assoc]
          exact h7

/-- The write loop makes at most one `f_read` per byte of the rest of the file. -/
theorem write_loop_reads_le (c : Chip) (e : Env) (filename : String) (binFile : ImageFile)
    (file_size : Nat) (hs : file_size < 4294967296) :
    ∀ (fuel current_addr total_read clk : Nat) (r : Bool × List Event × Nat),
      write_loop c e filename binFile file_size fuel current_addr total_read clk = some r →
      total_read ≤ file_size →
      (r.2.1.filter Event.is_read).length ≤ file_size - total_read := by
  intro fuel
  induction fuel with
  | zero =>
    intro ca tr clk r h
    rw [write_loop_zero] at h
    cases h
  | succ fuel ih =>
    intro ca tr clk r h htr
    rcases write_loop_inv c e filename binFile file_size fuel ca tr clk r h with
      ⟨_, hr⟩ | ⟨hlt, _, hr⟩ | ⟨hlt, _, _, hr⟩ | ⟨hlt, _, _, _, hr⟩ |
      ⟨hlt, _, hnz, _, r', hr', hr⟩
    · rw [hr]
      exact Nat.zero_le _
    · rw [hr]
      show 1 ≤ _
      omega
    · rw [hr]
      show 1 ≤ _
      omega
    · rw [hr]
      show 1 ≤ _
      omega
    · obtain ⟨hadd, hle⟩ := add32_total_read c binFile file_size tr hs hlt
      rw [hadd] at hr'
      have h1 := ih _ _ _ r' hr' hle
      rw [hr]
      show (r'.2.1.filter Event.is_read).length + 1 ≤ _
      omega

theorem erase_loop_no_read (c : Chip) (e : Env) (filename : String) :
    ∀ (n i clk : Nat), ∀ ev ∈ (erase_loop c e filename n i clk).2.1, ev.is_read = false := by
  intro n
  induction n with
  | zero => intro i clk ev hev; cases hev
  | succ n ih =>
    intro i clk ev hev
    rw [erase_loop_succ] at hev
    split at hev
    · rcases List.mem_cons.mp hev with h | h
      · rw [h]; rfl
      · rw [List.mem_singleton.mp h]; rfl
    · rcases List.mem_cons.mp hev with h | h
      · rw [h]; rfl
      · exact ih _ _ ev h

/-- The `f_read` calls of a call of `flash_firmware` are those of its write loop, which
starts with `total_read = 0`. -/
theorem flash_firmware_reads (c : Chip) (e : Env) (files : Files) (filename : String)
    (clk : Nat) :
    ∃ res evs clk', flash_firmware c e files filename clk = some (res, evs, clk') ∧
      ((res = false ∧ ∀ ev ∈ evs, ev.is_read = false) ∨
        ∃ binFile wr clk0 front tail, files filename = some binFile ∧
          1024 ≤ f_size binFile ∧
          write_loop c e filename binFile (f_size binFile) (f_size binFile + 1)
            APP_START_ADDRESS 0 clk0 = some wr ∧
          res = wr.1 ∧ evs = front ++ (wr.2.1 ++ tail) ∧
          (∀ ev ∈ front, ev.is_read = false) ∧ (∀ ev ∈ tail, ev.is_read = false)) := by
  rcases flash_firmware_cases c e files filename clk with
    ⟨_, hff⟩ | ⟨bf, _, _, hff⟩ | ⟨bf, _, _, _, hff⟩ | ⟨bf, wr, hopen, hsize, _, hwr, hff⟩
  · refine ⟨_, _, _, hff, Or.inl ⟨rfl, ?_⟩⟩
    intro ev hev
    rw [mem_attempt_events] at hev
    rcases hev with h | h | h
    · rw [h]; rfl
    · rw [List.mem_singleton.mp h]; rfl
    · rw [h]; rfl
  · refine ⟨_, _, _, hff, Or.inl ⟨rfl, ?_⟩⟩
    intro ev hev
    rw [mem_attempt_events] at hev
    rcases hev with h | h | h
    · rw [h]; rfl
    · rcases List.mem_cons.mp h with h1 | h1
      · rw [h1]; rfl
      · rw [List.mem_singleton.mp h1]; rfl
    · rw [h]; rfl
  · refine ⟨_, _, _, hff, Or.inl ⟨rfl, ?_⟩⟩
    intro ev hev
    rw [mem_attempt_events] at hev
    rcases hev with h | h | h
    · rw [h]; rfl
    · rcases List.mem_cons.mp h with h1 | h1
      · rw [h1]; rfl
      · exact erase_loop_no_read c e filename _ _ _ ev h1
    · rw [h]; rfl
  · refine ⟨_, _, _, hff, Or.inr ⟨bf, wr, _, Event.flash_firmware filename ::
      Event.f_open filename FR_OK ::
        (erase_loop c e filename (rows_to_erase c (f_size bf)) 0 clk).2.1,
      (if wr.1 = true then [Event.f_close filename] else []) ++
        [Event.flash_firmware_returns filename wr.1], hopen, hsize, hwr, rfl, ?_, ?_, ?_⟩⟩
    · simp [attempt_events]
    · intro ev hev
      rcases List.mem_cons.mp hev with h | h
      · rw [h]; rfl
      · rcases List.mem_cons.mp h with h1 | h1
        · rw [h1]; rfl
        · exact erase_loop_no_read c e filename _ _ _ ev h1
    · intro ev hev
      rcases List.mem_append.mp hev with h | h
      · cases hb : wr.1
        · rw [hb] at h; cases h
        · rw [hb] at h
          rw [List.mem_singleton.mp h]; rfl
      · rw [List.mem_singleton.mp h]; rfl

theorem filter_read_of_no_read (evs : List Event) (h : ∀ ev ∈ evs, ev.is_read = false) :
    evs.filter Event.is_read = [] :=
  List.filter_eq_nil_iff.mpr (fun ev hev => by rw [h ev hev]; decide)

theorem no_read_of_split (evs pre post : List Event) (p : String) (btr : Nat) (res : FRESULT)
    (n : Nat) (h : ∀ ev ∈ evs, ev.is_read = false)
    (hsplit : evs = pre ++ Event.f_read p btr res n :: post) : False := by
  have hmem : Event.f_read p btr res n ∈ pre ++ Event.f_read p btr res n :: post := by simp
  rw [← hsplit] at hmem
  have := h _ hmem
  cases this

/-! ## Two files of the same size -/

theorem read_reply_same (c : Chip) (f1 f2 : ImageFile) (file_size total_read : Nat)
    (hsame : same_read_replies f1 f2) :
    (read_reply c f1 file_size total_read).1 = (read_reply c f2 file_size total_read).1 ∧
    (read_reply c f1 file_size total_read).2.length
      = (read_reply c f2 file_size total_read).2.length := by
  have h := hsame total_read (bytes_to_read c file_size total_read)
  refine ⟨h.1, ?_⟩
  show ((f1.read _ _).2.take _).length = ((f2.read _ _).2.take _).length
  rw [List.length_take, List.length_take, h.2]

/-- The write loop takes the same path for two files whose reads return the same result
codes and byte counts, when the status of a page write does not depend on the data. -/
theorem write_loop_blind (c : Chip) (e : Env) (filename : String) (f1 f2 : ImageFile)
    (file_size : Nat) (hsame : same_read_replies f1 f2) (he : e.data_blind) :
    ∀ (fuel current_addr total_read clk : Nat) (r1 r2 : Bool × List Event × Nat),
      write_loop c e filename f1 file_size fuel current_addr total_read clk = some r1 →
      write_loop c e filename f2 file_size fuel current_addr total_read clk = some r2 →
      r1.1 = r2.1 ∧ r1.2.1.map Event.skeleton = r2.2.1.map Event.skeleton ∧
        r1.2.2 = r2.2.2 := by
  intro fuel
  induction fuel with
  | zero =>
    intro ca tr clk r1 r2 h
    rw [write_loop_zero] at h
    cases h
  | succ fuel ih =>
    intro ca tr clk r1 r2 h1 h2
    obtain ⟨hcode, hlen⟩ := read_reply_same c f1 f2 file_size tr hsame
    have hrd : (read_event c filename f1 file_size tr).skeleton
        = (read_event c filename f2 file_size tr).skeleton := by
      show read_event c filename f1 file_size tr = read_event c filename f2 file_size tr
      unfold read_event
      rw [hcode, hlen]
    have hst : write_reply c e f1 file_size ca tr clk = write_reply c e f2 file_size ca tr clk :=
      he _ _ _ _
    have hwr : (write_event c e f1 file_size ca tr clk).skeleton
        = (write_event c e f2 file_size ca tr clk).skeleton := by
      show Event.nvm_write_buffer ca [] c.NVMCTRL_PAGE_SIZE _
        = Event.nvm_write_buffer ca [] c.NVMCTRL_PAGE_SIZE _
      rw [hst]
    rcases write_loop_inv c e filename f1 file_size fuel ca tr clk r1 h1 with
      ⟨a1, e1⟩ | ⟨a1, b1, e1⟩ | ⟨a1, b1, c1, e1⟩ | ⟨a1, b1, c1, d1, e1⟩ |
      ⟨a1, b1, c1, d1, r1', hr1', e1⟩ <;>
    rcases write_loop_inv c e filename f2 file_size fuel ca tr clk r2 h2 with
      ⟨a2, e2⟩ | ⟨a2, b2, e2⟩ | ⟨a2, b2, c2, e2⟩ | ⟨a2, b2, c2, d2, e2⟩ |
      ⟨a2, b2, c2, d2, r2', hr2', e2⟩ <;>
    first
      | exact absurd a2 a1
      | exact absurd a1 a2
      | exact absurd (hcode.trans b2) b1
      | exact absurd (hcode.symm.trans b1) b2
      | exact absurd (hlen.trans c2) c1
      | exact absurd (hlen.symm.trans c1) c2
      | exact absurd (hst.trans d2) d1
      | exact absurd (hst.symm.trans d1) d2
      | skip
    · rw [e1, e2]
      exact ⟨rfl, rfl, rfl⟩
    · rw [e1, e2]
      refine ⟨rfl, ?_, rfl⟩
      show [_, _] = [_, _]
      rw [hrd]
    · rw [e1, e2]
      refine ⟨rfl, ?_, rfl⟩
      show [_] = [_]
      rw [hrd]
    · rw [e1, e2]
      refine ⟨rfl, ?_, rfl⟩
      show [_, _, _] = [_, _, _]
      rw [hrd, hwr]
    · rw [hlen] at hr1'
      have h3 := ih _ _ _ r1' r2' hr1' hr2'
      rw [e1, e2]
      refine ⟨h3.1, ?_, h3.2.2⟩
      show _ :: _ :: _ = _ :: _ :: _
      rw [hrd, hwr, h3.2.1]

theorem erase_addrs_skeleton (evs : List Event) :
    erase_addrs (evs.map Event.skeleton) = erase_addrs evs := by
  unfold erase_addrs
  rw [List.filterMap_map]
  congr 1
  funext ev
  cases ev <;> rfl

theorem write_targets_skeleton (evs : List Event) :
    write_targets (evs.map Event.skeleton) = write_targets evs := by
  unfold write_targets
  rw [List.filterMap_map]
  congr 1
  funext ev
  cases ev <;> rfl

theorem skeleton_attempt_events (filename : String) (body : List Event) (res : Bool) :
    (attempt_events filename body res).map Event.skeleton
      = attempt_events filename (body.map Event.skeleton) res := by
  unfold attempt_events
  rw [List.map_cons, List.map_append]
  rfl

/-- Two calls of `flash_firmware` on files of the same size whose reads return the same
result codes and byte counts, in an environment whose page-write status does not depend
on the data, return the same value after the same calls, up to the page data. -/
theorem flash_firmware_blind (c : Chip) (e : Env) (files1 files2 : Files)
    (filename : String) (clk : Nat) (f1 f2 : ImageFile)
    (hopen1 : files1 filename = some f1) (hopen2 : files2 filename = some f2)
    (hsize : f_size f1 = f_size f2) (hsame : same_read_replies f1 f2)
    (he : e.data_blind) :
    ∃ res evs1 evs2 clk', flash_firmware c e files1 filename clk = some (res, evs1, clk') ∧
      flash_firmware c e files2 filename clk = some (res, evs2, clk') ∧
      evs1.map Event.skeleton = evs2.map Event.skeleton := by
  rcases flash_firmware_cases c e files1 filename clk with
    ⟨hn, _⟩ | ⟨b1, ho1, hs1, hff1⟩ | ⟨b1, ho1, hs1, hE1, hff1⟩ |
    ⟨b1, wr1, ho1, hs1, hE1, hwr1, hff1⟩
  · rw [hn] at hopen1
    cases hopen1
  all_goals
    rw [hopen1] at ho1
    have hb1 := Option.some.inj ho1
    subst hb1
  all_goals
    rcases flash_firmware_cases c e files2 filename clk with
      ⟨hn, _⟩ | ⟨b2, ho2, hs2, hff2⟩ | ⟨b2, ho2, hs2, hE2, hff2⟩ |
      ⟨b2, wr2, ho2, hs2, hE2, hwr2, hff2⟩
    · rw [hn] at hopen2
      cases hopen2
    all_goals
      rw [hopen2] at ho2
      have hb2 := Option.some.inj ho2
      subst hb2
      rw [← hsize] at hs2
    all_goals try rw [← hsize] at hE2
    all_goals try rw [← hsize] at hff2
    all_goals try rw [← hsize] at hwr2
    all_goals try (exfalso; omega)
    all_goals try (exfalso; rw [hE1] at hE2; exact absurd hE2 (by decide))
  · exact ⟨_, _, _, _, hff1, hff2, rfl⟩
  · exact ⟨_, _, _, _, hff1, hff2, rfl⟩
  · obtain ⟨hres, hevs, hclk⟩ := write_loop_blind c e filename f1 f2 _ hsame he _ _ _ _
      wr1 wr2 hwr1 hwr2
    rw [← hres, ← hclk] at hff2
    refine ⟨_, _, _, _, hff1, hff2, ?_⟩
    rw [skeleton_attempt_events, skeleton_attempt_events, List.map_cons, List.map_cons,
      List.map_append, List.map_append, List.map_append, List.map_append, hevs, hres]

/-! ## The two ends of `main` -/

/-- The shape of every boot: either the card does not mount and `main` resets the device,
or the calls of the update are followed by the hand-off sequence. -/
theorem main_cases (c : Chip) (e : Env) (files : Files) :
    ∃ out, main c e files = some out ∧
      (((StartFilesystemAndTest e).1 = false ∧
          out.trace = (StartFilesystemAndTest e).2 ++
            [Event.delay_cycles_ms 5000, Event.NVIC_SystemReset] ∧
          out.files = files) ∨
        ((StartFilesystemAndTest e).1 = true ∧ ∃ mid,
          out.trace = mounted_events e ++ (mid ++ exit_bootloader c) ∧
          (∀ ev ∈ mid, ev.is_launch = false ∧ ev ≠ Event.DeinitializeSerialConsole ∧
            ev ≠ Event.sd_mmc_deinit ∧
            (ev.is_unlink = true → ev = Event.f_unlink FLAG_PATH)) ∧
          (out.files = files ∨ out.files = f_unlink e.f_unlink files FLAG_PATH))) := by
  cases hm : (StartFilesystemAndTest e).1
  · refine ⟨Outcome.mk ((StartFilesystemAndTest e).2 ++
        [Event.delay_cycles_ms 5000, Event.NVIC_SystemReset]) files, ?_,
      Or.inl ⟨rfl, rfl, rfl⟩⟩
    unfold main
    simp only [hm, if_true]
  · have hstep : ∀ (f : String) (b : List Event) (r : Bool),
        (∀ ev ∈ b, ev.is_flash_step f = true) →
        ∀ ev ∈ attempt_events f b r, ev.is_launch = false ∧
          ev ≠ Event.DeinitializeSerialConsole ∧ ev ≠ Event.sd_mmc_deinit ∧
          (ev.is_unlink = true → ev = Event.f_unlink FLAG_PATH) := by
      intro f b r hb ev hev
      rw [mem_attempt_events] at hev
      rcases hev with h | h | h
      · rw [h]
        exact ⟨rfl, fun h => (by cases h), fun h => (by cases h), fun h => (by cases h)⟩
      · have hk := step_kinds f ev (hb ev h)
        refine ⟨hk.2.1, hk.2.2.1, hk.2.2.2.1, ?_⟩
        intro hu
        rw [hk.1] at hu
        cases hu
      · rw [h]
        exact ⟨rfl, fun h => (by cases h), fun h => (by cases h), fun h => (by cases h)⟩
    have hflag : ∀ ev ∈ flag_found_events, ev.is_launch = false ∧
        ev ≠ Event.DeinitializeSerialConsole ∧ ev ≠ Event.sd_mmc_deinit ∧
        (ev.is_unlink = true → ev = Event.f_unlink FLAG_PATH) := by
      intro ev hev
      rcases List.mem_cons.mp hev with h | h
      · rw [h]
        exact ⟨rfl, fun h => (by cases h), fun h => (by cases h), fun h => (by cases h)⟩
      · rw [List.mem_singleton.mp h]
        exact ⟨rfl, fun h => (by cases h), fun h => (by cases h), fun h => (by cases h)⟩
    have hunl : ∀ ev ∈ [Event.f_unlink FLAG_PATH], ev.is_launch = false ∧
        ev ≠ Event.DeinitializeSerialConsole ∧ ev ≠ Event.sd_mmc_deinit ∧
        (ev.is_unlink = true → ev = Event.f_unlink FLAG_PATH) := by
      intro ev hev
      rw [List.mem_singleton.mp hev]
      exact ⟨rfl, fun h => (by cases h), fun h => (by cases h), fun _ => rfl⟩
    rcases update_and_launch_cases c e files with ⟨_, hu⟩ | ⟨_, b1, k1, _, hs1, hu⟩ |
      ⟨_, b1, k1, b2, k2, _, _, hs1, hs2, hu⟩ | ⟨_, b1, k1, b2, k2, _, _, hs1, hs2, hu⟩
    · refine ⟨Outcome.mk (mounted_events e ++ ([Event.f_open FLAG_PATH FR_NO_FILE] ++
          exit_bootloader c)) files,
        by rw [main_mounted c e files hm, hu]; rfl, Or.inr ⟨rfl,
        [Event.f_open FLAG_PATH FR_NO_FILE], rfl, ?_, Or.inl rfl⟩⟩
      intro ev hev
      rw [List.mem_singleton.mp hev]
      exact ⟨rfl, fun h => (by cases h), fun h => (by cases h), fun h => (by cases h)⟩
    · refine ⟨Outcome.mk (mounted_events e ++ (flag_found_events ++
          attempt_events PRIMARY_PATH b1 true ++ [Event.f_unlink FLAG_PATH] ++
          exit_bootloader c)) (f_unlink e.f_unlink files FLAG_PATH),
        by rw [main_mounted c e files hm, hu]; rfl, Or.inr ⟨rfl,
        flag_found_events ++ attempt_events PRIMARY_PATH b1 true ++ [Event.f_unlink FLAG_PATH],
        rfl, ?_, Or.inr rfl⟩⟩
      intro ev hev
      rcases List.mem_append.mp hev with h | h
      · rcases List.mem_append.mp h with h1 | h1
        · exact hflag ev h1
        · exact hstep _ _ _ hs1 ev h1
      · exact hunl ev h
    · refine ⟨Outcome.mk (mounted_events e ++ (flag_found_events ++
          attempt_events PRIMARY_PATH b1 false ++ attempt_events GOLDEN_PATH b2 true ++
          [Event.f_unlink FLAG_PATH] ++ exit_bootloader c)) (f_unlink e.f_unlink files FLAG_PATH),
        by rw [main_mounted c e files hm, hu]; rfl, Or.inr ⟨rfl,
        flag_found_events ++ attempt_events PRIMARY_PATH b1 false ++
          attempt_events GOLDEN_PATH b2 true ++ [Event.f_unlink FLAG_PATH],
        rfl, ?_, Or.inr rfl⟩⟩
      intro ev hev
      rcases List.mem_append.mp hev with h | h
      · rcases List.mem_append.mp h with h1 | h1
        · rcases List.mem_append.mp h1 with h2 | h2
          · exact hflag ev h2
          · exact hstep _ _ _ hs1 ev h2
        · exact hstep _ _ _ hs2 ev h1
      · exact hunl ev h
    · refine ⟨Outcome.mk (mounted_events e ++ (flag_found_events ++
          attempt_events PRIMARY_PATH b1 false ++ attempt_events GOLDEN_PATH b2 false ++
          exit_bootloader c)) files,
        by rw [main_mounted c e files hm, hu]; rfl, Or.inr ⟨rfl,
        flag_found_events ++ attempt_events PRIMARY_PATH b1 false ++
          attempt_events GOLDEN_PATH b2 false,
        rfl, ?_, Or.inl rfl⟩⟩
      intro ev hev
      rcases List.mem_append.mp hev with h | h
      · rcases List.mem_append.mp h with h1 | h1
        · exact hflag ev h1
        · exact hstep _ _ _ hs1 ev h1
      · exact hstep _ _ _ hs2 ev h

theorem mount_events_kinds (e : Env) :
    ∀ ev ∈ (StartFilesystemAndTest e).2, ev.is_launch = false ∧ ev.is_unlink = false := by
  intro ev hev
  simp only [StartFilesystemAndTest] at hev
  split at hev
  · split at hev
    · rcases List.mem_cons.mp hev with h | h
      · rw [h]; exact ⟨rfl, rfl⟩
      · rw [List.mem_singleton.mp h]; exact ⟨rfl, rfl⟩
    · rcases List.mem_cons.mp hev with h | h
      · rw [h]; exact ⟨rfl, rfl⟩
      · rw [List.mem_singleton.mp h]; exact ⟨rfl, rfl⟩
  · rw [List.mem_singleton.mp hev]; exact ⟨rfl, rfl⟩

theorem mounted_events_kinds (e : Env) :
    ∀ ev ∈ mounted_events e, ev.is_launch = false ∧ ev.is_unlink = false ∧
      ev ≠ Event.DeinitializeSerialConsole ∧ ev ≠ Event.sd_mmc_deinit := by
  intro ev hev
  rcases List.mem_cons.mp hev with h | h
  · rw [h]; exact ⟨rfl, rfl, fun h => (by cases h), fun h => (by cases h)⟩
  · rcases List.mem_cons.mp h with h1 | h1
    · rw [h1]; exact ⟨rfl, rfl, fun h => (by cases h), fun h => (by cases h)⟩
    · rw [List.mem_singleton.mp h1]
      exact ⟨rfl, rfl, fun h => (by cases h), fun h => (by cases h)⟩

/-! ## The update sequence of `main` -/

theorem exit_bootloader_ends_in_jump (c : Chip) (pre : List Event) :
    ∃ pre', pre ++ exit_bootloader c = pre' ++ jumpToApplication c :=
  ⟨pre ++ [Event.delay_cycles_ms 100, Event.DeinitializeSerialConsole, Event.sd_mmc_deinit],
    by simp [exit_bootloader]⟩

theorem flag_absent_run (c : Chip) (e : Env) (files : Files)
    (hm : (StartFilesystemAndTest e).1 = true) (hflag : files FLAG_PATH = none) :
    ∃ out, main c e files = some out ∧ straight_to_launcher c out.trace ∧ out.files = files := by
  have hu : update_and_launch c e files =
      some { trace := [Event.f_open FLAG_PATH FR_NO_FILE] ++ exit_bootloader c,
             files := files } := by
    unfold update_and_launch
    rw [hflag]
  refine ⟨_, by rw [main_mounted c e files hm, hu]; rfl, ⟨?_, ?_⟩, rfl⟩
  · intro ev hev
    simp [mounted_events, exit_bootloader, jumpToApplication] at hev
    rcases hev with h | h | h | h | h | h | h | h | h | h <;> subst h <;>
      rfl
  · exact ⟨mounted_events e ++ [Event.f_open FLAG_PATH FR_NO_FILE,
      Event.delay_cycles_ms 100, Event.DeinitializeSerialConsole, Event.sd_mmc_deinit],
      by simp [exit_bootloader]⟩

/-- C1: when the update flag `0:FlagA.txt` cannot be opened, a boot whose card mounts
makes no erase, no page write, no deletion, no call of `flash_firmware` and opens
neither image; it ends with `jumpToApplication` and leaves the card as it was.  A
second boot from the card it leaves (in any environment in which the card mounts)
does the same. -/
theorem flag_absent_boot_is_noop (c : Chip) (e e2 : Env) (files : Files)
    (hm : (StartFilesystemAndTest e).1 = true) (hm2 : (StartFilesystemAndTest e2).1 = true)
    (hflag : files FLAG_PATH = none) :
    ∃ out, main c e files = some out ∧ straight_to_launcher c out.trace ∧
      out.files = files ∧
      ∃ out2, main c e2 out.files = some out2 ∧ straight_to_launcher c out2.trace ∧
        out2.files = files := by
  obtain ⟨out, h1, h2, h3⟩ := flag_absent_run c e files hm hflag
  obtain ⟨out2, h4, h5, h6⟩ := flag_absent_run c e2 files hm2 hflag
  exact ⟨out, h1, h2, h3, out2, by rw [h3]; exact h4, h5, h6⟩

theorem flag_absent_boot_is_noop_witness :
    (StartFilesystemAndTest good_env).1 = true ∧
    card none (some (stored (List.replicate 2000 7))) none FLAG_PATH = none ∧
    ∃ out, main samd21 good_env (card none (some (stored (List.replicate 2000 7))) none)
        = some out ∧ straight_to_launcher samd21 out.trace ∧
      out.files = card none (some (stored (List.replicate 2000 7))) none ∧
      ∃ out2, main samd21 good_env out.files = some out2 ∧
        straight_to_launcher samd21 out2.trace ∧
        out2.files = card none (some (stored (List.replicate 2000 7))) none :=
  ⟨by decide, rfl,
    flag_absent_boot_is_noop samd21 good_env good_env
      (card none (some (stored (List.replicate 2000 7))) none) (by decide) (by decide) rfl⟩

/-- C2: in a boot whose card mounts and holds the flag, `flash_firmware` is called
first on `0:Application.bin`; when that call returns `true` it is the only call, and
when it returns `false` there is exactly one more call, on `0:g_application.bin`. -/
theorem golden_attempted_iff_primary_failed (c : Chip) (e : Env) (files : Files)
    (hm : (StartFilesystemAndTest e).1 = true) (hflag : (files FLAG_PATH).isSome = true) :
    ∃ out r1 evs1 clk1, main c e files = some out ∧
      flash_firmware c e files PRIMARY_PATH 0 = some (r1, evs1, clk1) ∧
      (r1 = true → calls out.trace = [PRIMARY_PATH] ∧
        attempts out.trace = [(PRIMARY_PATH, true)]) ∧
      (r1 = false → calls out.trace = [PRIMARY_PATH, GOLDEN_PATH] ∧
        ∃ r2 evs2 clk2, flash_firmware c e files GOLDEN_PATH clk1 = some (r2, evs2, clk2) ∧
          attempts out.trace = [(PRIMARY_PATH, false), (GOLDEN_PATH, r2)]) := by
  have hcm : calls (mounted_events e) = [] := rfl
  have ham : attempts (mounted_events e) = [] := rfl
  have hcx : calls (exit_bootloader c) = [] := rfl
  have hax : attempts (exit_bootloader c) = [] := rfl
  rcases update_and_launch_cases c e files with ⟨hn, _⟩ | ⟨_, b1, k1, hb1, hs1, hu⟩ |
    ⟨_, b1, k1, b2, k2, hb1, hb2, hs1, hs2, hu⟩ | ⟨_, b1, k1, b2, k2, hb1, hb2, hs1, hs2, hu⟩
  · rw [hn] at hflag; cases hflag
  · refine ⟨_, true, attempt_events PRIMARY_PATH b1 true, k1,
      by rw [main_mounted c e files hm, hu]; rfl, by unfold flash_firmware; rw [hb1]; rfl,
      ?_, (by intro h; cases h)⟩
    intro _
    have hc := calls_attempt_events PRIMARY_PATH b1 true hs1
    have ha := attempts_attempt_events PRIMARY_PATH b1 true hs1
    constructor
    · simp only [calls_append, hcm, hcx, hc]; rfl
    · simp only [attempts_append, ham, hax, ha]; rfl
  · refine ⟨_, false, attempt_events PRIMARY_PATH b1 false, k1,
      by rw [main_mounted c e files hm, hu]; rfl, by unfold flash_firmware; rw [hb1]; rfl,
      (by intro h; cases h), ?_⟩
    intro _
    have hc := calls_attempt_events PRIMARY_PATH b1 false hs1
    have ha := attempts_attempt_events PRIMARY_PATH b1 false hs1
    have hc2 := calls_attempt_events GOLDEN_PATH b2 true hs2
    have ha2 := attempts_attempt_events GOLDEN_PATH b2 true hs2
    refine ⟨?_, true, attempt_events GOLDEN_PATH b2 true, k2,
      by unfold flash_firmware; rw [hb2]; rfl, ?_⟩
    · simp only [calls_append, hcm, hcx, hc, hc2]; rfl
    · simp only [attempts_append, ham, hax, ha, ha2]; rfl
  · refine ⟨_, false, attempt_events PRIMARY_PATH b1 false, k1,
      by rw [main_mounted c e files hm, hu]; rfl, by unfold flash_firmware; rw [hb1]; rfl,
      (by intro h; cases h), ?_⟩
    intro _
    have hc := calls_attempt_events PRIMARY_PATH b1 false hs1
    have ha := attempts_attempt_events PRIMARY_PATH b1 false hs1
    have hc2 := calls_attempt_events GOLDEN_PATH b2 false hs2
    have ha2 := attempts_attempt_events GOLDEN_PATH b2 false hs2
    refine ⟨?_, false, attempt_events GOLDEN_PATH b2 false, k2,
      by unfold flash_firmware; rw [hb2]; rfl, ?_⟩
    · simp only [calls_append, hcm, hcx, hc, hc2]; rfl
    · simp only [attempts_append, ham, hax, ha, ha2]; rfl

theorem golden_attempted_iff_primary_failed_witness :
    (StartFilesystemAndTest good_env).1 = true ∧
    (card (some flag_file) none (some unreadable_image) FLAG_PATH).isSome = true ∧
    ∃ out r1 evs1 clk1,
      main samd21 good_env (card (some flag_file) none (some unreadable_image)) = some out ∧
      flash_firmware samd21 good_env (card (some flag_file) none (some unreadable_image))
        PRIMARY_PATH 0 = some (r1, evs1, clk1) ∧
      (r1 = true → calls out.trace = [PRIMARY_PATH] ∧
        attempts out.trace = [(PRIMARY_PATH, true)]) ∧
      (r1 = false → calls out.trace = [PRIMARY_PATH, GOLDEN_PATH] ∧
        ∃ r2 evs2 clk2,
          flash_firmware samd21 good_env (card (some flag_file) none (some unreadable_image))
            GOLDEN_PATH clk1 = some (r2, evs2, clk2) ∧
          attempts out.trace = [(PRIMARY_PATH, false), (GOLDEN_PATH, r2)]) :=
  ⟨by decide, rfl,
    golden_attempted_iff_primary_failed samd21 good_env
      (card (some flag_file) none (some unreadable_image)) (by decide) rfl⟩

theorem unlinks_of_steps (filename : String) (body : List Event)
    (h : ∀ ev ∈ body, ev.is_flash_step filename = true) :
    body.filter Event.is_unlink = [] := by
  rw [List.filter_eq_nil_iff]
  intro ev hev
  simp [(step_kinds filename ev (h ev hev)).1]

theorem unlinks_attempt_events (filename : String) (body : List Event) (res : Bool)
    (h : ∀ ev ∈ body, ev.is_flash_step filename = true) :
    (attempt_events filename body res).filter Event.is_unlink = [] := by
  simp [attempt_events, unlinks_of_steps filename body h, Event.is_unlink]

theorem launches_of_steps (filename : String) (body : List Event)
    (h : ∀ ev ∈ body, ev.is_flash_step filename = true) :
    body.filter Event.is_launch = [] := by
  rw [List.filter_eq_nil_iff]
  intro ev hev
  simp [(step_kinds filename ev (h ev hev)).2.1]

theorem launches_attempt_events (filename : String) (body : List Event) (res : Bool)
    (h : ∀ ev ∈ body, ev.is_flash_step filename = true) :
    (attempt_events filename body res).filter Event.is_launch = [] := by
  simp [attempt_events, launches_of_steps filename body h, Event.is_launch]

/-- C3 (as stated, refuted): the card mounts and holds the flag, the primary attempt
succeeds and `f_unlink("0:FlagA.txt")` is issued, but the deletion is refused
(`FR_DENIED`); `main` does not look at the result, and the flag file is still on the card
after the boot. -/
theorem flag_survives_refused_unlink_counterexample :
    (StartFilesystemAndTest unlink_denied_env).1 = true ∧
    (main samd21 unlink_denied_env
        (card (some flag_file) (some (stored (List.replicate 1024 7))) none)).map
      (fun out => (attempts out.trace, out.trace.filter Event.is_unlink,
        (out.files FLAG_PATH).isSome))
      = some ([(PRIMARY_PATH, true)], [Event.f_unlink FLAG_PATH], true) := by
  constructor
  · decide
  · decide!

/-- C3 (amended): in a boot whose card mounts and holds the flag, the attempts are "primary
succeeded", "primary failed, golden succeeded" or "primary failed, golden failed".
When one attempt returned `true`, `f_unlink("0:FlagA.txt")` is issued exactly once; the
flag is not on the card afterwards when that call returns `FR_OK`, and the card is
unchanged when the deletion is refused.  When every attempt returned `false`, no
`f_unlink` is issued and the flag file is still on the card. -/
theorem flag_removed_iff_attempt_succeeded (c : Chip) (e : Env) (files : Files)
    (hm : (StartFilesystemAndTest e).1 = true) (hflag : (files FLAG_PATH).isSome = true) :
    ∃ out, main c e files = some out ∧
      (attempts out.trace = [(PRIMARY_PATH, true)] ∨
        attempts out.trace = [(PRIMARY_PATH, false), (GOLDEN_PATH, true)] ∨
        attempts out.trace = [(PRIMARY_PATH, false), (GOLDEN_PATH, false)]) ∧
      ((∃ a ∈ attempts out.trace, a.2 = true) →
        out.trace.filter Event.is_unlink = [Event.f_unlink FLAG_PATH] ∧
        (e.f_unlink = FR_OK → out.files FLAG_PATH = none) ∧
        (e.f_unlink ≠ FR_OK → out.files = files)) ∧
      ((∀ a ∈ attempts out.trace, a.2 = false) →
        out.files FLAG_PATH = files FLAG_PATH ∧ (out.files FLAG_PATH).isSome = true ∧
        out.trace.filter Event.is_unlink = []) := by
  have hgone : e.f_unlink = FR_OK → f_unlink e.f_unlink files FLAG_PATH FLAG_PATH = none := by
    intro h
    unfold f_unlink
    rw [if_pos h, if_pos rfl]
  have hkept : e.f_unlink ≠ FR_OK → f_unlink e.f_unlink files FLAG_PATH = files := by
    intro h
    unfold f_unlink
    rw [if_neg h]
  have ham : attempts (mounted_events e) = [] := rfl
  have hax : attempts (exit_bootloader c) = [] := rfl
  have haf : attempts flag_found_events = [] := rfl
  have hau : attempts [Event.f_unlink FLAG_PATH] = [] := rfl
  have hum : (mounted_events e).filter Event.is_unlink = [] := rfl
  have hux : (exit_bootloader c).filter Event.is_unlink = [] := rfl
  have huf : flag_found_events.filter Event.is_unlink = [] := rfl
  rcases update_and_launch_cases c e files with ⟨hn, _⟩ | ⟨_, b1, k1, hb1, hs1, hu⟩ |
    ⟨_, b1, k1, b2, k2, hb1, hb2, hs1, hs2, hu⟩ | ⟨_, b1, k1, b2, k2, hb1, hb2, hs1, hs2, hu⟩
  · rw [hn] at hflag; cases hflag
  · have ha : attempts (mounted_events e ++ (flag_found_events ++
        attempt_events PRIMARY_PATH b1 true ++ [Event.f_unlink FLAG_PATH] ++ exit_bootloader c))
        = [(PRIMARY_PATH, true)] := by
      simp only [attempts_append, ham, hax, haf, hau,
        attempts_attempt_events PRIMARY_PATH b1 true hs1]; rfl
    refine ⟨_, by rw [main_mounted c e files hm, hu]; rfl, Or.inl ha, ?_, ?_⟩
    · intro _
      refine ⟨?_, hgone, hkept⟩
      simp only [List.filter_append, hum, hux, huf,
        unlinks_attempt_events PRIMARY_PATH b1 true hs1]
      rfl
    · intro hall
      have := hall (PRIMARY_PATH, true) (by rw [ha]; exact List.mem_singleton.mpr rfl)
      cases this
  · have ha : attempts (mounted_events e ++ (flag_found_events ++
        attempt_events PRIMARY_PATH b1 false ++ attempt_events GOLDEN_PATH b2 true
        ++ [Event.f_unlink FLAG_PATH] ++ exit_bootloader c))
        = [(PRIMARY_PATH, false), (GOLDEN_PATH, true)] := by
      simp only [attempts_append, ham, hax, haf, hau,
        attempts_attempt_events PRIMARY_PATH b1 false hs1,
        attempts_attempt_events GOLDEN_PATH b2 true hs2]; rfl
    refine ⟨_, by rw [main_mounted c e files hm, hu]; rfl, Or.inr (Or.inl ha), ?_, ?_⟩
    · intro _
      refine ⟨?_, hgone, hkept⟩
      simp only [List.filter_append, hum, hux, huf,
        unlinks_attempt_events PRIMARY_PATH b1 false hs1,
        unlinks_attempt_events GOLDEN_PATH b2 true hs2]
      rfl
    · intro hall
      have := hall (GOLDEN_PATH, true) (by rw [ha]; simp)
      cases this
  · have ha : attempts (mounted_events e ++ (flag_found_events ++
        attempt_events PRIMARY_PATH b1 false ++ attempt_events GOLDEN_PATH b2 false
        ++ exit_bootloader c))
        = [(PRIMARY_PATH, false), (GOLDEN_PATH, false)] := by
      simp only [attempts_append, ham, hax, haf,
        attempts_attempt_events PRIMARY_PATH b1 false hs1,
        attempts_attempt_events GOLDEN_PATH b2 false hs2]; rfl
    refine ⟨_, by rw [main_mounted c e files hm, hu]; rfl, Or.inr (Or.inr ha), ?_, ?_⟩
    · rintro ⟨a, hmem, htrue⟩
      rw [ha] at hmem
      simp at hmem
      rcases hmem with h | h <;> rw [h] at htrue <;> cases htrue
    · intro _
      refine ⟨rfl, hflag, ?_⟩
      simp only [List.filter_append, hum, hux, huf,
        unlinks_attempt_events PRIMARY_PATH b1 false hs1,
        unlinks_attempt_events GOLDEN_PATH b2 false hs2]
      rfl

theorem flag_removed_iff_attempt_succeeded_witness :
    ((StartFilesystemAndTest good_env).1 = true ∧
      (card (some flag_file) (some unreadable_image)
        (some (stored (List.replicate 1024 7))) FLAG_PATH).isSome = true ∧
      (main samd21 good_env (card (some flag_file) (some unreadable_image)
          (some (stored (List.replicate 1024 7))))).map
        (fun out => (attempts out.trace, out.trace.filter Event.is_unlink,
          (out.files FLAG_PATH).isSome))
        = some ([(PRIMARY_PATH, false), (GOLDEN_PATH, true)], [Event.f_unlink FLAG_PATH],
            false)) ∧
    ∃ out, main samd21 good_env (card (some flag_file) (some unreadable_image)
        (some (stored (List.replicate 1024 7)))) = some out ∧
      (attempts out.trace = [(PRIMARY_PATH, true)] ∨
        attempts out.trace = [(PRIMARY_PATH, false), (GOLDEN_PATH, true)] ∨
        attempts out.trace = [(PRIMARY_PATH, false), (GOLDEN_PATH, false)]) ∧
      ((∃ a ∈ attempts out.trace, a.2 = true) →
        out.trace.filter Event.is_unlink = [Event.f_unlink FLAG_PATH] ∧
        (good_env.f_unlink = FR_OK → out.files FLAG_PATH = none) ∧
        (good_env.f_unlink ≠ FR_OK → out.files = card (some flag_file) (some unreadable_image)
          (some (stored (List.replicate 1024 7))))) ∧
      ((∀ a ∈ attempts out.trace, a.2 = false) →
        out.files FLAG_PATH = card (some flag_file) (some unreadable_image)
          (some (stored (List.replicate 1024 7))) FLAG_PATH ∧
        (out.files FLAG_PATH).isSome = true ∧
        out.trace.filter Event.is_unlink = []) :=
  ⟨⟨by decide, rfl, by decide!⟩,
    flag_removed_iff_attempt_succeeded samd21 good_env
      (card (some flag_file) (some unreadable_image) (some (stored (List.replicate 1024 7))))
      (by decide) rfl⟩

/-- C4 (as stated, refuted): with the flag present, the primary image absent and a
golden image of 1024 bytes whose first read fails, the golden attempt erases four rows
and returns `false`, and `jumpToApplication` is still called. -/
theorem launch_after_failed_erase_counterexample :
    ∃ out, main samd21 good_env (card (some flag_file) none (some unreadable_image)) = some out ∧
      last_attempt_erased_and_failed out.trace ∧
      ∃ ev ∈ out.trace, ev.is_launch = true := by
  refine ⟨_, rfl, ⟨?_, ?_⟩⟩
  · refine ⟨mounted_events good_env ++ flag_found_events ++
        attempt_events PRIMARY_PATH [Event.f_open PRIMARY_PATH FR_NO_FILE] false,
      GOLDEN_PATH,
      [Event.f_open GOLDEN_PATH FR_OK,
       Event.nvm_erase_row 0x12000 STATUS_OK, Event.nvm_erase_row 0x12100 STATUS_OK,
       Event.nvm_erase_row 0x12200 STATUS_OK, Event.nvm_erase_row 0x12300 STATUS_OK,
       Event.f_read GOLDEN_PATH 64 FR_DISK_ERR 0, Event.f_close GOLDEN_PATH],
      exit_bootloader samd21, by decide, by decide, by decide, by decide,
      Event.nvm_erase_row 0x12000 STATUS_OK, by decide, rfl⟩
  · exact ⟨Event.applicationCodeEntry APP_START_RESET_VEC_ADDRESS, by decide, rfl⟩

theorem attempt_mem_of_split (tr pre post body : List Event) (filename : String)
    (res : Bool) (h : tr = pre ++ attempt_events filename body res ++ post) :
    (filename, res) ∈ attempts tr := by
  subst h
  simp [attempts, attempt_events, Event.return_of]

theorem calls_of_split (tr pre post body : List Event) (filename : String)
    (res : Bool) (h : tr = pre ++ attempt_events filename body res ++ post)
    (hb : calls body = []) (hp : calls post = []) :
    calls tr = calls pre ++ [filename] := by
  subst h
  unfold calls at hb hp ⊢
  simp [attempt_events, Event.call_of, hb, hp]

/-- C4 (amended): in a boot whose card mounts, when the last flashing attempt made
at least one `nvm_erase_row` call and then returned `false`, `jumpToApplication` is
still called, exactly once and as the last step; no `f_unlink` is issued and the card
is left as it was, flag included. -/
theorem failed_erase_still_launches (c : Chip) (e : Env) (files : Files)
    (hm : (StartFilesystemAndTest e).1 = true) :
    ∃ out, main c e files = some out ∧
      (last_attempt_erased_and_failed out.trace →
        (out.trace.filter Event.is_launch).length = 1 ∧
        (∃ pre, out.trace = pre ++ jumpToApplication c) ∧
        out.trace.filter Event.is_unlink = [] ∧
        out.files = files ∧ (files FLAG_PATH).isSome = true) := by
  have hcm : calls (mounted_events e) = [] := rfl
  have hcx : calls (exit_bootloader c) = [] := rfl
  have hcf : calls flag_found_events = [] := rfl
  have hcu : calls [Event.f_unlink FLAG_PATH] = [] := rfl
  have ham : attempts (mounted_events e) = [] := rfl
  have hax : attempts (exit_bootloader c) = [] := rfl
  have haf : attempts flag_found_events = [] := rfl
  have hau : attempts [Event.f_unlink FLAG_PATH] = [] := rfl
  rcases update_and_launch_cases c e files with ⟨_, hu⟩ | ⟨_, b1, k1, hb1, hs1, hu⟩ |
    ⟨_, b1, k1, b2, k2, hb1, hb2, hs1, hs2, hu⟩ |
    ⟨hflag, b1, k1, b2, k2, hb1, hb2, hs1, hs2, hu⟩
  · refine ⟨_, by rw [main_mounted c e files hm, hu]; rfl, ?_⟩
    rintro ⟨pre, f, body, post, hsplit, _, _, _, _⟩
    have hmem := attempt_mem_of_split _ pre post body f false hsplit
    have ha : attempts (mounted_events e ++
        ([Event.f_open FLAG_PATH FR_NO_FILE] ++ exit_bootloader c)) = [] := rfl
    rw [ha] at hmem
    cases hmem
  · refine ⟨_, by rw [main_mounted c e files hm, hu]; rfl, ?_⟩
    rintro ⟨pre, f, body, post, hsplit, _, _, _, _⟩
    have hmem := attempt_mem_of_split _ pre post body f false hsplit
    have ha : attempts (mounted_events e ++ (flag_found_events ++
        attempt_events PRIMARY_PATH b1 true ++ [Event.f_unlink FLAG_PATH] ++ exit_bootloader c))
        = [(PRIMARY_PATH, true)] := by
      simp only [attempts_append, ham, hax, haf, hau,
        attempts_attempt_events PRIMARY_PATH b1 true hs1]; rfl
    rw [ha] at hmem
    simp at hmem
  · refine ⟨_, by rw [main_mounted c e files hm, hu]; rfl, ?_⟩
    rintro ⟨pre, f, body, post, hsplit, hcb, _, hcp, _⟩
    have hmem := attempt_mem_of_split _ pre post body f false hsplit
    have hcs := calls_of_split _ pre post body f false hsplit hcb hcp
    have ha : attempts (mounted_events e ++ (flag_found_events ++
        attempt_events PRIMARY_PATH b1 false ++ attempt_events GOLDEN_PATH b2 true
        ++ [Event.f_unlink FLAG_PATH] ++ exit_bootloader c))
        = [(PRIMARY_PATH, false), (GOLDEN_PATH, true)] := by
      simp only [attempts_append, ham, hax, haf, hau,
        attempts_attempt_events PRIMARY_PATH b1 false hs1,
        attempts_attempt_events GOLDEN_PATH b2 true hs2]; rfl
    have hc : calls (mounted_events e ++ (flag_found_events ++
        attempt_events PRIMARY_PATH b1 false ++ attempt_events GOLDEN_PATH b2 true
        ++ [Event.f_unlink FLAG_PATH] ++ exit_bootloader c))
        = [PRIMARY_PATH, GOLDEN_PATH] := by
      simp only [calls_append, hcm, hcx, hcf, hcu,
        calls_attempt_events PRIMARY_PATH b1 false hs1,
        calls_attempt_events GOLDEN_PATH b2 true hs2]; rfl
    exfalso
    have hlast := congrArg List.getLast? (hc.symm.trans hcs)
    simp at hlast
    subst hlast
    rw [ha] at hmem
    simp at hmem
    exact absurd hmem (by decide)
  · refine ⟨_, by rw [main_mounted c e files hm, hu]; rfl, ?_⟩
    intro _
    refine ⟨?_, ?_, ?_, rfl, hflag⟩
    · have hlx : ((exit_bootloader c).filter Event.is_launch).length = 1 := rfl
      have hlm : (mounted_events e).filter Event.is_launch = [] := rfl
      have hlf : flag_found_events.filter Event.is_launch = [] := rfl
      simp only [List.filter_append, hlm, hlf,
        launches_attempt_events PRIMARY_PATH b1 false hs1,
        launches_attempt_events GOLDEN_PATH b2 false hs2, List.nil_append, hlx]
    · have hj := exit_bootloader_ends_in_jump c (mounted_events e ++ (flag_found_events ++
        attempt_events PRIMARY_PATH b1 false ++ attempt_events GOLDEN_PATH b2 false))
      simpa only [List.append_assoc] using hj
    · have hum : (mounted_events e).filter Event.is_unlink = [] := rfl
      have hux : (exit_bootloader c).filter Event.is_unlink = [] := rfl
      have huf : flag_found_events.filter Event.is_unlink = [] := rfl
      simp only [List.filter_append, hum, hux, huf,
        unlinks_attempt_events PRIMARY_PATH b1 false hs1,
        unlinks_attempt_events GOLDEN_PATH b2 false hs2]
      rfl

theorem failed_erase_still_launches_witness :
    (StartFilesystemAndTest good_env).1 = true ∧
    ∃ out, main samd21 good_env (card (some flag_file) none (some unreadable_image)) = some out ∧
      (last_attempt_erased_and_failed out.trace →
        (out.trace.filter Event.is_launch).length = 1 ∧
        (∃ pre, out.trace = pre ++ jumpToApplication samd21) ∧
        out.trace.filter Event.is_unlink = [] ∧
        out.files = card (some flag_file) none (some unreadable_image) ∧
        (card (some flag_file) none (some unreadable_image) FLAG_PATH).isSome = true) :=
  ⟨by decide,
    failed_erase_still_launches samd21 good_env
      (card (some flag_file) none (some unreadable_image)) (by decide)⟩

/-- C5: in a boot whose card mounts, whatever the flag and the flashing attempts do,
the trace ends with `DeinitializeSerialConsole`, `sd_mmc_deinit` and the three steps
of `jumpToApplication`, in this order; nothing before them is a transfer of control,
a console or storage shutdown, or a device reset. -/
theorem mounted_boot_ends_in_launch (c : Chip) (e : Env) (files : Files)
    (hm : (StartFilesystemAndTest e).1 = true) :
    ∃ out pre, main c e files = some out ∧
      out.trace = pre ++ [Event.DeinitializeSerialConsole, Event.sd_mmc_deinit]
        ++ jumpToApplication c ∧
      (jumpToApplication c).filter Event.is_launch =
        [Event.applicationCodeEntry APP_START_RESET_VEC_ADDRESS] ∧
      ∀ ev ∈ pre, ev.is_launch = false ∧ ev ≠ Event.DeinitializeSerialConsole ∧
        ev ≠ Event.sd_mmc_deinit ∧ ev ≠ Event.NVIC_SystemReset := by
  have key : ∀ (mid : List Event),
      (∀ ev ∈ mid, ev.is_launch = false ∧ ev ≠ Event.DeinitializeSerialConsole ∧
        ev ≠ Event.sd_mmc_deinit ∧ ev ≠ Event.NVIC_SystemReset) →
      ∃ pre, mounted_events e ++ (mid ++ exit_bootloader c) =
          pre ++ [Event.DeinitializeSerialConsole, Event.sd_mmc_deinit]
            ++ jumpToApplication c ∧
        ∀ ev ∈ pre, ev.is_launch = false ∧ ev ≠ Event.DeinitializeSerialConsole ∧
          ev ≠ Event.sd_mmc_deinit ∧ ev ≠ Event.NVIC_SystemReset := by
    intro mid hmid
    refine ⟨mounted_events e ++ mid ++ [Event.delay_cycles_ms 100],
      by simp [exit_bootloader], ?_⟩
    intro ev hev
    simp only [List.mem_append, List.mem_singleton] at hev
    rcases hev with (h | h) | h
    · simp [mounted_events] at h
      rcases h with h | h | h <;> subst h <;> simp [Event.is_launch]
    · exact hmid ev h
    · subst h; simp [Event.is_launch]
  have hstep : ∀ (f : String) (b : List Event) (r : Bool),
      (∀ ev ∈ b, ev.is_flash_step f = true) →
      ∀ ev ∈ attempt_events f b r, ev.is_launch = false ∧
        ev ≠ Event.DeinitializeSerialConsole ∧ ev ≠ Event.sd_mmc_deinit ∧
        ev ≠ Event.NVIC_SystemReset := by
    intro f b r hb ev hev
    simp only [attempt_events, List.mem_cons, List.mem_append, List.mem_singleton,
      List.not_mem_nil, or_false] at hev
    rcases hev with h | h | h
    · subst h; simp [Event.is_launch]
    · have := step_kinds f ev (hb ev h)
      exact ⟨this.2.1, this.2.2.1, this.2.2.2.1, this.2.2.2.2.1⟩
    · subst h; simp [Event.is_launch]
  have hflagev : ∀ ev ∈ flag_found_events, ev.is_launch = false ∧
      ev ≠ Event.DeinitializeSerialConsole ∧ ev ≠ Event.sd_mmc_deinit ∧
      ev ≠ Event.NVIC_SystemReset := by
    intro ev hev
    simp [flag_found_events] at hev
    rcases hev with h | h <;> subst h <;> simp [Event.is_launch]
  rcases update_and_launch_cases c e files with ⟨_, hu⟩ | ⟨_, b1, k1, hb1, hs1, hu⟩ |
    ⟨_, b1, k1, b2, k2, hb1, hb2, hs1, hs2, hu⟩ | ⟨_, b1, k1, b2, k2, hb1, hb2, hs1, hs2, hu⟩
  · obtain ⟨pre, hpre, hall⟩ := key [Event.f_open FLAG_PATH FR_NO_FILE]
      (by intro ev hev; simp at hev; subst hev; simp [Event.is_launch])
    exact ⟨_, pre, by rw [main_mounted c e files hm, hu]; rfl, hpre, rfl, hall⟩
  · obtain ⟨pre, hpre, hall⟩ := key (flag_found_events ++ attempt_events PRIMARY_PATH b1 true
      ++ [Event.f_unlink FLAG_PATH]) (by
        intro ev hev
        simp only [List.mem_append, List.mem_singleton] at hev
        rcases hev with (h | h) | h
        · exact hflagev ev h
        · exact hstep _ _ _ hs1 ev h
        · subst h; simp [Event.is_launch])
    exact ⟨_, pre, by rw [main_mounted c e files hm, hu]; rfl, hpre, rfl, hall⟩
  · obtain ⟨pre, hpre, hall⟩ := key (flag_found_events ++ attempt_events PRIMARY_PATH b1 false
      ++ attempt_events GOLDEN_PATH b2 true ++ [Event.f_unlink FLAG_PATH]) (by
        intro ev hev
        simp only [List.mem_append, List.mem_singleton] at hev
        rcases hev with ((h | h) | h) | h
        · exact hflagev ev h
        · exact hstep _ _ _ hs1 ev h
        · exact hstep _ _ _ hs2 ev h
        · subst h; simp [Event.is_launch])
    exact ⟨_, pre, by rw [main_mounted c e files hm, hu]; rfl, hpre, rfl, hall⟩
  · obtain ⟨pre, hpre, hall⟩ := key (flag_found_events ++ attempt_events PRIMARY_PATH b1 false
      ++ attempt_events GOLDEN_PATH b2 false) (by
        intro ev hev
        simp only [List.mem_append] at hev
        rcases hev with (h | h) | h
        · exact hflagev ev h
        · exact hstep _ _ _ hs1 ev h
        · exact hstep _ _ _ hs2 ev h)
    exact ⟨_, pre, by rw [main_mounted c e files hm, hu]; rfl, hpre, rfl, hall⟩

theorem mounted_boot_ends_in_launch_witness :
    (StartFilesystemAndTest good_env).1 = true ∧
    ∃ out pre, main samd21 good_env (card (some flag_file) (some unreadable_image) none)
        = some out ∧
      out.trace = pre ++ [Event.DeinitializeSerialConsole, Event.sd_mmc_deinit]
        ++ jumpToApplication samd21 ∧
      (jumpToApplication samd21).filter Event.is_launch =
        [Event.applicationCodeEntry APP_START_RESET_VEC_ADDRESS] ∧
      ∀ ev ∈ pre, ev.is_launch = false ∧ ev ≠ Event.DeinitializeSerialConsole ∧
        ev ≠ Event.sd_mmc_deinit ∧ ev ≠ Event.NVIC_SystemReset :=
  ⟨by decide,
    mounted_boot_ends_in_launch samd21 good_env
      (card (some flag_file) (some unreadable_image) none) (by decide)⟩

/-! ## The flashing attempt -/

/-- C6: for a file that opens and whose size is at least 1024 (in particular every
size between 1024 and the length of the flash region), `flash_firmware` returns, and
when every `nvm_erase_row` call of the attempt returned `STATUS_OK`, it returns `true`
if and only if every `f_read` call returned `FR_OK` and every `nvm_write_buffer` call
returned `STATUS_OK`. -/
theorem flash_succeeds_iff_reads_and_writes_succeed (c : Chip) (e : Env) (files : Files)
    (filename : String) (clk : Nat) (binFile : ImageFile)
    (hopen : files filename = some binFile) (hsize : 1024 ≤ f_size binFile) :
    ∃ res evs clk', flash_firmware c e files filename clk = some (res, evs, clk') ∧
      ((∀ ev ∈ evs, ev.erase_failed = false) →
        (res = true ↔ ∀ ev ∈ evs, ev.read_failed = false ∧ ev.write_failed = false)) := by
  rcases flash_firmware_opened c e files filename clk binFile hopen hsize with
    ⟨her, hff⟩ | ⟨her, wr, hw, hff⟩
  · refine ⟨_, _, _, hff, ?_⟩
    intro hall
    exfalso
    obtain ⟨ev, hev, hf⟩ := erase_loop_fail c e filename _ _ _ her
    have := hall ev (by
      rw [mem_attempt_events]
      exact Or.inr (Or.inl (List.mem_cons_of_mem _ hev)))
    rw [this] at hf
    cases hf
  · refine ⟨_, _, _, hff, ?_⟩
    intro _
    have hiff := write_loop_ok_iff c e filename binFile _ _ _ _ _ wr hw
    constructor
    · intro hres ev hev
      have hwr := hiff.mp hres
      rw [mem_attempt_events] at hev
      rcases hev with h | h | h
      · subst h; exact ⟨rfl, rfl⟩
      · simp only [List.mem_cons, List.mem_append] at h
        rcases h with h | (h | h) | h
        · subst h; exact ⟨rfl, rfl⟩
        · have := erase_loop_kinds c e filename _ _ _ ev h
          exact ⟨this.2.1, this.2.2.1⟩
        · exact hwr ev h
        · rw [if_pos hres, List.mem_singleton] at h
          subst h; exact ⟨rfl, rfl⟩
      · subst h; exact ⟨rfl, rfl⟩
    · intro hall
      apply hiff.mpr
      intro ev hev
      apply hall
      rw [mem_attempt_events]
      right; left
      simp only [List.mem_cons, List.mem_append]
      exact Or.inr (Or.inl (Or.inr hev))

theorem flash_succeeds_iff_reads_and_writes_succeed_witness :
    card none (some unreadable_image) none PRIMARY_PATH = some unreadable_image ∧
    1024 ≤ f_size unreadable_image ∧
    (∃ res evs clk', flash_firmware samd21 good_env (card none (some unreadable_image) none)
        PRIMARY_PATH 0 = some (res, evs, clk') ∧
      ((∀ ev ∈ evs, ev.erase_failed = false) →
        (res = true ↔ ∀ ev ∈ evs, ev.read_failed = false ∧ ev.write_failed = false))) ∧
    (flash_firmware samd21 good_env (card none (some unreadable_image) none)
        PRIMARY_PATH 0).map
      (fun r => (r.1, r.2.1.any Event.erase_failed, r.2.1.any Event.read_failed))
        = some (false, false, true) :=
  ⟨rfl, by decide,
    flash_succeeds_iff_reads_and_writes_succeed samd21 good_env
      (card none (some unreadable_image) none) PRIMARY_PATH 0 unreadable_image rfl
      (by decide),
    by decide⟩

/-- C7: for a file that opens and whose size `F` is at least 1024 (so for every
`1024 ≤ F ≤ FlashRegion.length`), when the erase pass succeeds, every page read succeeds,
that is, returns `FR_OK` and delivers the number of bytes requested, and every page write
succeeds, `flash_firmware` returns `true` and the number of `nvm_write_buffer` calls is
`ceil(F / NVMCTRL_PAGE_SIZE)`. -/
theorem pages_written_eq_ceil (c : Chip) (e : Env) (files : Files) (filename : String)
    (clk : Nat) (binFile : ImageFile) (hP : 0 < c.NVMCTRL_PAGE_SIZE)
    (hopen : files filename = some binFile) (hsize : 1024 ≤ f_size binFile) :
    ∃ res evs clk', flash_firmware c e files filename clk = some (res, evs, clk') ∧
      ((∀ ev ∈ evs, ev.erase_failed = false ∧ ev.read_failed = false ∧
          ev.read_short = false ∧ ev.write_failed = false) →
        res = true ∧
        (evs.filter Event.is_write).length =
          ceil_div (f_size binFile) c.NVMCTRL_PAGE_SIZE) := by
  rcases flash_firmware_opened c e files filename clk binFile hopen hsize with
    ⟨her, hff⟩ | ⟨her, wr, hw, hff⟩
  · refine ⟨_, _, _, hff, ?_⟩
    intro hall
    exfalso
    obtain ⟨ev, hev, hf⟩ := erase_loop_fail c e filename _ _ _ her
    have := (hall ev (by
      rw [mem_attempt_events]
      exact Or.inr (Or.inl (List.mem_cons_of_mem _ hev)))).1
    rw [this] at hf
    cases hf
  · refine ⟨_, _, _, hff, ?_⟩
    intro hall
    obtain ⟨h1, h2⟩ := write_loop_count c e filename binFile (f_size binFile) hP
      (f_size_lt binFile) _ _ _ _ wr hw (Nat.zero_le _) (by
        intro ev hev
        have := hall ev (by
          rw [mem_attempt_events]
          right; left
          simp only [List.mem_cons, List.mem_append]
          exact Or.inr (Or.inl (Or.inr hev)))
        exact ⟨this.2.1, this.2.2.1, this.2.2.2⟩)
    refine ⟨h1, ?_⟩
    rw [filter_write_attempt_events]
    simp only [List.filter_cons, List.filter_append, filter_write_erase_loop, h1, if_true]
    simpa [Event.is_write] using h2

theorem pages_written_eq_ceil_witness :
    0 < samd21.NVMCTRL_PAGE_SIZE ∧
    card none (some (stored (List.replicate 1024 7))) none PRIMARY_PATH
      = some (stored (List.replicate 1024 7)) ∧
    1024 ≤ f_size (stored (List.replicate 1024 7)) ∧
    (∃ res evs clk', flash_firmware samd21 good_env
        (card none (some (stored (List.replicate 1024 7))) none) PRIMARY_PATH 0
          = some (res, evs, clk') ∧
      ((∀ ev ∈ evs, ev.erase_failed = false ∧ ev.read_failed = false ∧
          ev.read_short = false ∧ ev.write_failed = false) →
        res = true ∧
        (evs.filter Event.is_write).length =
          ceil_div (f_size (stored (List.replicate 1024 7))) samd21.NVMCTRL_PAGE_SIZE)) ∧
    (flash_firmware samd21 good_env
        (card none (some (stored (List.replicate 1024 7))) none) PRIMARY_PATH 0).map
      (fun r => (r.1, no_failure r.2.1, (r.2.1.filter Event.is_write).length))
        = some (true, true, 16) :=
  have hsize : 1024 ≤ f_size (stored (List.replicate 1024 7)) := by
    simp only [f_size, stored, List.length_replicate]
    decide
  ⟨by decide, rfl, hsize,
    pages_written_eq_ceil samd21 good_env (card none (some (stored (List.replicate 1024 7))) none)
      PRIMARY_PATH 0 (stored (List.replicate 1024 7)) (by decide) rfl hsize,
    by decide!⟩

/-- C8 (as stated, refuted): a file of 1025 bytes, all equal to 7, flashed without any
failure.  The buffer of the final page write is the last byte of the file followed by
63 bytes `0xFF`, not by zero bytes. -/
theorem final_page_padding_counterexample :
    (flash_firmware samd21 good_env (card none (some (stored (List.replicate 1025 7))) none)
        PRIMARY_PATH 0).map (fun r => (r.1, last_write_buffer r.2.1))
      = some (true, some (7 :: List.replicate 63 0xFF)) ∧
    7 :: List.replicate 63 0xFF ≠
      (List.replicate 1025 7).drop (1025 - 1025 % samd21.NVMCTRL_PAGE_SIZE) ++
        List.replicate (samd21.NVMCTRL_PAGE_SIZE - 1025 % samd21.NVMCTRL_PAGE_SIZE) 0x00 :=
  ⟨by decide!, by decide!⟩

/-- C8 (amended): for a file that opens, holds `content` of length `F` with
`1024 ≤ F < 2^32` and `F` not a multiple of the page size, when `flash_firmware`
returns `true` the buffer passed to the final `nvm_write_buffer` call holds the last
`F mod NVMCTRL_PAGE_SIZE` bytes of the file followed by `0xFF` bytes up to the page
size. -/
theorem final_page_padded_with_FF (c : Chip) (e : Env) (files : Files) (filename : String)
    (clk : Nat) (binFile : ImageFile) (content : List Nat)
    (hP : 0 < c.NVMCTRL_PAGE_SIZE) (hopen : files filename = some binFile)
    (hfile : reads_from binFile content) (hsize : 1024 ≤ content.length)
    (hs : content.length < 4294967296)
    (hpart : content.length % c.NVMCTRL_PAGE_SIZE ≠ 0) :
    ∃ res evs clk', flash_firmware c e files filename clk = some (res, evs, clk') ∧
      (res = true →
        last_write_buffer evs =
          some (content.drop (content.length - content.length % c.NVMCTRL_PAGE_SIZE) ++
            List.replicate (c.NVMCTRL_PAGE_SIZE - content.length % c.NVMCTRL_PAGE_SIZE)
              0xFF)) := by
  have hfs : f_size binFile = content.length := by
    unfold f_size
    rw [hfile.1]
    exact Nat.mod_eq_of_lt hs
  rcases flash_firmware_opened c e files filename clk binFile hopen (by omega) with
    ⟨_, hff⟩ | ⟨_, wr, hw, hff⟩
  · exact ⟨_, _, _, hff, by intro h; cases h⟩
  · refine ⟨_, _, _, hff, ?_⟩
    intro hok
    rw [hfs] at hw
    have hlast := write_loop_last_buffer c e filename binFile content hP hfile hs hpart
      _ _ _ _ wr hw hok (by omega) (Nat.dvd_zero _)
    have hshape : attempt_events filename (Event.f_open filename FR_OK ::
          ((erase_loop c e filename (rows_to_erase c (f_size binFile)) 0 clk).2.1 ++ wr.2.1
            ++ if wr.1 = true then [Event.f_close filename] else [])) wr.1 =
        ([Event.flash_firmware filename, Event.f_open filename FR_OK] ++
          (erase_loop c e filename (rows_to_erase c (f_size binFile)) 0 clk).2.1 ++ wr.2.1) ++
        [Event.f_close filename, Event.flash_firmware_returns filename wr.1] := by
      simp [attempt_events, hok]
    rw [hshape, last_write_buffer_append_none _ _ (by
      intro ev hev
      simp at hev
      rcases hev with h | h <;> subst h <;> rfl)]
    exact last_write_buffer_append_some _ _ _ hlast

theorem final_page_padded_with_FF_witness :
    0 < samd21.NVMCTRL_PAGE_SIZE ∧
    card none (some (stored (List.replicate 1025 7))) none PRIMARY_PATH
      = some (stored (List.replicate 1025 7)) ∧
    reads_from (stored (List.replicate 1025 7)) (List.replicate 1025 7) ∧
    1024 ≤ (List.replicate 1025 7).length ∧
    (List.replicate 1025 7).length < 4294967296 ∧
    (List.replicate 1025 7).length % samd21.NVMCTRL_PAGE_SIZE ≠ 0 ∧
    ∃ res evs clk', flash_firmware samd21 good_env
        (card none (some (stored (List.replicate 1025 7))) none) PRIMARY_PATH 0
          = some (res, evs, clk') ∧
      (res = true →
        last_write_buffer evs =
          some ((List.replicate 1025 7).drop ((List.replicate 1025 7).length -
              (List.replicate 1025 7).length % samd21.NVMCTRL_PAGE_SIZE) ++
            List.replicate (samd21.NVMCTRL_PAGE_SIZE -
              (List.replicate 1025 7).length % samd21.NVMCTRL_PAGE_SIZE) 0xFF)) :=
  have h1 : 1024 ≤ (List.replicate 1025 7).length := by
    rw [List.length_replicate]; decide
  have h2 : (List.replicate 1025 7).length < 4294967296 := by
    rw [List.length_replicate]; decide
  have h3 : (List.replicate 1025 7).length % samd21.NVMCTRL_PAGE_SIZE ≠ 0 := by
    rw [List.length_replicate]; decide
  ⟨by decide, rfl, ⟨rfl, fun _ _ _ => rfl⟩, h1, h2, h3,
    final_page_padded_with_FF samd21 good_env
      (card none (some (stored (List.replicate 1025 7))) none) PRIMARY_PATH 0
      (stored (List.replicate 1025 7)) (List.replicate 1025 7) (by decide) rfl
      ⟨rfl, fun _ _ _ => rfl⟩ h1 h2 h3⟩

/-- C9 (the code at the failing input): for a file of `2^32 - 1` bytes the sum
`file_size + NVMCTRL_ROW_SIZE - 1` wraps around, `rows_to_erase` is 0 and no
`nvm_erase_row` call is made before the first page is written, while
`ceil((2^32 - 1) / 256) = 16777216`. -/
theorem rows_erased_wraps_for_huge_file :
    f_size huge_image = 4294967295 ∧
    rows_to_erase samd21 (f_size huge_image) = 0 ∧
    ceil_div (f_size huge_image) samd21.NVMCTRL_ROW_SIZE = 16777216 ∧
    (flash_firmware samd21 good_env (card none (some huge_image) none) PRIMARY_PATH 0).map
      (fun r => ((r.2.1.filter Event.is_erase).length, (r.2.1.filter Event.is_write).length))
      = some (0, 1) := by
  decide!

/-- C10 (as stated, refuted), on two inputs.  A file of 1024 bytes whose reads deliver
16 bytes at a time: four rows are erased, and the 17th page write goes to `0x12400`,
in a row that no earlier call erased.  A file of `2^32 - 1` bytes: no row is erased and
the first page write goes to `0x12000`. -/
theorem write_before_erase_counterexample :
    (∃ evs pre buffer post,
      (flash_firmware samd21 good_env (card none (some short_reads_image) none)
        PRIMARY_PATH 0).map (fun r => r.2.1) = some evs ∧
      evs = pre ++ Event.nvm_write_buffer 0x12400 buffer 64 STATUS_OK :: post ∧
      ∀ ev ∈ pre, ev.erases_row samd21 (0x12400 / samd21.NVMCTRL_ROW_SIZE) = false) ∧
    (∃ evs pre buffer post,
      (flash_firmware samd21 good_env (card none (some huge_image) none)
        PRIMARY_PATH 0).map (fun r => r.2.1) = some evs ∧
      evs = pre ++ Event.nvm_write_buffer 0x12000 buffer 64 STATUS_OK :: post ∧
      ∀ ev ∈ pre, ev.erases_row samd21 (0x12000 / samd21.NVMCTRL_ROW_SIZE) = false) :=
  ⟨⟨((flash_firmware samd21 good_env (card none (some short_reads_image) none)
        PRIMARY_PATH 0).map (fun r => r.2.1)).getD [],
      (((flash_firmware samd21 good_env (card none (some short_reads_image) none)
        PRIMARY_PATH 0).map (fun r => r.2.1)).getD []).take 39,
      List.replicate 16 0 ++ List.replicate 48 0xFF,
      (((flash_firmware samd21 good_env (card none (some short_reads_image) none)
        PRIMARY_PATH 0).map (fun r => r.2.1)).getD []).drop 40,
      by decide!, by decide!, by decide!⟩,
   ⟨((flash_firmware samd21 good_env (card none (some huge_image) none)
        PRIMARY_PATH 0).map (fun r => r.2.1)).getD [],
      [Event.flash_firmware PRIMARY_PATH, Event.f_open PRIMARY_PATH FR_OK,
        Event.f_read PRIMARY_PATH 64 FR_OK 64],
      List.replicate 64 0,
      [Event.f_read PRIMARY_PATH 64 FR_DISK_ERR 0, Event.f_close PRIMARY_PATH,
        Event.flash_firmware_returns PRIMARY_PATH false],
      by decide!, by decide!, by decide!⟩⟩

/-- C10 (amended): for a file that opens and whose size `F` satisfies
`1024 ≤ F ≤ length`, where the flash region `[APP_START_ADDRESS,
APP_START_ADDRESS + length)` lies in the 32-bit address space and starts on a row
boundary, when every read that returns `FR_OK` delivers the number of bytes requested:
for every `nvm_write_buffer` call of the attempt at an address `a` and every address
`x` of the page `[a, a + NVMCTRL_PAGE_SIZE)`, an earlier `nvm_erase_row` call of the
same attempt erased the row that holds `x`. -/
theorem pages_written_lie_in_erased_rows (c : Chip) (e : Env) (files : Files)
    (filename : String) (clk : Nat) (binFile : ImageFile) (length : Nat)
    (hc : c.wf) (halign : c.NVMCTRL_ROW_SIZE ∣ APP_START_ADDRESS)
    (hregion : APP_START_ADDRESS + length ≤ 4294967296)
    (hopen : files filename = some binFile) (hsize : 1024 ≤ f_size binFile)
    (hfit : f_size binFile ≤ length) :
    ∃ res evs clk', flash_firmware c e files filename clk = some (res, evs, clk') ∧
      ((∀ ev ∈ evs, ev.read_short = false) →
        ∀ pre a buffer len st post,
          evs = pre ++ Event.nvm_write_buffer a buffer len st :: post →
          ∀ x, a ≤ x → x < a + c.NVMCTRL_PAGE_SIZE →
            ∃ ev ∈ pre, ev.erases_row c (x / c.NVMCTRL_ROW_SIZE) = true) := by
  rcases flash_firmware_opened c e files filename clk binFile hopen hsize with
    ⟨her, hff⟩ | ⟨her, wr, hw, hff⟩
  · refine ⟨_, _, _, hff, ?_⟩
    intro _ pre a buffer len st post hsplit
    exfalso
    have hmem : Event.nvm_write_buffer a buffer len st ∈
        attempt_events filename (Event.f_open filename FR_OK ::
          (erase_loop c e filename (rows_to_erase c (f_size binFile)) 0 clk).2.1) false := by
      rw [hsplit]; simp
    rw [mem_attempt_events] at hmem
    rcases hmem with h | h | h
    · cases h
    · rw [List.mem_cons] at h
      rcases h with h | h
      · cases h
      · have := (erase_loop_kinds c e filename _ _ _ _ h).1
        simp [Event.is_write] at this
    · cases h
  · refine ⟨_, _, _, hff, ?_⟩
    intro hall pre a buffer len st post hsplit x hlo hhi
    obtain ⟨hevs, _⟩ := erase_loop_ok c e filename _ _ _ her
    have hshape : attempt_events filename (Event.f_open filename FR_OK ::
          ((erase_loop c e filename (rows_to_erase c (f_size binFile)) 0 clk).2.1 ++ wr.2.1
            ++ if wr.1 = true then [Event.f_close filename] else [])) wr.1 =
        ([Event.flash_firmware filename, Event.f_open filename FR_OK] ++
          (erase_loop c e filename (rows_to_erase c (f_size binFile)) 0 clk).2.1) ++
        (wr.2.1 ++ ((if wr.1 = true then [Event.f_close filename] else []) ++
          [Event.flash_firmware_returns filename wr.1])) := by
      simp [attempt_events]
    rw [hshape] at hsplit hall
    -- the events before the write loop are no page writes
    have hfront : ∀ ev ∈ [Event.flash_firmware filename, Event.f_open filename FR_OK] ++
        (erase_loop c e filename (rows_to_erase c (f_size binFile)) 0 clk).2.1,
        ev ≠ Event.nvm_write_buffer a buffer len st := by
      intro ev hev heq
      rw [List.mem_append] at hev
      rcases hev with h | h
      · rw [heq] at h; simp at h
      · have := (erase_loop_kinds c e filename _ _ _ _ h).1
        rw [heq] at this
        simp [Event.is_write] at this
    obtain ⟨pre', hpre'⟩ := split_after_others _ _ _ pre post hsplit hfront
    -- the write is one of the write loop
    have hmem : Event.nvm_write_buffer a buffer len st ∈ wr.2.1 := by
      have h0 : Event.nvm_write_buffer a buffer len st ∈
          ([Event.flash_firmware filename, Event.f_open filename FR_OK] ++
            (erase_loop c e filename (rows_to_erase c (f_size binFile)) 0 clk).2.1) ++
          (wr.2.1 ++ ((if wr.1 = true then [Event.f_close filename] else []) ++
            [Event.flash_firmware_returns filename wr.1])) := by
        rw [hsplit]; simp
      rw [List.mem_append] at h0
      rcases h0 with h | h
      · exact absurd rfl (hfront _ h)
      · rw [List.mem_append] at h
        rcases h with h | h
        · exact h
        · exfalso
          rw [List.mem_append] at h
          rcases h with h | h
          · split at h
            · simp at h
            · cases h
          · simp at h
    obtain ⟨j, hj1, hj2⟩ := write_loop_addrs c e filename binFile (f_size binFile)
      (f_size_lt binFile) _ _ _ _ wr hw (Nat.zero_le _) (by omega)
      (fun ev hev => hall ev (by
        rw [List.mem_append]; right
        rw [List.mem_append]; left
        exact hev))
      a buffer len st hmem
    obtain ⟨i, hi, hrow⟩ := erased_row_exists c (f_size binFile) j x hc halign (by omega)
      (by omega) (by omega) (by omega)
    refine ⟨Event.nvm_erase_row (erase_addr c i) STATUS_OK, ?_, ?_⟩
    · rw [hpre', List.mem_append]
      left
      rw [List.mem_append]
      right
      rw [hevs, List.mem_map]
      exact ⟨i, List.mem_range.mpr hi, by rw [Nat.zero_add]⟩
    · simp [Event.erases_row, hrow]

theorem pages_written_lie_in_erased_rows_witness :
    samd21.wf ∧ samd21.NVMCTRL_ROW_SIZE ∣ APP_START_ADDRESS ∧
    APP_START_ADDRESS + 0x2E000 ≤ 4294967296 ∧
    card none (some (stored (List.replicate 1024 7))) none PRIMARY_PATH
      = some (stored (List.replicate 1024 7)) ∧
    1024 ≤ f_size (stored (List.replicate 1024 7)) ∧
    f_size (stored (List.replicate 1024 7)) ≤ 0x2E000 ∧
    (∃ res evs clk', flash_firmware samd21 good_env
        (card none (some (stored (List.replicate 1024 7))) none) PRIMARY_PATH 0
          = some (res, evs, clk') ∧
      ((∀ ev ∈ evs, ev.read_short = false) →
        ∀ pre a buffer len st post,
          evs = pre ++ Event.nvm_write_buffer a buffer len st :: post →
          ∀ x, a ≤ x → x < a + samd21.NVMCTRL_PAGE_SIZE →
            ∃ ev ∈ pre, ev.erases_row samd21 (x / samd21.NVMCTRL_ROW_SIZE) = true)) ∧
    (flash_firmware samd21 good_env
        (card none (some (stored (List.replicate 1024 7))) none) PRIMARY_PATH 0).map
      (fun r => (r.1, no_failure r.2.1, (r.2.1.filter Event.is_erase).length,
        (r.2.1.filter Event.is_write).length)) = some (true, true, 4, 16) :=
  have hsize : 1024 ≤ f_size (stored (List.replicate 1024 7)) := by
    simp only [f_size, stored, List.length_replicate]
    decide
  have hfit : f_size (stored (List.replicate 1024 7)) ≤ 0x2E000 := by
    simp only [f_size, stored, List.length_replicate]
    decide
  have hwf : samd21.wf := by
    unfold Chip.wf samd21
    exact ⟨by decide, ⟨4, rfl⟩, by decide, by decide⟩
  have halign : samd21.NVMCTRL_ROW_SIZE ∣ APP_START_ADDRESS := ⟨288, rfl⟩
  ⟨hwf, halign, by decide, rfl, hsize, hfit,
    pages_written_lie_in_erased_rows samd21 good_env
      (card none (some (stored (List.replicate 1024 7))) none) PRIMARY_PATH 0
      (stored (List.replicate 1024 7)) 0x2E000 hwf halign (by decide) rfl hsize hfit,
    by decide!⟩

/-! ## Bounds, validation and failures of a flashing attempt -/

/-- C11 (as stated, refuted): a file of `0x2E001` bytes, one byte more than the flash
region of the SAMD21 holds, is accepted; the erase loop erases the row at `0x40000`,
which starts at the end of the region `[0x12000, 0x40000)`. -/
theorem erase_past_region_counterexample :
    1024 ≤ f_size oversized_image ∧
    (∃ evs, (flash_firmware samd21 good_env (card none (some oversized_image) none)
        PRIMARY_PATH 0).map (fun r => r.2.1) = some evs ∧
      Event.nvm_erase_row 0x40000 STATUS_OK ∈ evs) ∧
    ¬ (0x40000 + samd21.NVMCTRL_ROW_SIZE ≤ APP_START_ADDRESS + samd21_region_length) :=
  ⟨by decide,
    ⟨((flash_firmware samd21 good_env (card none (some oversized_image) none)
        PRIMARY_PATH 0).map (fun r => r.2.1)).getD [], by decide!, by decide!⟩,
    by decide⟩

/-- C11 (amended): for a file that opens and whose size `F` satisfies
`1024 ≤ F ≤ length`, where the flash region `[APP_START_ADDRESS,
APP_START_ADDRESS + length)` starts on a row boundary, is a whole number of rows long
and lies in the 32-bit address space: every `nvm_erase_row` call of the attempt targets
a row inside the region, and, when every read that returns `FR_OK` delivers the number
of bytes requested, every `nvm_write_buffer` call targets a page inside the region. -/
theorem flash_calls_stay_in_region (c : Chip) (e : Env) (files : Files)
    (filename : String) (clk : Nat) (binFile : ImageFile) (length : Nat)
    (hc : c.wf) (halign : c.NVMCTRL_ROW_SIZE ∣ APP_START_ADDRESS)
    (hrows : c.NVMCTRL_ROW_SIZE ∣ length)
    (hregion : APP_START_ADDRESS + length ≤ 4294967296)
    (hopen : files filename = some binFile) (hsize : 1024 ≤ f_size binFile)
    (hfit : f_size binFile ≤ length) :
    ∃ res evs clk', flash_firmware c e files filename clk = some (res, evs, clk') ∧
      (∀ a st, Event.nvm_erase_row a st ∈ evs →
        APP_START_ADDRESS ≤ a ∧
        a + c.NVMCTRL_ROW_SIZE ≤ APP_START_ADDRESS + length) ∧
      ((∀ ev ∈ evs, ev.read_short = false) →
        ∀ a buffer len st, Event.nvm_write_buffer a buffer len st ∈ evs →
          APP_START_ADDRESS ≤ a ∧ a + len ≤ APP_START_ADDRESS + length) := by
  have herase : ∀ a st, Event.nvm_erase_row a st ∈
      (erase_loop c e filename (rows_to_erase c (f_size binFile)) 0 clk).2.1 →
      APP_START_ADDRESS ≤ a ∧ a + c.NVMCTRL_ROW_SIZE ≤ APP_START_ADDRESS + length := by
    intro a st hmem
    obtain ⟨k, hk, ha⟩ := erase_loop_addrs c e filename _ _ _ a st hmem
    rw [Nat.zero_add] at ha
    obtain ⟨h1, h2⟩ := erased_row_in_region c (f_size binFile) length k hc halign hrows
      hregion hfit hk
    rw [ha, h1]
    exact ⟨by omega, h2⟩
  rcases flash_firmware_opened c e files filename clk binFile hopen hsize with
    ⟨_, hff⟩ | ⟨_, wr, hw, hff⟩
  · refine ⟨_, _, _, hff, ?_, ?_⟩
    · intro a st hmem
      rw [erase_mem_attempt] at hmem
      exact herase a st hmem
    · intro _ a buffer len st hmem
      rw [write_mem_attempt] at hmem
      exact absurd hmem (write_not_mem_erase_loop c e filename _ _ _ a buffer len st)
  · refine ⟨_, _, _, hff, ?_, ?_⟩
    · intro a st hmem
      rw [erase_mem_attempt, List.mem_append, List.mem_append] at hmem
      rcases hmem with (h | h) | h
      · exact herase a st h
      · exact absurd h (erase_not_mem_write_loop c e filename binFile _ _ _ _ _ wr hw a st)
      · exact absurd h (erase_not_mem_close filename wr.1 a st)
    · intro hall a buffer len st hmem
      rw [write_mem_attempt, List.mem_append, List.mem_append] at hmem
      rcases hmem with (h | h) | h
      · exact absurd h (write_not_mem_erase_loop c e filename _ _ _ a buffer len st)
      · obtain ⟨j, hj1, hj2⟩ := write_loop_addrs c e filename binFile (f_size binFile)
          (f_size_lt binFile) _ _ _ _ wr hw (Nat.zero_le _) (by omega)
          (fun ev hev => hall ev (by
            rw [mem_attempt_events]
            right; left
            simp only [List.mem_cons, List.mem_append]
            exact Or.inr (Or.inl (Or.inr hev)))) a buffer len st h
        have hlen := (write_loop_page c e filename binFile _ _ _ _ _ wr hw a buffer len st h).1
        have hend := page_end_le_rows c (f_size binFile) j hc (by omega)
        obtain ⟨t, ht⟩ := hrows
        have hle := ceil_le_of_le_mul (f_size binFile) c.NVMCTRL_ROW_SIZE t hc.2.2.1
          (by rw [← ht]; exact hfit)
        have hmul : c.NVMCTRL_ROW_SIZE *
            ((f_size binFile + c.NVMCTRL_ROW_SIZE - 1) / c.NVMCTRL_ROW_SIZE) ≤
            c.NVMCTRL_ROW_SIZE * t := Nat.mul_le_mul_left _ hle
        have hsucc : (j + 1) * c.NVMCTRL_PAGE_SIZE =
            j * c.NVMCTRL_PAGE_SIZE + c.NVMCTRL_PAGE_SIZE := Nat.succ_mul _ _
        rw [hlen, hj1]
        constructor <;> omega
      · exact absurd h (write_not_mem_close filename wr.1 a buffer len st)

theorem flash_calls_stay_in_region_witness :
    samd21.wf ∧ samd21.NVMCTRL_ROW_SIZE ∣ APP_START_ADDRESS ∧
    samd21.NVMCTRL_ROW_SIZE ∣ samd21_region_length ∧
    APP_START_ADDRESS + samd21_region_length ≤ 4294967296 ∧
    card none (some (stored (List.replicate 1024 7))) none PRIMARY_PATH
      = some (stored (List.replicate 1024 7)) ∧
    1024 ≤ f_size (stored (List.replicate 1024 7)) ∧
    f_size (stored (List.replicate 1024 7)) ≤ samd21_region_length ∧
    (∃ res evs clk', flash_firmware samd21 good_env
        (card none (some (stored (List.replicate 1024 7))) none) PRIMARY_PATH 0
          = some (res, evs, clk') ∧
      (∀ a st, Event.nvm_erase_row a st ∈ evs →
        APP_START_ADDRESS ≤ a ∧
        a + samd21.NVMCTRL_ROW_SIZE ≤ APP_START_ADDRESS + samd21_region_length) ∧
      ((∀ ev ∈ evs, ev.read_short = false) →
        ∀ a buffer len st, Event.nvm_write_buffer a buffer len st ∈ evs →
          APP_START_ADDRESS ≤ a ∧ a + len ≤ APP_START_ADDRESS + samd21_region_length)) ∧
    (flash_firmware samd21 good_env
        (card none (some (stored (List.replicate 1024 7))) none) PRIMARY_PATH 0).map
      (fun r => (r.1, no_failure r.2.1, erase_addrs r.2.1, ((writes r.2.1).map fun w => w.1)))
      = some (true, true, [0x12000, 0x12100, 0x12200, 0x12300],
          (List.range 16).map fun k => 0x12000 + 64 * k) :=
  have hsize : 1024 ≤ f_size (stored (List.replicate 1024 7)) := by
    simp only [f_size, stored, List.length_replicate]
    decide
  have hfit : f_size (stored (List.replicate 1024 7)) ≤ samd21_region_length := by
    simp only [f_size, stored, List.length_replicate]
    decide
  have hwf : samd21.wf := by
    unfold Chip.wf samd21
    exact ⟨by decide, ⟨4, rfl⟩, by decide, by decide⟩
  have halign : samd21.NVMCTRL_ROW_SIZE ∣ APP_START_ADDRESS := ⟨288, rfl⟩
  have hrows : samd21.NVMCTRL_ROW_SIZE ∣ samd21_region_length := ⟨736, rfl⟩
  ⟨hwf, halign, hrows, by decide, rfl, hsize, hfit,
    flash_calls_stay_in_region samd21 good_env
      (card none (some (stored (List.replicate 1024 7))) none) PRIMARY_PATH 0
      (stored (List.replicate 1024 7)) samd21_region_length hwf halign hrows (by decide)
      rfl hsize hfit,
    by decide!⟩

/-- C12: `flash_firmware` rejects the image before any flash or read call, that is,
returns `false` without a single `nvm_erase_row`, `nvm_write_buffer` or `f_read` call,
exactly when the file cannot be opened or its size is below 1024.  (So a file of 1023
bytes is rejected and a file of 1024 bytes is not.) -/
theorem rejected_iff_unopened_or_small (c : Chip) (e : Env) (files : Files)
    (filename : String) (clk : Nat) :
    ∃ res evs clk', flash_firmware c e files filename clk = some (res, evs, clk') ∧
      ((files filename = none ∨
          ∃ binFile, files filename = some binFile ∧ f_size binFile < 1024) ↔
        (res = false ∧
          ∀ ev ∈ evs, ev.is_erase = false ∧ ev.is_write = false ∧ ev.is_read = false)) := by
  rcases flash_firmware_cases c e files filename clk with
    ⟨hn, hff⟩ | ⟨bf, hbf, hlt, hff⟩ | ⟨bf, hbf, hge, her, hff⟩ |
      ⟨bf, wr, hbf, hge, her, hw, hff⟩
  · refine ⟨_, _, _, hff, ?_⟩
    constructor
    · intro _
      refine ⟨rfl, ?_⟩
      intro ev hev
      simp only [attempt_events, List.mem_cons, List.mem_append, List.mem_singleton,
        List.not_mem_nil, or_false] at hev
      rcases hev with h | h | h <;> rw [h] <;> exact ⟨rfl, rfl, rfl⟩
    · intro _
      exact Or.inl hn
  · refine ⟨_, _, _, hff, ?_⟩
    constructor
    · intro _
      refine ⟨rfl, ?_⟩
      intro ev hev
      simp only [attempt_events, List.mem_cons, List.mem_append, List.mem_singleton,
        List.not_mem_nil, or_false] at hev
      rcases hev with h | (h | h) | h <;> rw [h] <;> exact ⟨rfl, rfl, rfl⟩
    · intro _
      exact Or.inr ⟨bf, hbf, hlt⟩
  · refine ⟨_, _, _, hff, ?_⟩
    constructor
    · rintro (h | ⟨bf', hbf', hlt⟩)
      · rw [hbf] at h; cases h
      · rw [hbf] at hbf'
        have hsame : bf = bf' := Option.some.inj hbf'
        rw [← hsame] at hlt
        omega
    · rintro ⟨_, hall⟩
      exfalso
      obtain ⟨ev, hev, hf⟩ := erase_loop_fail c e filename _ _ _ her
      have h1 := (hall ev (by
        rw [mem_attempt_events]
        exact Or.inr (Or.inl (List.mem_cons_of_mem _ hev)))).1
      cases ev <;> simp [Event.erase_failed] at hf
      simp [Event.is_erase] at h1
  · refine ⟨_, _, _, hff, ?_⟩
    constructor
    · rintro (h | ⟨bf', hbf', hlt⟩)
      · rw [hbf] at h; cases h
      · rw [hbf] at hbf'
        have hsame : bf = bf' := Option.some.inj hbf'
        rw [← hsame] at hlt
        omega
    · rintro ⟨_, hall⟩
      exfalso
      obtain ⟨ev, hev, hread⟩ := write_loop_first_read c e filename bf _ _ _ _ _ wr hw
        (by omega)
      have h1 := (hall ev (by
        rw [mem_attempt_events]
        right; left
        simp only [List.mem_cons, List.mem_append]
        exact Or.inr (Or.inl (Or.inr hev)))).2.2
      rw [h1] at hread
      cases hread

/-- C13: when an `nvm_erase_row` call of an attempt returns a status other than
`STATUS_OK`, the calls before it are the successful erases of the rows `0 .. k - 1` (no
read and no page write), the failing call is the erase of row `k`, the only call after
it is the closing of the file, and `flash_firmware` returns `false`. -/
theorem erase_fails_fast (c : Chip) (e : Env) (files : Files) (filename : String)
    (clk : Nat) :
    ∃ res evs clk', flash_firmware c e files filename clk = some (res, evs, clk') ∧
      ∀ pre a st post, evs = pre ++ Event.nvm_erase_row a st :: post → st ≠ STATUS_OK →
        res = false ∧
        (∃ k, pre = [Event.flash_firmware filename, Event.f_open filename FR_OK] ++
            (List.range k).map (erase_ok_event c) ∧
          a = erase_addr c k) ∧
        post = [Event.f_close filename, Event.flash_firmware_returns filename false] := by
  have hfailed : ∀ a st, st ≠ STATUS_OK → (Event.nvm_erase_row a st).erase_failed = true := by
    intro a st hst
    simp [Event.erase_failed, hst]
  rcases flash_firmware_cases c e files filename clk with
    ⟨hn, hff⟩ | ⟨bf, hbf, hlt, hff⟩ | ⟨bf, hbf, hge, her, hff⟩ |
      ⟨bf, wr, hbf, hge, her, hw, hff⟩
  · refine ⟨_, _, _, hff, ?_⟩
    intro pre a st post hsplit _
    exfalso
    have hmem : Event.nvm_erase_row a st ∈
        attempt_events filename [Event.f_open filename FR_NO_FILE] false := by
      rw [hsplit]; simp
    simp [attempt_events] at hmem
  · refine ⟨_, _, _, hff, ?_⟩
    intro pre a st post hsplit _
    exfalso
    have hmem : Event.nvm_erase_row a st ∈
        attempt_events filename [Event.f_open filename FR_OK, Event.f_close filename]
          false := by
      rw [hsplit]; simp
    simp [attempt_events] at hmem
  · refine ⟨_, _, _, hff, ?_⟩
    intro pre a st post hsplit hst
    obtain ⟨k, st', _, hne, hevs⟩ := erase_loop_fail_shape c e filename _ _ _ her
    have hshape : attempt_events filename (Event.f_open filename FR_OK ::
          (erase_loop c e filename (rows_to_erase c (f_size bf)) 0 clk).2.1) false =
        ([Event.flash_firmware filename, Event.f_open filename FR_OK] ++
          (List.range k).map (erase_ok_event c)) ++
        Event.nvm_erase_row (erase_addr c k) st' ::
          [Event.f_close filename, Event.flash_firmware_returns filename false] := by
      rw [hevs]
      simp [attempt_events]
    rw [hshape] at hsplit
    obtain ⟨h1, h2, h3⟩ := split_unique Event.erase_failed _ _ _ _ _ _ hsplit
      (hfailed a st hst) (by
        intro ev hev
        simp only [List.mem_append, List.mem_cons, List.mem_singleton, List.not_mem_nil,
          or_false, List.mem_map] at hev
        rcases hev with (h | h) | ⟨d, _, h⟩
        · rw [h]; rfl
        · rw [h]; rfl
        · rw [← h]; rfl) (by
        intro ev hev
        simp only [List.mem_cons, List.mem_singleton, List.not_mem_nil, or_false] at hev
        rcases hev with h | h <;> rw [h] <;> rfl)
    simp only [Event.nvm_erase_row.injEq] at h2
    exact ⟨rfl, ⟨k, h1, h2.1⟩, h3⟩
  · refine ⟨_, _, _, hff, ?_⟩
    intro pre a st post hsplit hst
    exfalso
    have hmem : Event.nvm_erase_row a st ∈ attempt_events filename
        (Event.f_open filename FR_OK ::
          ((erase_loop c e filename (rows_to_erase c (f_size bf)) 0 clk).2.1
            ++ wr.2.1 ++ if wr.1 = true then [Event.f_close filename] else [])) wr.1 := by
      rw [hsplit]; simp
    rw [erase_mem_attempt, List.mem_append, List.mem_append] at hmem
    rcases hmem with (h | h) | h
    · rw [(erase_loop_ok c e filename _ _ _ her).1, List.mem_map] at h
      obtain ⟨d, _, heq⟩ := h
      simp only [Event.nvm_erase_row.injEq] at heq
      exact hst heq.2.symm
    · exact erase_not_mem_write_loop c e filename bf _ _ _ _ _ wr hw a st h
    · exact erase_not_mem_close filename wr.1 a st h

/-- C14: when an `f_read` call of an attempt returns another result than `FR_OK`, or an
`nvm_write_buffer` call another status than `STATUS_OK`, the only call after it is the
closing of the file (no further read, no further page write), and `flash_firmware`
returns `false`. -/
theorem programming_aborts_on_first_failure (c : Chip) (e : Env) (files : Files)
    (filename : String) (clk : Nat) :
    ∃ res evs clk', flash_firmware c e files filename clk = some (res, evs, clk') ∧
      ∀ pre w post, evs = pre ++ w :: post →
        (w.read_failed = true ∨ w.write_failed = true) →
        res = false ∧
        post = [Event.f_close filename, Event.flash_firmware_returns filename false] := by
  have hP : ∀ w : Event, (w.read_failed = true ∨ w.write_failed = true) →
      (w.read_failed || w.write_failed) = true := by
    intro w h
    rcases h with h | h <;> simp [h]
  -- a failed read or write is none of the events outside the write loop
  have hnot : ∀ (w : Event) (l : List Event), (w.read_failed || w.write_failed) = true →
      w ∈ l → (∀ ev ∈ l, (ev.read_failed || ev.write_failed) = false) → False := by
    intro w l hw hmem hall
    rw [hall w hmem] at hw
    cases hw
  rcases flash_firmware_cases c e files filename clk with
    ⟨hn, hff⟩ | ⟨bf, hbf, hlt, hff⟩ | ⟨bf, hbf, hge, her, hff⟩ |
      ⟨bf, wr, hbf, hge, her, hw, hff⟩
  · refine ⟨_, _, _, hff, ?_⟩
    intro pre w post hsplit hfail
    exfalso
    have hmem : w ∈ pre ++ w :: post := by simp
    rw [← hsplit] at hmem
    refine hnot w _ (hP w hfail) hmem ?_
    intro ev hev
    simp only [attempt_events, List.mem_cons, List.mem_append, List.mem_singleton,
      List.not_mem_nil, or_false] at hev
    rcases hev with h | h | h <;> rw [h] <;> rfl
  · refine ⟨_, _, _, hff, ?_⟩
    intro pre w post hsplit hfail
    exfalso
    have hmem : w ∈ pre ++ w :: post := by simp
    rw [← hsplit] at hmem
    refine hnot w _ (hP w hfail) hmem ?_
    intro ev hev
    simp only [attempt_events, List.mem_cons, List.mem_append, List.mem_singleton,
      List.not_mem_nil, or_false] at hev
    rcases hev with h | (h | h) | h <;> rw [h] <;> rfl
  · refine ⟨_, _, _, hff, ?_⟩
    intro pre w post hsplit hfail
    exfalso
    have hmem : w ∈ pre ++ w :: post := by simp
    rw [← hsplit] at hmem
    refine hnot w _ (hP w hfail) hmem ?_
    intro ev hev
    rw [mem_attempt_events, List.mem_cons] at hev
    rcases hev with h | (h | h) | h
    · rw [h]; rfl
    · rw [h]; rfl
    · have := erase_loop_kinds c e filename _ _ _ ev h
      simp [this.2.1, this.2.2.1]
    · rw [h]; rfl
  · refine ⟨_, _, _, hff, ?_⟩
    intro pre w post hsplit hfail
    have hshape : attempt_events filename (Event.f_open filename FR_OK ::
          ((erase_loop c e filename (rows_to_erase c (f_size bf)) 0 clk).2.1 ++ wr.2.1
            ++ if wr.1 = true then [Event.f_close filename] else [])) wr.1 =
        ([Event.flash_firmware filename, Event.f_open filename FR_OK] ++
          (erase_loop c e filename (rows_to_erase c (f_size bf)) 0 clk).2.1) ++
        (wr.2.1 ++ ((if wr.1 = true then [Event.f_close filename] else []) ++
          [Event.flash_firmware_returns filename wr.1])) := by
      simp [attempt_events]
    rw [hshape] at hsplit
    obtain ⟨pre', _, hrest⟩ := split_after_front
      (fun ev => ev.read_failed || ev.write_failed) w _ _ _ _ hsplit (hP w hfail) (by
        intro ev hev
        simp only [List.mem_append, List.mem_cons, List.mem_singleton, List.not_mem_nil,
          or_false] at hev
        rcases hev with (h | h) | h
        · rw [h]; rfl
        · rw [h]; rfl
        · have := erase_loop_kinds c e filename _ _ _ ev h
          simp [this.2.1, this.2.2.1])
    obtain ⟨post', hbody, hpost⟩ := split_before_others
      (fun ev => ev.read_failed || ev.write_failed) w _ _ _ _ hrest (hP w hfail) (by
        intro ev hev
        rw [List.mem_append] at hev
        rcases hev with h | h
        · split at h
          · rw [List.mem_singleton] at h; rw [h]; rfl
          · cases h
        · rw [List.mem_singleton] at h; rw [h]; rfl)
    obtain ⟨hres, hclose⟩ := write_loop_abort c e filename bf _ _ _ _ _ wr hw
      pre' w post' hbody (hP w hfail)
    refine ⟨hres, ?_⟩
    rw [hpost, hclose, hres]
    rfl

theorem rejected_iff_unopened_or_small_witness :
    (flash_firmware samd21 good_env
        (card (some flag_file) (some (stored (List.replicate 1023 7))) none)
        PRIMARY_PATH 0).map (fun r => (r.1, r.2.1))
      = some (false, [Event.flash_firmware PRIMARY_PATH, Event.f_open PRIMARY_PATH FR_OK,
          Event.f_close PRIMARY_PATH, Event.flash_firmware_returns PRIMARY_PATH false]) ∧
    ∃ res evs clk', flash_firmware samd21 good_env
        (card (some flag_file) (some (stored (List.replicate 1023 7))) none) PRIMARY_PATH 0
        = some (res, evs, clk') ∧
      ((card (some flag_file) (some (stored (List.replicate 1023 7))) none PRIMARY_PATH = none ∨
          ∃ binFile, card (some flag_file) (some (stored (List.replicate 1023 7))) none
            PRIMARY_PATH = some binFile ∧ f_size binFile < 1024) ↔
        (res = false ∧
          ∀ ev ∈ evs, ev.is_erase = false ∧ ev.is_write = false ∧ ev.is_read = false)) :=
  ⟨by decide!,
    rejected_iff_unopened_or_small samd21 good_env
      (card (some flag_file) (some (stored (List.replicate 1023 7))) none) PRIMARY_PATH 0⟩

theorem erase_fails_fast_witness :
    (flash_firmware samd21 (erase_fail_env 0x12200)
        (card (some flag_file) (some (stored (List.replicate 1024 7))) none)
        PRIMARY_PATH 0).map (fun r => (r.1, r.2.1))
      = some (false, [Event.flash_firmware PRIMARY_PATH, Event.f_open PRIMARY_PATH FR_OK,
          Event.nvm_erase_row 0x12000 STATUS_OK, Event.nvm_erase_row 0x12100 STATUS_OK,
          Event.nvm_erase_row 0x12200 STATUS_ERR_DENIED,
          Event.f_close PRIMARY_PATH, Event.flash_firmware_returns PRIMARY_PATH false]) ∧
    ∃ res evs clk', flash_firmware samd21 (erase_fail_env 0x12200)
        (card (some flag_file) (some (stored (List.replicate 1024 7))) none) PRIMARY_PATH 0
        = some (res, evs, clk') ∧
      ∀ pre a st post, evs = pre ++ Event.nvm_erase_row a st :: post → st ≠ STATUS_OK →
        res = false ∧
        (∃ k, pre = [Event.flash_firmware PRIMARY_PATH, Event.f_open PRIMARY_PATH FR_OK] ++
            (List.range k).map (erase_ok_event samd21) ∧
          a = erase_addr samd21 k) ∧
        post = [Event.f_close PRIMARY_PATH, Event.flash_firmware_returns PRIMARY_PATH false] :=
  ⟨by decide!,
    erase_fails_fast samd21 (erase_fail_env 0x12200)
      (card (some flag_file) (some (stored (List.replicate 1024 7))) none) PRIMARY_PATH 0⟩

theorem programming_aborts_on_first_failure_witness :
    (flash_firmware samd21 (write_limit_env 0x12080)
        (card (some flag_file) (some (stored (List.replicate 1024 7))) none)
        PRIMARY_PATH 0).map
      (fun r => (r.1, (r.2.1.filter Event.is_write).length, r.2.1.drop (r.2.1.length - 3)))
      = some (false, 3, [Event.nvm_write_buffer 0x12080 (List.replicate 64 7) 64
            STATUS_ERR_DENIED,
          Event.f_close PRIMARY_PATH, Event.flash_firmware_returns PRIMARY_PATH false]) ∧
    ∃ res evs clk', flash_firmware samd21 (write_limit_env 0x12080)
        (card (some flag_file) (some (stored (List.replicate 1024 7))) none) PRIMARY_PATH 0
        = some (res, evs, clk') ∧
      ∀ pre w post, evs = pre ++ w :: post →
        (w.read_failed = true ∨ w.write_failed = true) →
        res = false ∧
        post = [Event.f_close PRIMARY_PATH, Event.flash_firmware_returns PRIMARY_PATH false] :=
  ⟨by decide!,
    programming_aborts_on_first_failure samd21 (write_limit_env 0x12080)
      (card (some flag_file) (some (stored (List.replicate 1024 7))) none) PRIMARY_PATH 0⟩

/-! ## Mounting and hand-off -/

/-- C15 (as stated, refuted): when `f_mount` returns the error `FR_NOT_READY`,
`StartFilesystemAndTest` returns `true`; `main` checks the flag and launches the
application, without delay and reset. -/
theorem mount_error_not_fatal_counterexample :
    not_ready_env.f_mount ≠ FR_OK ∧
    (StartFilesystemAndTest not_ready_env).1 = true ∧
    (main samd21 not_ready_env (card none none none)).map (fun out => out.trace) =
      some ([Event.SdCard_Initiate CTRL_GOOD, Event.f_mount FR_NOT_READY, Event.delay_ms 1000,
        Event.f_open FLAG_PATH FR_NO_FILE] ++ exit_bootloader samd21) := by
  decide

/-- C15 (amended): whenever `SdCard_Initiate` does not return `CTRL_GOOD`, or `f_mount`
returns `FR_INVALID_DRIVE`, `StartFilesystemAndTest` returns `false` and `main` waits
`delay_cycles_ms(5000)` and resets the device; the trace of the boot holds no opening of
the flag file, no flash or update step and no application launch, and the card is left
as it was. -/
theorem mount_failure_resets (c : Chip) (e : Env) (files : Files)
    (h : e.SdCard_Initiate ≠ CTRL_GOOD ∨ e.f_mount = FR_INVALID_DRIVE) :
    (StartFilesystemAndTest e).1 = false ∧
    ∃ out pre, main c e files = some out ∧
      out.trace = pre ++ [Event.delay_cycles_ms 5000, Event.NVIC_SystemReset] ∧
      (∀ ev ∈ out.trace, ev.is_update_action = false ∧ ev.is_launch = false ∧
        ev.is_open_of FLAG_PATH = false) ∧
      out.files = files := by
  by_cases hsd : e.SdCard_Initiate = CTRL_GOOD
  · have hmnt : e.f_mount = FR_INVALID_DRIVE := by
      rcases h with h | h
      · exact absurd hsd h
      · exact h
    have hst : StartFilesystemAndTest e =
        (false, [Event.SdCard_Initiate CTRL_GOOD, Event.f_mount FR_INVALID_DRIVE]) := by
      unfold StartFilesystemAndTest
      simp [hsd, hmnt]
    refine ⟨by rw [hst], _, [Event.SdCard_Initiate CTRL_GOOD, Event.f_mount FR_INVALID_DRIVE],
      by unfold main; rw [hst]; rfl, rfl, ?_, rfl⟩
    intro ev hev
    simp only [List.cons_append, List.nil_append, List.mem_cons, List.mem_singleton,
      List.not_mem_nil, or_false] at hev
    rcases hev with h | h | h | h <;> rw [h] <;> exact ⟨rfl, rfl, rfl⟩
  · have hst : StartFilesystemAndTest e = (false, [Event.SdCard_Initiate e.SdCard_Initiate]) := by
      unfold StartFilesystemAndTest
      simp [hsd]
    refine ⟨by rw [hst], _, [Event.SdCard_Initiate e.SdCard_Initiate],
      by unfold main; rw [hst]; rfl, rfl, ?_, rfl⟩
    intro ev hev
    simp only [List.cons_append, List.nil_append, List.mem_cons, List.mem_singleton,
      List.not_mem_nil, or_false] at hev
    rcases hev with h | h | h <;> rw [h] <;> exact ⟨rfl, rfl, rfl⟩

theorem mount_failure_resets_witness :
    (invalid_drive_env.SdCard_Initiate = CTRL_GOOD ∧
      invalid_drive_env.f_mount = FR_INVALID_DRIVE) ∧
    (StartFilesystemAndTest invalid_drive_env).1 = false ∧
    ∃ out pre, main samd21 invalid_drive_env
        (card (some flag_file) none none) = some out ∧
      out.trace = pre ++ [Event.delay_cycles_ms 5000, Event.NVIC_SystemReset] ∧
      (∀ ev ∈ out.trace, ev.is_update_action = false ∧ ev.is_launch = false ∧
        ev.is_open_of FLAG_PATH = false) ∧
      out.files = card (some flag_file) none none :=
  ⟨⟨rfl, rfl⟩,
    mount_failure_resets samd21 invalid_drive_env
      (card (some flag_file) none none) (Or.inr rfl)⟩

/-- C20: `jumpToApplication` loads the main stack pointer from the word at
`APP_START_ADDRESS` (`0x12000`), sets the vector table base to `0x12000` (for every
`SCB_VTOR_TBLOFF_Msk` that keeps all address bits from some bit `p ≤ 13` upwards, as the
masks of the Cortex-M cores do, the masking leaves `0x12000` unchanged) and calls the
address stored in the word at `0x12004`; and in every call of `flash_firmware` the first
address passed to `nvm_erase_row` and the first address passed to `nvm_write_buffer`, if
there is one, is that same `APP_START_ADDRESS`. -/
theorem launcher_uses_programmed_base (c : Chip) (e : Env) (files : Files)
    (filename : String) (clk p : Nat) (hp : p ≤ 13)
    (hmask : c.SCB_VTOR_TBLOFF_Msk = 4294967296 - 2 ^ p) :
    APP_START_ADDRESS = 0x12000 ∧
    jumpToApplication c =
      [Event.set_MSP 0x12000, Event.set_VTOR 0x12000, Event.applicationCodeEntry 0x12004] ∧
    ∃ res evs clk', flash_firmware c e files filename clk = some (res, evs, clk') ∧
      (∀ a, (erase_addrs evs).head? = some a → a = APP_START_ADDRESS) ∧
      (∀ w, (writes evs).head? = some w → w.1 = APP_START_ADDRESS) := by
  refine ⟨rfl, ?_, ?_⟩
  · unfold jumpToApplication
    rw [hmask, tbloff_mask_keeps_base p hp]
    rfl
  · obtain ⟨res, evs, clk', hff, her, hwr⟩ := flash_firmware_nvm c e files filename clk
    refine ⟨res, evs, clk', hff, ?_, ?_⟩
    · intro a ha
      rcases her with h | ⟨bf, _, _, h, _⟩
      · rw [h] at ha; cases ha
      · rw [h] at ha
        rw [erase_loop_head c e filename _ _ _ a ha, erase_addr_zero]
    · intro w hw
      rcases hwr with h | ⟨bf, clk0, wr, _, _, hloop, _, h⟩
      · rw [h] at hw; cases hw
      · rw [h] at hw
        exact write_loop_head c e filename bf _ _ _ _ _ wr hloop w hw

theorem launcher_uses_programmed_base_witness :
    ((7 ≤ 13 ∧ samd21.SCB_VTOR_TBLOFF_Msk = 4294967296 - 2 ^ 7) ∧
    (flash_firmware samd21 good_env (card (some flag_file)
        (some (stored (List.replicate 1024 7))) none) PRIMARY_PATH 0).map
      (fun r => ((erase_addrs r.2.1).head?, (writes r.2.1).head?.map (fun w => w.1)))
      = some (some 0x12000, some 0x12000)) ∧
    (APP_START_ADDRESS = 0x12000 ∧
    jumpToApplication samd21 =
      [Event.set_MSP 0x12000, Event.set_VTOR 0x12000, Event.applicationCodeEntry 0x12004] ∧
    ∃ res evs clk', flash_firmware samd21 good_env (card (some flag_file)
        (some (stored (List.replicate 1024 7))) none) PRIMARY_PATH 0 = some (res, evs, clk') ∧
      (∀ a, (erase_addrs evs).head? = some a → a = APP_START_ADDRESS) ∧
      (∀ w, (writes evs).head? = some w → w.1 = APP_START_ADDRESS)) :=
  ⟨⟨⟨by decide, by decide⟩, by decide!⟩,
    launcher_uses_programmed_base samd21 good_env
      (card (some flag_file) (some (stored (List.replicate 1024 7))) none) PRIMARY_PATH 0 7
      (by decide) (by decide)⟩

/-- C19 (as stated, refuted): for a file of `2^32 - 0x12000 + 1` bytes every erase
succeeds, `ceil(file_size / ROW_SIZE)` is 16776929, and the erase call of index 16776928
is given address `0`, not `APP_START_ADDRESS + 16776928 * ROW_SIZE = 2^32`: the address
wrapped around in `uint32_t` and is below the region base. -/
theorem erase_addresses_wrap_counterexample :
    ∃ res evs clk', flash_firmware samd21 good_env
        (card (some flag_file) (some wrapping_image) none) PRIMARY_PATH 0
        = some (res, evs, clk') ∧
      (∀ ev ∈ evs, ev.erase_failed = false) ∧
      ceil_div (f_size wrapping_image) samd21.NVMCTRL_ROW_SIZE = 16776929 ∧
      (erase_addrs evs)[16776928]? = some 0 ∧
      APP_START_ADDRESS + 16776928 * samd21.NVMCTRL_ROW_SIZE = 4294967296 ∧
      erase_addrs evs ≠
        (List.range (ceil_div (f_size wrapping_image) samd21.NVMCTRL_ROW_SIZE)).map
          (fun i => APP_START_ADDRESS + i * samd21.NVMCTRL_ROW_SIZE) := by
  have he : good_env.nvm_ok := ⟨fun _ _ => rfl, fun _ _ _ => rfl⟩
  have hopen : card (some flag_file) (some wrapping_image) none PRIMARY_PATH
      = some wrapping_image := rfl
  have hsize : 1024 ≤ f_size wrapping_image := by decide
  obtain ⟨res, evs, clk', hff, haddrs, hok⟩ :=
    flash_firmware_erase_ok samd21 good_env _ PRIMARY_PATH 0 wrapping_image hopen hsize
      (erase_loop_nvm_ok samd21 good_env PRIMARY_PATH he _ _ _)
  have hrows : rows_to_erase samd21 (f_size wrapping_image) = 16776929 := by decide
  have hceil : ceil_div (f_size wrapping_image) samd21.NVMCTRL_ROW_SIZE = 16776929 := by
    decide
  have hidx : (erase_addrs evs)[16776928]? = some 0 := by
    rw [haddrs, hrows, range_map_getElem _ _ _ (by decide)]
    decide
  refine ⟨res, evs, clk', hff, hok, hceil, hidx, by decide, ?_⟩
  intro heq
  rw [heq, hceil, range_map_getElem _ _ _ (by decide)] at hidx
  revert hidx
  decide

/-- C19 (amended): for a file that passed the size check and fits the flash region
(`1024 ≤ file_size ≤ FlashRegion.length`, the region starting on a row boundary and lying
in the 32-bit address space), when all erases of a call of `flash_firmware` succeed, the
addresses passed to `nvm_erase_row` are, in the order of the calls, exactly
`APP_START_ADDRESS + i * NVMCTRL_ROW_SIZE` for `i = 0, 1, ..., rows - 1` with
`rows = ceil(file_size / ROW_SIZE)`, and every one of them is row-aligned. -/
theorem erase_addresses_ascending (c : Chip) (e : Env) (files : Files) (filename : String)
    (clk : Nat) (binFile : ImageFile) (length : Nat)
    (hR : 0 < c.NVMCTRL_ROW_SIZE) (halign : c.NVMCTRL_ROW_SIZE ∣ APP_START_ADDRESS)
    (hregion : APP_START_ADDRESS + length ≤ 4294967296)
    (hopen : files filename = some binFile) (hsize : 1024 ≤ f_size binFile)
    (hfit : f_size binFile ≤ length) :
    ∃ res evs clk', flash_firmware c e files filename clk = some (res, evs, clk') ∧
      ((∀ ev ∈ evs, ev.erase_failed = false) →
        erase_addrs evs =
          (List.range (ceil_div (f_size binFile) c.NVMCTRL_ROW_SIZE)).map
            (fun i => APP_START_ADDRESS + i * c.NVMCTRL_ROW_SIZE) ∧
        ∀ a ∈ erase_addrs evs, c.NVMCTRL_ROW_SIZE ∣ a) := by
  obtain ⟨res, evs, clk', hff, haddrs, hsub, _⟩ :=
    flash_firmware_erases c e files filename clk binFile hopen hsize
  refine ⟨res, evs, clk', hff, ?_⟩
  intro hno
  have hE := erase_loop_ok_of_no_failure c e filename _ 0 clk
    (fun ev hev => hno ev (hsub ev hev))
  have hle : c.NVMCTRL_ROW_SIZE ≤ APP_START_ADDRESS :=
    Nat.le_of_dvd (by decide) halign
  have hrows : rows_to_erase c (f_size binFile) = ceil_div (f_size binFile) c.NVMCTRL_ROW_SIZE :=
    rows_to_erase_eq c _ hR (by omega)
  have hlist : erase_addrs evs =
      (List.range (ceil_div (f_size binFile) c.NVMCTRL_ROW_SIZE)).map
        (fun i => APP_START_ADDRESS + i * c.NVMCTRL_ROW_SIZE) := by
    rw [haddrs, (erase_loop_ok_events c e filename _ clk hE).1, erase_addrs_ok_events, hrows]
    apply List.map_congr_left
    intro k hk
    exact erase_addr_in_file c _ length k hR hregion hfit (List.mem_range.mp hk)
  refine ⟨hlist, ?_⟩
  intro a ha
  rw [hlist, List.mem_map] at ha
  obtain ⟨i, _, hi⟩ := ha
  rw [← hi]
  exact Dvd.dvd.add halign (Dvd.intro_left i rfl)

theorem erase_addresses_ascending_witness :
    ((0 < samd21.NVMCTRL_ROW_SIZE ∧ samd21.NVMCTRL_ROW_SIZE ∣ APP_START_ADDRESS ∧
      APP_START_ADDRESS + samd21_region_length ≤ 4294967296 ∧
      1024 ≤ f_size (stored (List.replicate 1025 7)) ∧
      f_size (stored (List.replicate 1025 7)) ≤ samd21_region_length) ∧
    (flash_firmware samd21 good_env (card (some flag_file)
        (some (stored (List.replicate 1025 7))) none) PRIMARY_PATH 0).map
      (fun r => (r.2.1.any Event.erase_failed, erase_addrs r.2.1))
      = some (false, [0x12000, 0x12100, 0x12200, 0x12300, 0x12400])) ∧
    ∃ res evs clk', flash_firmware samd21 good_env (card (some flag_file)
        (some (stored (List.replicate 1025 7))) none) PRIMARY_PATH 0
        = some (res, evs, clk') ∧
      ((∀ ev ∈ evs, ev.erase_failed = false) →
        erase_addrs evs =
          (List.range (ceil_div (f_size (stored (List.replicate 1025 7)))
            samd21.NVMCTRL_ROW_SIZE)).map
            (fun i => APP_START_ADDRESS + i * samd21.NVMCTRL_ROW_SIZE) ∧
        ∀ a ∈ erase_addrs evs, samd21.NVMCTRL_ROW_SIZE ∣ a) :=
  have hsize : 1024 ≤ f_size (stored (List.replicate 1025 7)) := by
    simp only [f_size, stored, List.length_replicate]
    decide
  have hfit : f_size (stored (List.replicate 1025 7)) ≤ samd21_region_length := by
    simp only [f_size, stored, List.length_replicate]
    decide
  have halign : samd21.NVMCTRL_ROW_SIZE ∣ APP_START_ADDRESS := ⟨288, rfl⟩
  ⟨⟨⟨by decide, halign, by decide, hsize, hfit⟩, by decide!⟩,
    erase_addresses_ascending samd21 good_env
      (card (some flag_file) (some (stored (List.replicate 1025 7))) none) PRIMARY_PATH 0
      (stored (List.replicate 1025 7)) samd21_region_length
      (by decide) halign (by decide) rfl hsize hfit⟩

/-- C18 (as stated, refuted): for a file of `2^32 - 1` bytes whose reads and page writes
all succeed, `flash_firmware` returns `true`, and its page write of index 67107712 is
given address `0`, after the write of index 67107711 at `0xFFFFFFC0`: the address is not
`APP_START_ADDRESS + 67107712 * PAGE_SIZE = 2^32` and did not increase. -/
theorem write_address_wraps_counterexample :
    ∃ res evs clk', flash_firmware samd21 good_env
        (card (some flag_file) (some huge_zero_image) none) PRIMARY_PATH 0
        = some (res, evs, clk') ∧
      res = true ∧
      ((writes evs).map (fun w => w.1))[67107711]? = some 4294967232 ∧
      ((writes evs).map (fun w => w.1))[67107712]? = some 0 ∧
      APP_START_ADDRESS + 67107712 * samd21.NVMCTRL_PAGE_SIZE = 4294967296 := by
  have he : good_env.nvm_ok := ⟨fun _ _ => rfl, fun _ _ _ => rfl⟩
  have hok : huge_zero_image.reads_ok := fun _ _ _ => ⟨rfl, List.length_replicate _ _⟩
  have hopen : card (some flag_file) (some huge_zero_image) none PRIMARY_PATH
      = some huge_zero_image := rfl
  have hsize : 1024 ≤ f_size huge_zero_image := by decide
  obtain ⟨wr, hwr, _, hcount, hff⟩ :=
    flash_clean_run samd21 good_env _ PRIMARY_PATH 0 huge_zero_image (by decide) he hok
      hopen hsize
  have hlen : (writes wr.2.1).length = 67108864 := by
    rw [writes_length, hcount]
    decide
  have haddrs := write_loop_write_addrs samd21 good_env PRIMARY_PATH huge_zero_image _ _ _ _ _
    wr hwr (by decide)
  rw [hlen] at haddrs
  have hw : writes (attempt_events PRIMARY_PATH (Event.f_open PRIMARY_PATH FR_OK ::
      ((List.range (rows_to_erase samd21 (f_size huge_zero_image))).map
        (erase_ok_event samd21) ++ wr.2.1 ++ [Event.f_close PRIMARY_PATH])) true)
      = writes wr.2.1 := by
    rw [writes_attempt_events, writes_append, writes_append]
    have h0 : rows_to_erase samd21 (f_size huge_zero_image) = 0 := by decide
    rw [h0]
    show [] ++ writes wr.2.1 ++ [] = _
    rw [List.nil_append, List.append_nil]
  refine ⟨_, _, _, hff, rfl, ?_, ?_, by decide⟩
  · rw [hw, haddrs, range_map_getElem _ _ _ (by decide)]
    decide
  · rw [hw, haddrs, range_map_getElem _ _ _ (by decide)]
    decide

/-- C18 (amended): every `nvm_write_buffer` call of `flash_firmware` has length
`NVMCTRL_PAGE_SIZE` and a buffer of `NVMCTRL_PAGE_SIZE` bytes, and the call of index `k`
has the address `(APP_START_ADDRESS + k * NVMCTRL_PAGE_SIZE) mod 2^32`, whatever number
of bytes each read returned.  As long as the `n` pages written end inside the 32-bit
address space (`APP_START_ADDRESS + n * PAGE_SIZE ≤ 2^32`, which holds for every file
that fits the flash region), the address of call `k` is
`APP_START_ADDRESS + k * NVMCTRL_PAGE_SIZE`: it starts at the region base and increases
by one page per call, and is page-aligned when the region base is. -/
theorem write_calls_are_consecutive_pages (c : Chip) (e : Env) (files : Files)
    (filename : String) (clk : Nat) :
    ∃ res evs clk', flash_firmware c e files filename clk = some (res, evs, clk') ∧
      (∀ w ∈ writes evs, w.2.2 = c.NVMCTRL_PAGE_SIZE ∧ w.2.1.length = c.NVMCTRL_PAGE_SIZE) ∧
      (writes evs).map (fun w => w.1) =
        (List.range (writes evs).length).map
          (fun k => (APP_START_ADDRESS + k * c.NVMCTRL_PAGE_SIZE) % 4294967296) ∧
      (APP_START_ADDRESS + (writes evs).length * c.NVMCTRL_PAGE_SIZE ≤ 4294967296 →
        (writes evs).map (fun w => w.1) =
          (List.range (writes evs).length).map
            (fun k => APP_START_ADDRESS + k * c.NVMCTRL_PAGE_SIZE) ∧
        (c.NVMCTRL_PAGE_SIZE ∣ APP_START_ADDRESS →
          ∀ w ∈ writes evs, c.NVMCTRL_PAGE_SIZE ∣ w.1)) := by
  obtain ⟨res, evs, clk', hff, _, hwr⟩ := flash_firmware_nvm c e files filename clk
  have hmod : (∀ w ∈ writes evs,
        w.2.2 = c.NVMCTRL_PAGE_SIZE ∧ w.2.1.length = c.NVMCTRL_PAGE_SIZE) ∧
      (writes evs).map (fun w => w.1) =
        (List.range (writes evs).length).map
          (fun k => (APP_START_ADDRESS + k * c.NVMCTRL_PAGE_SIZE) % 4294967296) := by
    rcases hwr with h | ⟨bf, clk0, wr, _, _, hloop, _, h⟩
    · rw [h]
      exact ⟨fun w hw => (by cases hw), rfl⟩
    · rw [h]
      refine ⟨?_, write_loop_write_addrs c e filename bf _ _ _ _ _ wr hloop (by decide)⟩
      rintro ⟨a, buffer, len⟩ hw
      obtain ⟨st, hst⟩ := (mem_writes _ _ _ _).mp hw
      exact write_loop_page c e filename bf _ _ _ _ _ wr hloop a buffer len st hst
  refine ⟨res, evs, clk', hff, hmod.1, hmod.2, ?_⟩
  intro hfit
  have hlist : (writes evs).map (fun w => w.1) =
      (List.range (writes evs).length).map
        (fun k => APP_START_ADDRESS + k * c.NVMCTRL_PAGE_SIZE) := by
    rw [hmod.2]
    apply List.map_congr_left
    intro k hk
    exact page_addr_no_wrap c.NVMCTRL_PAGE_SIZE _ k (List.mem_range.mp hk) hfit
  refine ⟨hlist, ?_⟩
  intro halign w hw
  have hmem : w.1 ∈ (writes evs).map (fun w => w.1) := List.mem_map.mpr ⟨w, hw, rfl⟩
  rw [hlist, List.mem_map] at hmem
  obtain ⟨k, _, hk⟩ := hmem
  rw [← hk]
  exact Dvd.dvd.add halign (Dvd.intro_left k rfl)

theorem write_calls_are_consecutive_pages_witness :
    (flash_firmware samd21 good_env
        (card (some flag_file) (some (stored (List.replicate 1025 7))) none) PRIMARY_PATH 0).map
      (fun r => (writes r.2.1).map (fun w => (w.1, w.2.1.length, w.2.2)))
      = some ((List.range 17).map (fun k => (0x12000 + k * 64, 64, 64))) ∧
    ∃ res evs clk', flash_firmware samd21 good_env
        (card (some flag_file) (some (stored (List.replicate 1025 7))) none) PRIMARY_PATH 0
        = some (res, evs, clk') ∧
      (∀ w ∈ writes evs,
        w.2.2 = samd21.NVMCTRL_PAGE_SIZE ∧ w.2.1.length = samd21.NVMCTRL_PAGE_SIZE) ∧
      (writes evs).map (fun w => w.1) =
        (List.range (writes evs).length).map
          (fun k => (APP_START_ADDRESS + k * samd21.NVMCTRL_PAGE_SIZE) % 4294967296) ∧
      (APP_START_ADDRESS + (writes evs).length * samd21.NVMCTRL_PAGE_SIZE ≤ 4294967296 →
        (writes evs).map (fun w => w.1) =
          (List.range (writes evs).length).map
            (fun k => APP_START_ADDRESS + k * samd21.NVMCTRL_PAGE_SIZE) ∧
        (samd21.NVMCTRL_PAGE_SIZE ∣ APP_START_ADDRESS →
          ∀ w ∈ writes evs, samd21.NVMCTRL_PAGE_SIZE ∣ w.1)) :=
  ⟨by decide!,
    write_calls_are_consecutive_pages samd21 good_env
      (card (some flag_file) (some (stored (List.replicate 1025 7))) none) PRIMARY_PATH 0⟩

/-- C17: for a file that opens and holds `content` of length `F` with
`1024 ≤ F ≤ FlashRegion.length` (the region lying in the 32-bit address space), when
`flash_firmware` returns `true` its `nvm_write_buffer` calls are, in order, the pages
`k = 0, 1, ..., ceil(F / PAGE_SIZE) - 1` of the file, each at
`APP_START_ADDRESS + k * PAGE_SIZE` and carrying the file bytes
`[k * PAGE_SIZE, min((k + 1) * PAGE_SIZE, F))`; so for every offset `j < F` the byte
written at `APP_START_ADDRESS + j` is byte `j` of the file. -/
theorem flashed_bytes_reproduce_file (c : Chip) (e : Env) (files : Files)
    (filename : String) (clk : Nat) (binFile : ImageFile) (content : List Nat) (length : Nat)
    (hP : 0 < c.NVMCTRL_PAGE_SIZE) (hregion : APP_START_ADDRESS + length ≤ 4294967296)
    (hopen : files filename = some binFile) (hfile : reads_from binFile content)
    (hsize : 1024 ≤ content.length) (hfit : content.length ≤ length) :
    ∃ res evs clk', flash_firmware c e files filename clk = some (res, evs, clk') ∧
      (res = true →
        writes evs =
          (List.range (ceil_div content.length c.NVMCTRL_PAGE_SIZE)).map
            (fun k => (APP_START_ADDRESS + k * c.NVMCTRL_PAGE_SIZE, file_page c content k,
              c.NVMCTRL_PAGE_SIZE)) ∧
        ∀ j, j < content.length → ∃ a buffer,
          (a, buffer, c.NVMCTRL_PAGE_SIZE) ∈ writes evs ∧
          a ≤ APP_START_ADDRESS + j ∧ APP_START_ADDRESS + j < a + c.NVMCTRL_PAGE_SIZE ∧
          buffer[APP_START_ADDRESS + j - a]? = content[j]?) := by
  have hs : content.length < 4294967296 := by
    have : APP_START_ADDRESS = 73728 := rfl
    omega
  have hfs : f_size binFile = content.length := by
    unfold f_size
    rw [hfile.1]
    exact Nat.mod_eq_of_lt hs
  rcases flash_firmware_opened c e files filename clk binFile hopen (by omega) with
    ⟨_, hff⟩ | ⟨_, wr, hw, hff⟩
  · exact ⟨_, _, _, hff, (by intro h; cases h)⟩
  · refine ⟨_, _, _, hff, ?_⟩
    intro hok
    rw [hfs] at hw
    have hlist := write_loop_writes c e filename binFile content hP hfile (by omega)
      (content.length + 1) 0 _ wr (by rw [Nat.zero_mul, Nat.add_zero]; exact hw) hok
      (by rw [Nat.zero_mul]; exact Nat.zero_le _)
    simp only [Nat.zero_mul, Nat.sub_zero, Nat.zero_add] at hlist
    rw [writes_flash_body]
    refine ⟨hlist, ?_⟩
    intro j hj
    have hdm := Nat.div_add_mod j c.NVMCTRL_PAGE_SIZE
    have hmod := Nat.mod_lt j hP
    have hmul : j / c.NVMCTRL_PAGE_SIZE * c.NVMCTRL_PAGE_SIZE
        = c.NVMCTRL_PAGE_SIZE * (j / c.NVMCTRL_PAGE_SIZE) := Nat.mul_comm _ _
    refine ⟨APP_START_ADDRESS + j / c.NVMCTRL_PAGE_SIZE * c.NVMCTRL_PAGE_SIZE,
      file_page c content (j / c.NVMCTRL_PAGE_SIZE), ?_, by omega, by omega, ?_⟩
    · rw [hlist]
      exact List.mem_map.mpr ⟨j / c.NVMCTRL_PAGE_SIZE,
        List.mem_range.mpr (div_lt_ceil_div j _ _ hP hj), rfl⟩
    · have hidx : APP_START_ADDRESS + j
          - (APP_START_ADDRESS + j / c.NVMCTRL_PAGE_SIZE * c.NVMCTRL_PAGE_SIZE)
          = j % c.NVMCTRL_PAGE_SIZE := by omega
      rw [hidx]
      exact file_page_byte c content j hP hj

theorem flashed_bytes_reproduce_file_witness :
    ((0 < samd21.NVMCTRL_PAGE_SIZE ∧
      APP_START_ADDRESS + samd21_region_length ≤ 4294967296 ∧
      card (some flag_file) (some (stored (List.replicate 1025 7))) none PRIMARY_PATH
        = some (stored (List.replicate 1025 7)) ∧
      reads_from (stored (List.replicate 1025 7)) (List.replicate 1025 7) ∧
      1024 ≤ (List.replicate 1025 7).length ∧
      (List.replicate 1025 7).length ≤ samd21_region_length) ∧
    (flash_firmware samd21 good_env
        (card (some flag_file) (some (stored (List.replicate 1025 7))) none)
        PRIMARY_PATH 0).map (fun r => (r.1, (writes r.2.1).length,
          (writes r.2.1).getLast?))
      = some (true, 17, some (0x12400, 7 :: List.replicate 63 0xFF, 64))) ∧
    ∃ res evs clk', flash_firmware samd21 good_env
        (card (some flag_file) (some (stored (List.replicate 1025 7))) none) PRIMARY_PATH 0
        = some (res, evs, clk') ∧
      (res = true →
        writes evs =
          (List.range (ceil_div (List.replicate 1025 7).length
              samd21.NVMCTRL_PAGE_SIZE)).map
            (fun k => (APP_START_ADDRESS + k * samd21.NVMCTRL_PAGE_SIZE,
              file_page samd21 (List.replicate 1025 7) k, samd21.NVMCTRL_PAGE_SIZE)) ∧
        ∀ j, j < (List.replicate 1025 7).length → ∃ a buffer,
          (a, buffer, samd21.NVMCTRL_PAGE_SIZE) ∈ writes evs ∧
          a ≤ APP_START_ADDRESS + j ∧
          APP_START_ADDRESS + j < a + samd21.NVMCTRL_PAGE_SIZE ∧
          buffer[APP_START_ADDRESS + j - a]? = (List.replicate 1025 7)[j]?) :=
  have h1 : 1024 ≤ (List.replicate 1025 7).length := by
    rw [List.length_replicate]; decide
  have h2 : (List.replicate 1025 7).length ≤ samd21_region_length := by
    rw [List.length_replicate]; decide
  ⟨⟨⟨by decide, by decide, rfl, ⟨rfl, fun _ _ _ => rfl⟩, h1, h2⟩, by decide!⟩,
    flashed_bytes_reproduce_file samd21 good_env
      (card (some flag_file) (some (stored (List.replicate 1025 7))) none) PRIMARY_PATH 0
      (stored (List.replicate 1025 7)) (List.replicate 1025 7) samd21_region_length
      (by decide) (by decide) rfl ⟨rfl, fun _ _ _ => rfl⟩ h1 h2⟩

/-- C16 (Scenario B): with the card mounted, the flag present and `Application.bin`
holding 2000 bytes, when every read and every NVM call succeeds, `main` checks the flag,
calls `flash_firmware("0:Application.bin")` once, which returns `true` after exactly
`ceil(2000 / ROW_SIZE)` erase calls followed by exactly `ceil(2000 / PAGE_SIZE)` page
writes (the last one carrying the final `2000 mod PAGE_SIZE` bytes of the file, padded
with `0xFF`, when that number is not zero); then `main` deletes the flag and goes on to
`jumpToApplication`.  No step of the boot opens `g_application.bin`.  (The deletion of the
flag is one of the storage operations that succeed.) -/
theorem scenario_B_flashes_primary (c : Chip) (e : Env) (files : Files)
    (binFile : ImageFile) (content : List Nat)
    (hc : c.wf) (halign : c.NVMCTRL_ROW_SIZE ∣ APP_START_ADDRESS)
    (hm : (StartFilesystemAndTest e).1 = true) (he : e.nvm_ok)
    (hflag : (files FLAG_PATH).isSome = true)
    (hprim : files PRIMARY_PATH = some binFile)
    (hfile : reads_from binFile content)
    (hreads : ∀ fptr btr, (binFile.read fptr btr).1 = FR_OK)
    (hunl : e.f_unlink = FR_OK)
    (hlen : content.length = 2000) :
    ∃ out body, main c e files = some out ∧
      out.trace = mounted_events e ++ (flag_found_events ++
        attempt_events PRIMARY_PATH body true ++ [Event.f_unlink FLAG_PATH] ++
        ([Event.delay_cycles_ms 100, Event.DeinitializeSerialConsole, Event.sd_mmc_deinit]
          ++ jumpToApplication c)) ∧
      out.files = f_unlink FR_OK files FLAG_PATH ∧
      (∀ ev ∈ body, ev.is_flash_step PRIMARY_PATH = true) ∧
      (∀ ev ∈ out.trace, ev.is_open_of GOLDEN_PATH = false) ∧
      nvm_pattern body =
        List.replicate (ceil_div 2000 c.NVMCTRL_ROW_SIZE) true ++
          List.replicate (ceil_div 2000 c.NVMCTRL_PAGE_SIZE) false ∧
      (2000 % c.NVMCTRL_PAGE_SIZE ≠ 0 →
        last_write_buffer body =
          some (content.drop (2000 - 2000 % c.NVMCTRL_PAGE_SIZE) ++
            List.replicate (c.NVMCTRL_PAGE_SIZE - 2000 % c.NVMCTRL_PAGE_SIZE) 0xFF)) := by
  obtain ⟨hP, _, hR, _⟩ := hc
  have hs : content.length < 4294967296 := by rw [hlen]; decide
  have hfs : f_size binFile = content.length := by
    unfold f_size
    rw [hfile.1]
    exact Nat.mod_eq_of_lt hs
  have hsize : 1024 ≤ f_size binFile := by rw [hfs, hlen]; decide
  have hok := reads_ok_of_reads_from binFile content hfile hs hreads
  obtain ⟨wr, hwr, hres, hcount, hff⟩ :=
    flash_clean_run c e files PRIMARY_PATH 0 binFile hP he hok hprim hsize
  have hle : c.NVMCTRL_ROW_SIZE ≤ APP_START_ADDRESS := Nat.le_of_dvd (by decide) halign
  have happ : APP_START_ADDRESS = 73728 := rfl
  have hrows : rows_to_erase c (f_size binFile) = ceil_div 2000 c.NVMCTRL_ROW_SIZE := by
    rw [hfs, hlen]
    exact rows_to_erase_eq c 2000 hR (by omega)
  have hsteps : ∀ ev ∈ Event.f_open PRIMARY_PATH FR_OK ::
      ((List.range (rows_to_erase c (f_size binFile))).map (erase_ok_event c)
        ++ wr.2.1 ++ [Event.f_close PRIMARY_PATH]), ev.is_flash_step PRIMARY_PATH = true := by
    intro ev hev
    rcases List.mem_cons.mp hev with h | h
    · rw [h]; rfl
    · rcases List.mem_append.mp h with h1 | h1
      · rcases List.mem_append.mp h1 with h2 | h2
        · obtain ⟨k, _, hk⟩ := List.mem_map.mp h2
          rw [← hk]; rfl
        · exact write_loop_steps c e PRIMARY_PATH binFile _ _ _ _ _ wr hwr ev h2
      · rw [List.mem_singleton.mp h1]; rfl
  refine ⟨Outcome.mk (mounted_events e ++ (flag_found_events ++
        attempt_events PRIMARY_PATH (Event.f_open PRIMARY_PATH FR_OK ::
          ((List.range (rows_to_erase c (f_size binFile))).map (erase_ok_event c)
            ++ wr.2.1 ++ [Event.f_close PRIMARY_PATH])) true ++ [Event.f_unlink FLAG_PATH] ++
        ([Event.delay_cycles_ms 100, Event.DeinitializeSerialConsole, Event.sd_mmc_deinit]
          ++ jumpToApplication c))) (f_unlink FR_OK files FLAG_PATH),
    _, ?_, rfl, rfl, hsteps, ?_, ?_, ?_⟩
  · rw [main_mounted c e files hm, update_and_launch_primary_ok c e files _ _ hflag hff,
      hunl]
    rfl
  · intro ev hev
    rcases List.mem_append.mp hev with h | h
    · simp only [mounted_events, List.mem_cons, List.mem_singleton, List.not_mem_nil,
        or_false] at h
      rcases h with h | h | h <;> rw [h] <;> rfl
    · rcases List.mem_append.mp h with h1 | h1
      · rcases List.mem_append.mp h1 with h2 | h2
        · rcases List.mem_append.mp h2 with h3 | h3
          · simp only [flag_found_events, List.mem_cons, List.mem_singleton,
              List.not_mem_nil, or_false] at h3
            rcases h3 with h3 | h3 <;> rw [h3] <;> decide
          · rw [mem_attempt_events] at h3
            rcases h3 with h4 | h4 | h4
            · rw [h4]; rfl
            · have hst := hsteps ev h4
              cases ev <;> first | rfl | cases hst | skip
              rename_i p r
              have hp : p = PRIMARY_PATH := of_decide_eq_true hst
              rw [hp]
              show decide (PRIMARY_PATH = GOLDEN_PATH) = false
              decide
            · rw [h4]; rfl
        · rw [List.mem_singleton.mp h2]; rfl
      · simp only [jumpToApplication, List.cons_append, List.nil_append, List.mem_cons,
          List.mem_singleton, List.not_mem_nil, or_false] at h1
        rcases h1 with h1 | h1 | h1 | h1 | h1 | h1 <;> rw [h1] <;> rfl
  · rw [← List.singleton_append, nvm_pattern_append, nvm_pattern_append, nvm_pattern_append,
      nvm_pattern_ok_events, List.length_range,
      nvm_pattern_of_no_erase _ (write_loop_not_erase c e PRIMARY_PATH binFile _ _ _ _ _ wr hwr),
      hcount, hrows, hfs, hlen]
    show [] ++ (_ ++ []) = _
    rw [List.nil_append, List.append_nil]
  · intro hpart
    rw [hfs] at hwr
    have hlast := write_loop_last_buffer c e PRIMARY_PATH binFile content hP hfile hs
      (by rw [hlen]; exact hpart) _ _ _ _ wr hwr hres (by rw [hlen]; decide) (Nat.dvd_zero _)
    rw [hlen] at hlast
    rw [← List.cons_append, ← List.cons_append, last_write_buffer_append_none _ _ (by
      intro ev hev
      rw [List.mem_singleton.mp hev]
      rfl)]
    exact last_write_buffer_append_some _ _ _ hlast

theorem scenario_B_flashes_primary_witness :
    ((samd21.wf ∧ samd21.NVMCTRL_ROW_SIZE ∣ APP_START_ADDRESS ∧
      (StartFilesystemAndTest good_env).1 = true ∧ good_env.nvm_ok ∧
      good_env.f_unlink = FR_OK ∧ (List.replicate 2000 7).length = 2000) ∧
    (main samd21 good_env
        (card (some flag_file) (some (stored (List.replicate 2000 7))) none)).map
      (fun out => (nvm_pattern out.trace, last_write_buffer out.trace, calls out.trace,
        (out.trace.filter Event.is_unlink).length, (out.files FLAG_PATH).isSome))
      = some (List.replicate 8 true ++ List.replicate 32 false,
          some (List.replicate 16 7 ++ List.replicate 48 0xFF), [PRIMARY_PATH], 1, false)) ∧
    ∃ out body, main samd21 good_env
        (card (some flag_file) (some (stored (List.replicate 2000 7))) none) = some out ∧
      out.trace = mounted_events good_env ++ (flag_found_events ++
        attempt_events PRIMARY_PATH body true ++ [Event.f_unlink FLAG_PATH] ++
        ([Event.delay_cycles_ms 100, Event.DeinitializeSerialConsole, Event.sd_mmc_deinit]
          ++ jumpToApplication samd21)) ∧
      out.files = f_unlink FR_OK
        (card (some flag_file) (some (stored (List.replicate 2000 7))) none) FLAG_PATH ∧
      (∀ ev ∈ body, ev.is_flash_step PRIMARY_PATH = true) ∧
      (∀ ev ∈ out.trace, ev.is_open_of GOLDEN_PATH = false) ∧
      nvm_pattern body =
        List.replicate (ceil_div 2000 samd21.NVMCTRL_ROW_SIZE) true ++
          List.replicate (ceil_div 2000 samd21.NVMCTRL_PAGE_SIZE) false ∧
      (2000 % samd21.NVMCTRL_PAGE_SIZE ≠ 0 →
        last_write_buffer body =
          some ((List.replicate 2000 7).drop (2000 - 2000 % samd21.NVMCTRL_PAGE_SIZE) ++
            List.replicate (samd21.NVMCTRL_PAGE_SIZE - 2000 % samd21.NVMCTRL_PAGE_SIZE)
              0xFF)) :=
  have hwf : samd21.wf := by
    unfold Chip.wf samd21
    exact ⟨by decide, ⟨4, rfl⟩, by decide, by decide⟩
  have halign : samd21.NVMCTRL_ROW_SIZE ∣ APP_START_ADDRESS := ⟨288, rfl⟩
  have he : good_env.nvm_ok := ⟨fun _ _ => rfl, fun _ _ _ => rfl⟩
  have hlen : (List.replicate 2000 7).length = 2000 := List.length_replicate _ _
  ⟨⟨⟨hwf, halign, rfl, he, rfl, hlen⟩, by decide!⟩,
    scenario_B_flashes_primary samd21 good_env
      (card (some flag_file) (some (stored (List.replicate 2000 7))) none)
      (stored (List.replicate 2000 7)) (List.replicate 2000 7) hwf halign rfl he rfl rfl
      ⟨rfl, fun _ _ _ => rfl⟩ (fun _ _ => rfl) rfl hlen⟩

/-! ## Termination of the write loop, bytes read and closing of the file -/

/-- C24: the page-write loop of `flash_firmware` terminates.  Started with any
`total_read ≤ file_size` (the file size is the 32-bit value `f_size` reports, the reads
deliver at most the number of bytes requested) and a bound above `file_size - total_read`
on its iterations, it returns a result after at most `file_size - total_read` reads; and
an iteration either returns `false`, or leaves the loop on a read of zero bytes, or
continues with a strictly larger `total_read` that is still at most `file_size`.  So every
call of `flash_firmware` returns, after at most `file_size` reads. -/
theorem write_loop_terminates (c : Chip) (e : Env) (files : Files) (filename : String)
    (binFile : ImageFile) (fuel current_addr total_read clk : Nat)
    (htr : total_read ≤ f_size binFile) (hfuel : f_size binFile - total_read < fuel) :
    (∃ r, write_loop c e filename binFile (f_size binFile) fuel current_addr total_read clk
        = some r ∧
      (r.2.1.filter Event.is_read).length ≤ f_size binFile - total_read ∧
      (total_read < f_size binFile →
        r.1 = false ∨
        ((read_reply c binFile (f_size binFile) total_read).2.length = 0 ∧
          r = (true, [read_event c filename binFile (f_size binFile) total_read], clk)) ∨
        (total_read <
            add32 total_read (read_reply c binFile (f_size binFile) total_read).2.length ∧
          add32 total_read (read_reply c binFile (f_size binFile) total_read).2.length
            ≤ f_size binFile ∧
          ∃ r', write_loop c e filename binFile (f_size binFile) (fuel - 1)
              (add32 current_addr c.NVMCTRL_PAGE_SIZE)
              (add32 total_read (read_reply c binFile (f_size binFile) total_read).2.length)
              (clk + 1) = some r' ∧
            r.2.1 = read_event c filename binFile (f_size binFile) total_read ::
              write_event c e binFile (f_size binFile) current_addr total_read clk ::
              r'.2.1))) ∧
    (∃ res evs clk', flash_firmware c e files filename clk = some (res, evs, clk') ∧
      ∀ bf, files filename = some bf → (evs.filter Event.is_read).length ≤ f_size bf) := by
  have hs := f_size_lt binFile
  constructor
  · obtain ⟨r, hr⟩ := write_loop_total c e filename binFile (f_size binFile) hs fuel
      current_addr total_read clk htr hfuel
    refine ⟨r, hr, write_loop_reads_le c e filename binFile _ hs _ _ _ _ r hr htr, ?_⟩
    intro hlt
    obtain ⟨fuel', hf⟩ : ∃ fuel', fuel = fuel' + 1 := ⟨fuel - 1, by omega⟩
    rw [hf] at hr ⊢
    rcases write_loop_inv c e filename binFile (f_size binFile) fuel' current_addr total_read
      clk r hr with
      ⟨hnlt, _⟩ | ⟨_, _, h⟩ | ⟨_, _, hz, h⟩ | ⟨_, _, _, _, h⟩ | ⟨_, _, hnz, _, r', hr', h⟩
    · exact absurd hlt hnlt
    · left; rw [h]
    · right; left; exact ⟨hz, h⟩
    · left; rw [h]
    · right; right
      obtain ⟨hadd, hle⟩ := add32_total_read c binFile (f_size binFile) total_read hs hlt
      refine ⟨by omega, by omega, r', ?_, by rw [h]⟩
      rw [Nat.add_sub_cancel]
      exact hr'
  · obtain ⟨res, evs, clk', hff, hreads⟩ := flash_firmware_reads c e files filename clk
    refine ⟨res, evs, clk', hff, ?_⟩
    intro bf hbf
    rcases hreads with ⟨_, hno⟩ | ⟨bf', wr, clk0, front, tail, hopen, _, hwr, _, hevs, hfront, htail⟩
    · rw [filter_read_of_no_read evs hno]
      exact Nat.zero_le _
    · rw [hbf] at hopen
      have hbf' := Option.some.inj hopen
      subst hbf'
      rw [hevs, List.filter_append, List.filter_append, filter_read_of_no_read front hfront,
        filter_read_of_no_read tail htail, List.nil_append, List.append_nil]
      have := write_loop_reads_le c e filename bf _ (f_size_lt bf) _ _ _ _ wr hwr
        (Nat.zero_le _)
      omega

theorem write_loop_terminates_witness :
    (1000 ≤ f_size short_reads_image ∧ f_size short_reads_image - 1000 < 25 ∧
      (write_loop samd21 good_env PRIMARY_PATH short_reads_image (f_size short_reads_image)
          25 0x12400 1000 4).map
        (fun r => (r.1, (r.2.1.filter Event.is_read).length)) = some (true, 2)) ∧
    ((∃ r, write_loop samd21 good_env PRIMARY_PATH short_reads_image
          (f_size short_reads_image) 25 0x12400 1000 4 = some r ∧
      (r.2.1.filter Event.is_read).length ≤ f_size short_reads_image - 1000 ∧
      (1000 < f_size short_reads_image →
        r.1 = false ∨
        ((read_reply samd21 short_reads_image (f_size short_reads_image) 1000).2.length = 0 ∧
          r = (true, [read_event samd21 PRIMARY_PATH short_reads_image
            (f_size short_reads_image) 1000], 4)) ∨
        (1000 < add32 1000 (read_reply samd21 short_reads_image
              (f_size short_reads_image) 1000).2.length ∧
          add32 1000 (read_reply samd21 short_reads_image
              (f_size short_reads_image) 1000).2.length
            ≤ f_size short_reads_image ∧
          ∃ r', write_loop samd21 good_env PRIMARY_PATH short_reads_image
              (f_size short_reads_image) (25 - 1)
              (add32 0x12400 samd21.NVMCTRL_PAGE_SIZE)
              (add32 1000 (read_reply samd21 short_reads_image
                (f_size short_reads_image) 1000).2.length)
              (4 + 1) = some r' ∧
            r.2.1 = read_event samd21 PRIMARY_PATH short_reads_image
                (f_size short_reads_image) 1000 ::
              write_event samd21 good_env short_reads_image (f_size short_reads_image)
                0x12400 1000 4 ::
              r'.2.1))) ∧
    (∃ res evs clk', flash_firmware samd21 good_env
        (card (some flag_file) (some short_reads_image) none) PRIMARY_PATH 4
        = some (res, evs, clk') ∧
      ∀ bf, card (some flag_file) (some short_reads_image) none PRIMARY_PATH = some bf →
        (evs.filter Event.is_read).length ≤ f_size bf)) :=
  ⟨⟨by decide, by decide, by decide!⟩,
    write_loop_terminates samd21 good_env
      (card (some flag_file) (some short_reads_image) none) PRIMARY_PATH short_reads_image
      25 0x12400 1000 4 (by decide) (by decide)⟩

/-- C27: in every call of `flash_firmware` whose `f_open` succeeded, whatever path the
call takes, exactly one `f_close` is issued, and it is the last call before the function
returns; when the `f_open` failed, no `f_close` is issued. -/
theorem file_closed_exactly_once (c : Chip) (e : Env) (files : Files) (filename : String)
    (clk : Nat) :
    ∃ res evs clk', flash_firmware c e files filename clk = some (res, evs, clk') ∧
      (files filename = none → evs.filter Event.is_close = []) ∧
      ((files filename).isSome = true →
        evs.filter Event.is_close = [Event.f_close filename] ∧
        ∃ pre, evs = pre ++
          [Event.f_close filename, Event.flash_firmware_returns filename res]) := by
  obtain ⟨res, evs, clk', hff, hnone, hsome⟩ := flash_firmware_closes c e files filename clk
  refine ⟨res, evs, clk', hff, ?_, ?_⟩
  · intro h
    exact List.filter_eq_nil_iff.mpr (fun ev hev => by rw [hnone h ev hev]; decide)
  · intro h
    obtain ⟨pre, hpre, hno⟩ := hsome h
    refine ⟨?_, pre, hpre⟩
    rw [hpre]
    exact closes_of_split filename res pre hno

theorem file_closed_exactly_once_witness :
    ((flash_firmware samd21 (write_limit_env 0x12080)
        (card (some flag_file) (some (stored (List.replicate 1024 7))) none)
        PRIMARY_PATH 0).map (fun r => (r.1, r.2.1.filter Event.is_close))
      = some (false, [Event.f_close PRIMARY_PATH]) ∧
    (flash_firmware samd21 good_env
        (card (some flag_file) (some empty_reads_image) none)
        PRIMARY_PATH 0).map (fun r => (r.1, r.2.1.filter Event.is_close))
      = some (true, [Event.f_close PRIMARY_PATH]) ∧
    (flash_firmware samd21 good_env (card (some flag_file) none none)
        PRIMARY_PATH 0).map (fun r => (r.1, r.2.1.filter Event.is_close))
      = some (false, [])) ∧
    ∃ res evs clk', flash_firmware samd21 (write_limit_env 0x12080)
        (card (some flag_file) (some (stored (List.replicate 1024 7))) none) PRIMARY_PATH 0
        = some (res, evs, clk') ∧
      (card (some flag_file) (some (stored (List.replicate 1024 7))) none PRIMARY_PATH = none →
        evs.filter Event.is_close = []) ∧
      ((card (some flag_file) (some (stored (List.replicate 1024 7))) none
          PRIMARY_PATH).isSome = true →
        evs.filter Event.is_close = [Event.f_close PRIMARY_PATH] ∧
        ∃ pre, evs = pre ++
          [Event.f_close PRIMARY_PATH, Event.flash_firmware_returns PRIMARY_PATH res]) :=
  ⟨⟨by decide!, by decide!, by decide!⟩,
    file_closed_exactly_once samd21 (write_limit_env 0x12080)
      (card (some flag_file) (some (stored (List.replicate 1024 7))) none) PRIMARY_PATH 0⟩

/-- C26 (the code diverges): for a file whose size is 1024 bytes but whose reads deliver
no byte from offset 512 on, `flash_firmware` returns `true` after reading 512 bytes and
writing 8 of the 16 pages: the empty read leaves the loop by `break` and the function goes
on to its successful end; for a file whose reads deliver no byte at all it returns `true`
without a single page write.  `main` then deletes the flag and launches the application
without trying the golden image. -/
theorem flash_reports_success_on_truncated_read :
    f_size truncated_image = 1024 ∧
    (flash_firmware samd21 good_env (card (some flag_file) (some truncated_image) none)
        PRIMARY_PATH 0).map
      (fun r => (r.1, bytes_read_total r.2.1, (r.2.1.filter Event.is_write).length))
      = some (true, 512, 8) ∧
    (flash_firmware samd21 good_env (card (some flag_file) (some empty_reads_image) none)
        PRIMARY_PATH 0).map
      (fun r => (r.1, bytes_read_total r.2.1, (r.2.1.filter Event.is_write).length))
      = some (true, 0, 0) ∧
    (main samd21 good_env
        (card (some flag_file) (some truncated_image)
          (some (stored (List.replicate 1024 7))))).map
      (fun out => (attempts out.trace, out.trace.filter Event.is_unlink,
        (out.files FLAG_PATH).isSome, (out.trace.filter Event.is_launch).length))
      = some ([(PRIMARY_PATH, true)], [Event.f_unlink FLAG_PATH], false, 1) := by
  refine ⟨by decide, by decide!, by decide!, by decide!⟩

/-- The bytes read by a call of `flash_firmware` never exceed the file size `F` reported
by `f_size`, and whenever the call returns `true` and none of its reads returned zero
bytes, the total number of bytes read equals `F`. -/
theorem successful_flash_reads_whole_file (c : Chip) (e : Env) (files : Files)
    (filename : String) (clk : Nat) (binFile : ImageFile)
    (hopen : files filename = some binFile) :
    ∃ res evs clk', flash_firmware c e files filename clk = some (res, evs, clk') ∧
      bytes_read_total evs ≤ f_size binFile ∧
      (res = true → (∀ ev ∈ evs, ev.read_empty = false) →
        bytes_read_total evs = f_size binFile) := by
  obtain ⟨res, evs, clk', hff, hreads⟩ := flash_firmware_reads c e files filename clk
  refine ⟨res, evs, clk', hff, ?_⟩
  rcases hreads with ⟨hres, hno⟩ |
    ⟨bf', wr, clk0, front, tail, hopen', _, hwr, hres, hevs, hfront, htail⟩
  · rw [bytes_read_total_of_no_read evs hno, hres]
    exact ⟨Nat.zero_le _, fun h => (by cases h)⟩
  · rw [hopen] at hopen'
    have hbf := Option.some.inj hopen'
    subst hbf
    have hb := write_loop_bytes c e filename binFile _ (f_size_lt binFile) _ _ _ _ wr hwr
      (Nat.zero_le _)
    rw [Nat.zero_add] at hb
    have htot : bytes_read_total evs = bytes_read_total wr.2.1 := by
      rw [hevs, bytes_read_total_append, bytes_read_total_append,
        bytes_read_total_of_no_read front hfront, bytes_read_total_of_no_read tail htail,
        Nat.zero_add, Nat.add_zero]
    rw [htot]
    refine ⟨hb.1, ?_⟩
    intro hok hne
    rw [hres] at hok
    apply hb.2 hok
    intro ev hev
    apply hne
    rw [hevs]
    exact List.mem_append_right _ (List.mem_append_left _ hev)

theorem successful_flash_reads_whole_file_witness :
    (card (some flag_file) (some short_reads_image) none PRIMARY_PATH
        = some short_reads_image ∧
      (flash_firmware samd21 good_env (card (some flag_file) (some short_reads_image) none)
          PRIMARY_PATH 0).map
        (fun r => (r.1, r.2.1.any Event.read_empty, bytes_read_total r.2.1))
        = some (true, false, 1024)) ∧
    ∃ res evs clk', flash_firmware samd21 good_env
        (card (some flag_file) (some short_reads_image) none) PRIMARY_PATH 0
        = some (res, evs, clk') ∧
      bytes_read_total evs ≤ f_size short_reads_image ∧
      (res = true → (∀ ev ∈ evs, ev.read_empty = false) →
        bytes_read_total evs = f_size short_reads_image) :=
  ⟨⟨rfl, by decide!⟩,
    successful_flash_reads_whole_file samd21 good_env
      (card (some flag_file) (some short_reads_image) none) PRIMARY_PATH 0
      short_reads_image rfl⟩

/-- C28: in every iteration of the page-write loop, `total_read` (the bytes read by the
earlier iterations) is below `file_size`, so the subtraction `file_size - total_read` does
not wrap around, and the number of bytes requested from the file is
`min(NVMCTRL_PAGE_SIZE, file_size - total_read)`, at least 1 and at most
`NVMCTRL_PAGE_SIZE`, the size of the page buffer. -/
theorem bytes_to_read_in_bounds (c : Chip) (e : Env) (files : Files) (filename : String)
    (clk : Nat) (hP : 0 < c.NVMCTRL_PAGE_SIZE) :
    ∃ res evs clk', flash_firmware c e files filename clk = some (res, evs, clk') ∧
      ∀ binFile, files filename = some binFile →
        ∀ pre p btr rr n post, evs = pre ++ Event.f_read p btr rr n :: post →
          bytes_read_total pre < f_size binFile ∧
          sub32 (f_size binFile) (bytes_read_total pre)
            = f_size binFile - bytes_read_total pre ∧
          btr = min c.NVMCTRL_PAGE_SIZE (f_size binFile - bytes_read_total pre) ∧
          1 ≤ btr ∧ btr ≤ c.NVMCTRL_PAGE_SIZE := by
  obtain ⟨res, evs, clk', hff, hreads⟩ := flash_firmware_reads c e files filename clk
  refine ⟨res, evs, clk', hff, ?_⟩
  intro binFile hopen pre p btr rr n post hsplit
  rcases hreads with ⟨_, hno⟩ |
    ⟨bf', wr, clk0, front, tail, hopen', _, hwr, _, hevs, hfront, htail⟩
  · exact (no_read_of_split evs pre post p btr rr n hno hsplit).elim
  · rw [hopen] at hopen'
    have hbf := Option.some.inj hopen'
    subst hbf
    rw [hevs] at hsplit
    obtain ⟨pre', hpre, hrest⟩ := split_after_front Event.is_read _ front _ pre post hsplit
      rfl hfront
    obtain ⟨post', hbody, _⟩ := split_before_others Event.is_read _ wr.2.1 tail pre' post
      hrest rfl htail
    have hs := f_size_lt binFile
    have hreq := write_loop_requests c e filename binFile _ hs _ _ _ _ wr hwr (Nat.zero_le _)
      pre' p btr rr n post' hbody
    have htot : bytes_read_total pre = bytes_read_total pre' := by
      rw [hpre, bytes_read_total_append, bytes_read_total_of_no_read front hfront,
        Nat.zero_add]
    rw [Nat.zero_add] at hreq
    rw [htot]
    obtain ⟨hlt, hbtr⟩ := hreq
    refine ⟨hlt, sub32_of_le (Nat.le_of_lt hlt) hs, ?_⟩
    rcases bytes_to_read_cases c (f_size binFile) (bytes_read_total pre') hlt hs with
      ⟨h1, h2⟩ | ⟨h1, h2⟩
    · rw [hbtr, h2, Nat.min_eq_left h1]
      exact ⟨rfl, hP, Nat.le_refl _⟩
    · rw [hbtr, h2, Nat.min_eq_right (Nat.le_of_lt h1)]
      exact ⟨rfl, by omega, Nat.le_of_lt h1⟩

theorem bytes_to_read_in_bounds_witness :
    (0 < samd21.NVMCTRL_PAGE_SIZE ∧
      (flash_firmware samd21 good_env
          (card (some flag_file) (some (stored (List.replicate 1050 7))) none)
          PRIMARY_PATH 0).map
        (fun r => r.2.1.filterMap Event.requested)
        = some (List.replicate 16 64 ++ [26])) ∧
    ∃ res evs clk', flash_firmware samd21 good_env
        (card (some flag_file) (some (stored (List.replicate 1050 7))) none) PRIMARY_PATH 0
        = some (res, evs, clk') ∧
      ∀ binFile, card (some flag_file) (some (stored (List.replicate 1050 7))) none
          PRIMARY_PATH = some binFile →
        ∀ pre p btr rr n post, evs = pre ++ Event.f_read p btr rr n :: post →
          bytes_read_total pre < f_size binFile ∧
          sub32 (f_size binFile) (bytes_read_total pre)
            = f_size binFile - bytes_read_total pre ∧
          btr = min samd21.NVMCTRL_PAGE_SIZE (f_size binFile - bytes_read_total pre) ∧
          1 ≤ btr ∧ btr ≤ samd21.NVMCTRL_PAGE_SIZE :=
  ⟨⟨by decide, by decide!⟩,
    bytes_to_read_in_bounds samd21 good_env
      (card (some flag_file) (some (stored (List.replicate 1050 7))) none) PRIMARY_PATH 0
      (by decide)⟩

/-! ## Independence of the image contents -/

/-- C22 (as stated, refuted): two files of 1024 bytes, every read of either returning
`FR_OK` and every NVM call succeeding; `flash_firmware` returns `true` for both, but makes
no page write for the one whose reads deliver no byte and sixteen page writes for the
other: the same statuses do not fix the program calls, the byte counts of the reads
matter. -/
theorem same_status_different_writes_counterexample :
    f_size empty_reads_image = f_size (stored (List.replicate 1024 7)) ∧
    (∀ fptr btr, (empty_reads_image.read fptr btr).1
      = ((stored (List.replicate 1024 7)).read fptr btr).1) ∧
    (flash_firmware samd21 good_env (card (some flag_file) (some empty_reads_image) none)
        PRIMARY_PATH 0).map (fun r => (r.1, write_targets r.2.1))
      = some (true, []) ∧
    (flash_firmware samd21 good_env
        (card (some flag_file) (some (stored (List.replicate 1024 7))) none)
        PRIMARY_PATH 0).map (fun r => (r.1, write_targets r.2.1))
      = some (true, (List.range 16).map (fun k => (0x12000 + 64 * k, 64))) := by
  refine ⟨?_, fun _ _ => rfl, by decide!, by decide!⟩
  simp only [f_size, stored, empty_reads_image, List.length_replicate]

/-- C22 (amended): for any two image files of the same size that both open, given the
same erase and program statuses (the status of a page write not depending on the data)
and reads that return the same result codes and the same numbers of bytes,
`flash_firmware` returns the same result after the same sequence of calls, which differ
only in the page data: in particular the erase calls have the same addresses and the
program calls the same addresses and lengths. -/
theorem flash_independent_of_image_bytes (c : Chip) (e : Env) (files1 files2 : Files)
    (filename : String) (clk : Nat) (f1 f2 : ImageFile)
    (hopen1 : files1 filename = some f1) (hopen2 : files2 filename = some f2)
    (hsize : f_size f1 = f_size f2) (hsame : same_read_replies f1 f2)
    (he : e.data_blind) :
    ∃ res evs1 evs2 clk', flash_firmware c e files1 filename clk = some (res, evs1, clk') ∧
      flash_firmware c e files2 filename clk = some (res, evs2, clk') ∧
      evs1.map Event.skeleton = evs2.map Event.skeleton ∧
      erase_addrs evs1 = erase_addrs evs2 ∧
      write_targets evs1 = write_targets evs2 := by
  obtain ⟨res, evs1, evs2, clk', h1, h2, hsk⟩ :=
    flash_firmware_blind c e files1 files2 filename clk f1 f2 hopen1 hopen2 hsize hsame he
  refine ⟨res, evs1, evs2, clk', h1, h2, hsk, ?_, ?_⟩
  · rw [← erase_addrs_skeleton evs1, hsk, erase_addrs_skeleton]
  · rw [← write_targets_skeleton evs1, hsk, write_targets_skeleton]

theorem flash_independent_of_image_bytes_witness :
    ((f_size (stored (List.replicate 1025 7)) = f_size (stored (List.replicate 1025 9)) ∧
      same_read_replies (stored (List.replicate 1025 7)) (stored (List.replicate 1025 9)) ∧
      (write_limit_env 0x12100).data_blind) ∧
    (flash_firmware samd21 (write_limit_env 0x12100)
        (card (some flag_file) (some (stored (List.replicate 1025 7))) none)
        PRIMARY_PATH 0).map (fun r => (r.1, write_targets r.2.1))
      = some (false, (List.range 5).map (fun k => (0x12000 + 64 * k, 64)))) ∧
    ∃ res evs1 evs2 clk', flash_firmware samd21 (write_limit_env 0x12100)
        (card (some flag_file) (some (stored (List.replicate 1025 7))) none) PRIMARY_PATH 0
        = some (res, evs1, clk') ∧
      flash_firmware samd21 (write_limit_env 0x12100)
        (card (some flag_file) (some (stored (List.replicate 1025 9))) none) PRIMARY_PATH 0
        = some (res, evs2, clk') ∧
      evs1.map Event.skeleton = evs2.map Event.skeleton ∧
      erase_addrs evs1 = erase_addrs evs2 ∧
      write_targets evs1 = write_targets evs2 :=
  have hsize : f_size (stored (List.replicate 1025 7))
      = f_size (stored (List.replicate 1025 9)) := by
    simp only [f_size, stored, List.length_replicate]
  have hsame : same_read_replies (stored (List.replicate 1025 7))
      (stored (List.replicate 1025 9)) := by
    intro fptr btr
    refine ⟨rfl, ?_⟩
    show ((List.replicate 1025 7).drop fptr |>.take btr).length
      = ((List.replicate 1025 9).drop fptr |>.take btr).length
    rw [List.length_take, List.length_take, List.length_drop, List.length_drop,
      List.length_replicate, List.length_replicate]
  have he : (write_limit_env 0x12100).data_blind := fun _ _ _ _ => rfl
  ⟨⟨⟨hsize, hsame, he⟩, by decide!⟩,
    flash_independent_of_image_bytes samd21 (write_limit_env 0x12100)
      (card (some flag_file) (some (stored (List.replicate 1025 7))) none)
      (card (some flag_file) (some (stored (List.replicate 1025 9))) none)
      PRIMARY_PATH 0 (stored (List.replicate 1025 7)) (stored (List.replicate 1025 9))
      rfl rfl hsize hsame he⟩

/-! ## What a boot changes on the card, and the order of the hand-off -/

/-- C21: in every boot, every file other than `0:FlagA.txt` is on the card afterwards
exactly as before, in particular `0:Application.bin` and `0:g_application.bin` (which the
bootloader only opens with `FA_READ`, reads and closes); the only call of the boot that
changes the card is `f_unlink("0:FlagA.txt")`. -/
theorem boot_leaves_images_untouched (c : Chip) (e : Env) (files : Files) :
    ∃ out, main c e files = some out ∧
      (∀ p, p ≠ FLAG_PATH → out.files p = files p) ∧
      out.files PRIMARY_PATH = files PRIMARY_PATH ∧
      out.files GOLDEN_PATH = files GOLDEN_PATH ∧
      (out.files FLAG_PATH = files FLAG_PATH ∨ out.files FLAG_PATH = none) ∧
      (∀ ev ∈ out.trace, ev.is_unlink = true → ev = Event.f_unlink FLAG_PATH) := by
  have hframe : ∀ (fs : Files), (fs = files ∨ fs = f_unlink e.f_unlink files FLAG_PATH) →
      (∀ p, p ≠ FLAG_PATH → fs p = files p) ∧
      (fs FLAG_PATH = files FLAG_PATH ∨ fs FLAG_PATH = none) := by
    intro fs h
    rcases h with h | h
    · rw [h]
      exact ⟨fun _ _ => rfl, Or.inl rfl⟩
    · rw [h]
      unfold f_unlink
      by_cases hres : e.f_unlink = FR_OK
      · rw [if_pos hres]
        refine ⟨?_, Or.inr ?_⟩
        · intro p hp
          show (if p = FLAG_PATH then none else files p) = files p
          rw [if_neg hp]
        · show (if FLAG_PATH = FLAG_PATH then none else files FLAG_PATH) = none
          rw [if_pos rfl]
      · rw [if_neg hres]
        exact ⟨fun _ _ => rfl, Or.inl rfl⟩
  obtain ⟨out, hmain, hcases⟩ := main_cases c e files
  refine ⟨out, hmain, ?_⟩
  rcases hcases with ⟨_, htr, hfiles⟩ | ⟨_, mid, htr, hmid, hfiles⟩
  · have hf := hframe out.files (Or.inl hfiles)
    refine ⟨hf.1, hf.1 _ (by decide), hf.1 _ (by decide), hf.2, ?_⟩
    intro ev hev hu
    rw [htr] at hev
    rcases List.mem_append.mp hev with h | h
    · rw [(mount_events_kinds e ev h).2] at hu
      cases hu
    · rcases List.mem_cons.mp h with h1 | h1
      · rw [h1] at hu; cases hu
      · rw [List.mem_singleton.mp h1] at hu; cases hu
  · have hf := hframe out.files hfiles
    refine ⟨hf.1, hf.1 _ (by decide), hf.1 _ (by decide), hf.2, ?_⟩
    intro ev hev hu
    rw [htr] at hev
    rcases List.mem_append.mp hev with h | h
    · rw [(mounted_events_kinds e ev h).2.1] at hu
      cases hu
    · rcases List.mem_append.mp h with h1 | h1
      · exact (hmid ev h1).2.2.2 hu
      · simp only [exit_bootloader, jumpToApplication, List.cons_append, List.nil_append,
          List.mem_cons, List.mem_singleton, List.not_mem_nil, or_false] at h1
        rcases h1 with h1 | h1 | h1 | h1 | h1 | h1 <;> rw [h1] at hu <;> cases hu

theorem boot_leaves_images_untouched_witness :
    (main samd21 good_env
        (card (some flag_file) (some unreadable_image) (some (stored (List.replicate 1024 7))))
      ).map (fun out => (attempts out.trace, out.trace.filter Event.is_unlink,
        (out.files FLAG_PATH).isSome, (out.files PRIMARY_PATH).isSome,
        (out.files GOLDEN_PATH).isSome))
      = some ([(PRIMARY_PATH, false), (GOLDEN_PATH, true)], [Event.f_unlink FLAG_PATH],
          false, true, true) ∧
    ∃ out, main samd21 good_env
        (card (some flag_file) (some unreadable_image) (some (stored (List.replicate 1024 7))))
        = some out ∧
      (∀ p, p ≠ FLAG_PATH → out.files p =
        card (some flag_file) (some unreadable_image)
          (some (stored (List.replicate 1024 7))) p) ∧
      out.files PRIMARY_PATH =
        card (some flag_file) (some unreadable_image)
          (some (stored (List.replicate 1024 7))) PRIMARY_PATH ∧
      out.files GOLDEN_PATH =
        card (some flag_file) (some unreadable_image)
          (some (stored (List.replicate 1024 7))) GOLDEN_PATH ∧
      (out.files FLAG_PATH =
          card (some flag_file) (some unreadable_image)
            (some (stored (List.replicate 1024 7))) FLAG_PATH ∨
        out.files FLAG_PATH = none) ∧
      (∀ ev ∈ out.trace, ev.is_unlink = true → ev = Event.f_unlink FLAG_PATH) :=
  ⟨by decide!,
    boot_leaves_images_untouched samd21 good_env
      (card (some flag_file) (some unreadable_image) (some (stored (List.replicate 1024 7))))⟩

/-- C25: a boot reaches the launcher exactly when the card mounts, and then its trace ends
with `DeinitializeSerialConsole`, `sd_mmc_deinit`, the load of the stack pointer from the
word at `APP_START_ADDRESS`, the setting of the vector table base and the call of the
reset vector, in this order and with nothing in between; the console is deinitialised
only once, so no flash or file call follows it. -/
theorem handoff_order (c : Chip) (e : Env) (files : Files) :
    ∃ out, main c e files = some out ∧
      ((∃ ev ∈ out.trace, ev.is_launch = true) ↔ (StartFilesystemAndTest e).1 = true) ∧
      ((∃ ev ∈ out.trace, ev.is_launch = true) →
        ∃ pre, out.trace = pre ++
            [Event.DeinitializeSerialConsole, Event.sd_mmc_deinit,
              Event.set_MSP APP_START_ADDRESS,
              Event.set_VTOR (APP_START_ADDRESS &&& c.SCB_VTOR_TBLOFF_Msk),
              Event.applicationCodeEntry APP_START_RESET_VEC_ADDRESS] ∧
          ∀ ev ∈ pre, ev ≠ Event.DeinitializeSerialConsole ∧ ev ≠ Event.sd_mmc_deinit ∧
            ev.is_launch = false) := by
  obtain ⟨out, hmain, hcases⟩ := main_cases c e files
  refine ⟨out, hmain, ?_⟩
  rcases hcases with ⟨hm, htr, _⟩ | ⟨hm, mid, htr, hmid, _⟩
  · have hno : ¬ ∃ ev ∈ out.trace, ev.is_launch = true := by
      rintro ⟨ev, hev, hl⟩
      rw [htr] at hev
      rcases List.mem_append.mp hev with h | h
      · rw [(mount_events_kinds e ev h).1] at hl
        cases hl
      · rcases List.mem_cons.mp h with h1 | h1
        · rw [h1] at hl; cases hl
        · rw [List.mem_singleton.mp h1] at hl; cases hl
    refine ⟨⟨fun h => absurd h hno, fun h => ?_⟩, fun h => absurd h hno⟩
    rw [hm] at h
    cases h
  · have hlaunch : ∃ ev ∈ out.trace, ev.is_launch = true := by
      refine ⟨Event.applicationCodeEntry APP_START_RESET_VEC_ADDRESS, ?_, rfl⟩
      rw [htr]
      simp [exit_bootloader, jumpToApplication]
    refine ⟨⟨fun _ => hm, fun _ => hlaunch⟩, fun _ => ?_⟩
    refine ⟨mounted_events e ++ (mid ++ [Event.delay_cycles_ms 100]), ?_, ?_⟩
    · rw [htr]
      simp [exit_bootloader, jumpToApplication]
    · intro ev hev
      rcases List.mem_append.mp hev with h | h
      · have hk := mounted_events_kinds e ev h
        exact ⟨hk.2.2.1, hk.2.2.2, hk.1⟩
      · rcases List.mem_append.mp h with h1 | h1
        · have hk := hmid ev h1
          exact ⟨hk.2.1, hk.2.2.1, hk.1⟩
        · rw [List.mem_singleton.mp h1]
          exact ⟨fun h => (by cases h), fun h => (by cases h), rfl⟩

theorem handoff_order_witness :
    (main samd21 good_env
        (card (some flag_file) (some (stored (List.replicate 1024 7))) none)).map
      (fun out => out.trace.drop (out.trace.length - 7))
      = some [Event.f_unlink FLAG_PATH, Event.delay_cycles_ms 100,
          Event.DeinitializeSerialConsole, Event.sd_mmc_deinit, Event.set_MSP 0x12000,
          Event.set_VTOR 0x12000, Event.applicationCodeEntry 0x12004] ∧
    ∃ out, main samd21 good_env
        (card (some flag_file) (some (stored (List.replicate 1024 7))) none) = some out ∧
      ((∃ ev ∈ out.trace, ev.is_launch = true) ↔ (StartFilesystemAndTest good_env).1 = true) ∧
      ((∃ ev ∈ out.trace, ev.is_launch = true) →
        ∃ pre, out.trace = pre ++
            [Event.DeinitializeSerialConsole, Event.sd_mmc_deinit,
              Event.set_MSP APP_START_ADDRESS,
              Event.set_VTOR (APP_START_ADDRESS &&& samd21.SCB_VTOR_TBLOFF_Msk),
              Event.applicationCodeEntry APP_START_RESET_VEC_ADDRESS] ∧
          ∀ ev ∈ pre, ev ≠ Event.DeinitializeSerialConsole ∧ ev ≠ Event.sd_mmc_deinit ∧
            ev.is_launch = false) :=
  ⟨by decide!,
    handoff_order samd21 good_env
      (card (some flag_file) (some (stored (List.replicate 1024 7))) none)⟩

/-! ## The echo pulse of the ultrasonic sensor -/

theorem duration_no_wrap (start_time end_time : Nat) (hs : start_time < 65536)
    (he : end_time < 65536) (h : start_time ≤ end_time) :
    duration start_time end_time = end_time - start_time := by
  unfold duration
  rw [if_pos h]
  exact Nat.mod_eq_of_lt (by omega)

theorem duration_wrap (start_time end_time : Nat) (hs : start_time < 65536)
    (he : end_time < 65536) (h : end_time < start_time) :
    duration start_time end_time + 1 = end_time + 65536 - start_time := by
  unfold duration
  rw [if_neg (by omega), Nat.mod_eq_of_lt (by omega)]
  omega

/-- C29 (the code diverges): with the rising edge at timer count `0xFFFF` and the falling
edge at count `0`, one tick later, after the 16-bit counter wrapped, `ECHO_PIN_ISR`
computes the duration `0`, while `(end_time - start_time) mod 2^16` is `1`; with edges at
`0xFFF0` and `0x0010` it computes `31` instead of `32`. -/
theorem echo_duration_off_by_one_on_wrap :
    (ECHO_PIN_ISR (ECHO_PIN_ISR echo_init 0xFFFF).1 0).2 = some 0 ∧
    ((0 : Int) - 0xFFFF) % 65536 = 1 ∧
    (ECHO_PIN_ISR (ECHO_PIN_ISR echo_init 0xFFF0).1 0x0010).2 = some 31 ∧
    ((0x0010 : Int) - 0xFFF0) % 65536 = 32 ∧
    (ECHO_PIN_ISR (ECHO_PIN_ISR echo_init 0x0010).1 0xFFF0).2 = some 0xFFE0 := by
  refine ⟨by decide, by decide, by decide, by decide, by decide⟩

/-! ## The gesture cache -/

/-- C30 (the code diverges): when the sensor reports valid data and a full FIFO of 32
datasets in two rounds, `APDS9960_ReadGesture` stores 64 datasets at the indices
`0, 1, ..., 63`, the last 32 of them beyond the 32 entries of the arrays; and after eight
such rounds 256 datasets were stored, `total_gestures` has wrapped to `0`, and the
function returns `false` as if no gesture data had been captured. -/
theorem gesture_cache_index_overruns :
    (APDS9960_ReadGesture [full_fifo, full_fifo, gesture_over]).map
      (fun r => (r.1, r.2.stores, r.2.gesture_cache.index, r.2.gesture_cache.total_gestures))
      = some (true, List.range 64, 64, 64) ∧
    (APDS9960_ReadGesture (List.replicate 8 full_fifo ++ [gesture_over])).map
      (fun r => (r.1, r.2.stores.length, r.2.gesture_cache.index,
        r.2.gesture_cache.total_gestures))
      = some (false, 256, 0, 0) := by
  constructor
  · decide!
  · decide!

/-! ## The update flag after a download -/

/-- C23 (the code diverges): an HTTP response `200` whose body fits the receive buffer
sets `COMPLETED` whatever `store_file_packet` did.  When `0:Application.bin` cannot be
created, no byte is stored and still `HTTP_DownloadFileTransaction` creates
`0:FlagA.txt`; and when the write of the body fails, so that the download is canceled, the
flag is created as well. -/
theorem flag_created_without_image :
    (HTTP_DownloadFileTransaction download_config image_denied
        [[HttpEvent.HTTP_CLIENT_CALLBACK_REQUESTED],
          [HttpEvent.HTTP_CLIENT_CALLBACK_RECV_RESPONSE 200 100 (some (List.replicate 100 0))]]
        download_start).map (fun d => d.calls)
      = some [StorageCall.http_client_send_request,
          StorageCall.f_open PRIMARY_PATH FR_DENIED,
          StorageCall.f_open FLAG_PATH FR_OK,
          StorageCall.f_write metadata_length FR_OK metadata_length,
          StorageCall.f_close] ∧
    (HTTP_DownloadFileTransaction download_config first_write_fails
        [[HttpEvent.HTTP_CLIENT_CALLBACK_REQUESTED],
          [HttpEvent.HTTP_CLIENT_CALLBACK_RECV_RESPONSE 200 100 (some (List.replicate 100 0))]]
        download_start).map
        (fun d => (d.calls, is_state_set d.down_state download_config.CANCELED))
      = some ([StorageCall.http_client_send_request,
          StorageCall.f_open PRIMARY_PATH FR_OK,
          StorageCall.f_write 100 FR_DISK_ERR 0,
          StorageCall.f_close,
          StorageCall.f_open FLAG_PATH FR_OK,
          StorageCall.f_write metadata_length FR_OK metadata_length,
          StorageCall.f_close], true) := by
  constructor
  · decide
  · decide

end Bootloader
